import Mathlib

/-!
# Verification of the nginx-flow configuration core

Shallow embedding of the TypeScript sources of the `nginx-flow` repository:

* `src/services/fixService.ts` (the `ConfigCleaner` class and the location
  matcher module embedded in that file),
* `src/services/AutoFixService.ts`,
* `src/utils/nginxParser.ts` (`parseListenDirective`),
* the audit engine (`runAudit`, `applyFix`, `applyAllFixes` and the twelve
  audit rules).

Texts are modelled as `List Char`.  The JavaScript regular expressions used
by the cleaners all belong to one small pattern family; they are embedded as
explicit matchers that follow the backtracking semantics of the JS RegExp
engine for exactly these patterns (leftmost match, greedy quantifiers with
backtracking, multiline `^`/`$` anchors, `String.replace` with the `g` flag
removing every leftmost non-overlapping match).  `uuidv4()` is modelled as a
deterministic injected supply of fresh identifiers (a `Nat` counter): the
code only uses ids as opaque handles.  `console.log`/`console.warn` output is
not modelled.
-/

set_option maxRecDepth 20000

abbrev Str := List Char

/-- JS `\s` (the whitespace class used by the cleaners' regexes and
`String.prototype.trim`). -/
def isWs (c : Char) : Bool :=
  c.val = 32 || c.val = 9 || c.val = 10 || c.val = 13 || c.val = 11 || c.val = 12 ||
  c.val = 0xa0 || c.val = 0x1680 ||
  c.val = 0x2000 || c.val = 0x2001 || c.val = 0x2002 || c.val = 0x2003 ||
  c.val = 0x2004 || c.val = 0x2005 || c.val = 0x2006 || c.val = 0x2007 ||
  c.val = 0x2008 || c.val = 0x2009 || c.val = 0x200a ||
  c.val = 0x2028 || c.val = 0x2029 || c.val = 0x202f || c.val = 0x205f ||
  c.val = 0x3000 || c.val = 0xfeff

/-- JS line terminators: positions where a multiline `^` fires after, and a
multiline `$` fires before. -/
def isLT (c : Char) : Bool :=
  c.val = 10 || c.val = 13 || c.val = 0x2028 || c.val = 0x2029

/-- Length of the maximal whitespace prefix of a text (a greedy `\s*`). -/
def wsRun : Str → Nat
  | [] => 0
  | c :: s => if isWs c then wsRun s + 1 else 0

/-- Case folding used for the `i` regex flag (ASCII, as for these ASCII
patterns). -/
def foldCase (c : Char) : Char := c.toLower

/-- A regex literal character match, case-insensitively when `ci`. -/
def chMatch (ci : Bool) (p c : Char) : Bool :=
  p = c || (ci && foldCase p = foldCase c)

/-- Strip a literal (the escaped key) from the front of a text. -/
def stripLit (ci : Bool) : Str → Str → Option Str
  | [], s => some s
  | _ :: _, [] => none
  | p :: ps, c :: s => if chMatch ci p c then stripLit ci ps s else none

/-- Offset of the first `;` of a text (its length when there is none):
the furthest reach of a greedy `[^;]+`. -/
def firstSemi : Str → Nat
  | [] => 0
  | c :: s => if c = ';' then 0 else firstSemi s + 1

/-- `some x` for the largest `x` within the whitespace run of the text such
that position `x` is a line end (`$`): the greedy `\s*$` ending of the
cleaner patterns. -/
def lastLineEnd : Str → Option Nat
  | [] => some 0
  | c :: s =>
    if isWs c then
      match lastLineEnd s with
      | some x => some (x + 1)
      | none => if isLT c then some 0 else none
    else if isLT c then some 0 else none

/-- The JS match of `\s+[^;]+;?\s*$` against a prefix of the text, returning
the number of characters the engine consumes, `none` when there is no match.

Derivation from the backtracking engine, for this pattern: `\s+[^;]+`
together reach exactly the end positions `t` with `2 ≤ t ≤ z` (`z` the first
`;`), tried from the largest down; at a given `t`, `;?` greedily consumes a
`;` (only possible when `t = z < |s|`), and `\s*$` succeeds exactly on the
largest line end inside the following whitespace run. -/
def tailCheck (s : Str) (z : Nat) (t : Nat) : Option Nat :=
  let q := if t = z && z < s.length then z + 1 else t
  match lastLineEnd (s.drop q) with
  | some x => some (q + x)
  | none => none

def tailLoop (s : Str) (z : Nat) : Nat → Option Nat
  | 0 => none
  | 1 => none
  | t + 2 => (tailCheck s z (t + 2)) <|> tailLoop s z (t + 1)

def matchTail (s : Str) : Option Nat :=
  if wsRun s = 0 then none else tailLoop s (firstSemi s) (firstSemi s)

/-- The JS match of `^\s*K\s+[^;]+;?\s*$` (flags `m`, and `i` when `ci`) at a
line-start position, returning the number of consumed characters.  Since the
key starts with a non-whitespace character, the leading greedy `\s*` consumes
exactly the whitespace run. -/
def attemptPlain (ci : Bool) (key : Str) (s : Str) : Option Nat :=
  let n := wsRun s
  match stripLit ci key (s.drop n) with
  | none => none
  | some rest =>
    match matchTail rest with
    | some x => some (n + key.length + x)
    | none => none

/-- Quote characters accepted by `['"]?` in the `add_header` pattern. -/
def isQuote (c : Char) : Bool := c = '\'' || c = '"'

/-- After the header name: optional closing quote (greedy, with backtracking),
then the common `\s+[^;]+;?\s*$` tail. -/
def afterName (rest : Str) : Option (Nat × Str) :=
  match rest with
  | c :: rest' =>
    if isQuote c then
      match matchTail rest' with
      | some x => some (1 + x, rest')
      | none => match matchTail rest with
        | some x => some (x, rest)
        | none => none
    else
      match matchTail rest with
      | some x => some (x, rest)
      | none => none
  | [] => none

/-- The JS match of `^\s*add_header\s+['"]?NAME['"]?\s+[^;]+;?\s*$` (flags
`m i`) at a line start (`createAddHeaderPattern` in fixService.ts; the name
is escaped, hence a literal). -/
def attemptHeader (name : Str) (s : Str) : Option Nat :=
  let n := wsRun s
  match stripLit true "add_header".data (s.drop n) with
  | none => none
  | some u =>
    let w := wsRun u
    if w = 0 then none else
    let v := u.drop w
    let base := n + 10 + w
    let viaName : Str → Nat → Option Nat := fun v' off =>
      match stripLit true name v' with
      | none => none
      | some rest =>
        match afterName rest with
        | some (x, _) => some (base + off + name.length + x)
        | none => none
    match v with
    | c :: v' =>
      if isQuote c then
        match viaName v' 1 with
        | some r => some r
        | none => viaName v 0
      else viaName v 0
    | [] => none

/-- The JS match of `^\s*proxy_set_header\s+NAME\s+[^;]+;?\s*$` (flags `m i`)
at a line start (`createProxySetHeaderPattern` in fixService.ts). -/
def attemptProxyHdr (name : Str) (s : Str) : Option Nat :=
  let n := wsRun s
  match stripLit true "proxy_set_header".data (s.drop n) with
  | none => none
  | some u =>
    let w := wsRun u
    if w = 0 then none else
    match stripLit true name (u.drop w) with
    | none => none
    | some rest =>
      match matchTail rest with
      | some x => some (n + 16 + w + name.length + x)
      | none => none

/-- `text.replace(pattern, '')` for a `g m`-flagged line-anchored pattern:
scan left to right, at every line start try the pattern, drop the consumed
span, continue after it (the `skip` argument counts characters of a found
span still to drop; the `atLS` flag tracks whether the previous character of
the original string is a line terminator). -/
def replGo (att : Str → Option Nat) : Nat → Bool → Str → Str
  | _ + 1, _, [] => []
  | k + 1, _, c :: rest => replGo att k (isLT c) rest
  | 0, _, [] => []
  | 0, atLS, c :: rest =>
    if atLS then
      match att (c :: rest) with
      | some t => replGo att (t - 1) (isLT c) rest
      | none => c :: replGo att 0 (isLT c) rest
    else c :: replGo att 0 (isLT c) rest

def replaceAll (att : Str → Option Nat) (s : Str) : Str :=
  replGo att 0 true s

/-- JS `String.prototype.trim`. -/
def jsTrim (s : Str) : Str :=
  (s.dropWhile isWs).reverse.dropWhile isWs |>.reverse

/-- Split on `'\n'` (JS `text.split('\n')`). -/
def splitNl : Str → List Str
  | [] => [[]]
  | c :: s =>
    if c = '\n' then [] :: splitNl s
    else match splitNl s with
      | l :: ls => (c :: l) :: ls
      | [] => [[c]]

/-- Join with `'\n'` (JS `lines.join('\n')`). -/
def joinNl : List Str → Str
  | [] => []
  | [l] => l
  | l :: ls => l ++ '\n' :: joinNl ls

namespace ConfigCleaner

/-- The line filter of `ConfigCleaner.cleanAndFormat`: keep non-blank lines;
keep a blank line only when it is not the first line and the previous
(original) line is non-blank. -/
def keepLines : Bool → Bool → List Str → List Str
  | _, _, [] => []
  | first, prevBlank, l :: ls =>
    let b := jsTrim l = []
    let keep := if b then (!first && !prevBlank) else true
    (if keep then [l] else []) ++ keepLines false b ls

/-- `ConfigCleaner.cleanAndFormat` (fixService.ts): drop leading/duplicated
blank lines, join, trim. -/
def cleanAndFormat (s : Str) : Str :=
  jsTrim (joinNl (keepLines true true (splitNl s)))

/-- The predefined keys of `DIRECTIVE_PATTERNS` (all with flags `g m`,
case-sensitive). -/
def directiveKeys : List Str :=
  ["user".data, "worker_processes".data, "error_log".data, "pid".data,
   "autoindex".data, "server_tokens".data,
   "ssl_protocols".data, "ssl_ciphers".data, "ssl_prefer_server_ciphers".data,
   "ssl_certificate".data, "ssl_certificate_key".data,
   "sendfile".data, "tcp_nopush".data, "tcp_nodelay".data,
   "keepalive_timeout".data, "client_max_body_size".data,
   "gzip".data, "gzip_comp_level".data, "gzip_min_length".data,
   "gzip_types".data,
   "root".data, "index".data, "try_files".data, "alias".data,
   "proxy_pass".data, "proxy_http_version".data,
   "return".data, "rewrite".data]

/-- `ConfigCleaner.removeDirective` (fixService.ts).  `escapeRegex` makes the
directive name a regex literal, which is how the generic and header patterns
treat it here.  The generic pattern and the two header patterns carry the `i`
flag; the predefined table patterns do not. -/
def removeDirective (text key : Str) : Str :=
  if jsTrim text = [] then [] else
  if "add_header ".data.isPrefixOf key then
    let name := jsTrim (key.drop 11)
    cleanAndFormat (replaceAll (attemptHeader name) text)
  else if "proxy_set_header ".data.isPrefixOf key then
    let name := jsTrim (key.drop 17)
    cleanAndFormat (replaceAll (attemptProxyHdr name) text)
  else if directiveKeys.contains key then
    cleanAndFormat (replaceAll (attemptPlain false key) text)
  else
    cleanAndFormat (replaceAll (attemptPlain true key) text)

/-- `ConfigCleaner.removeDirectives`. -/
def removeDirectives (text : Str) (keys : List Str) : Str :=
  keys.foldl removeDirective text

/-- `ConfigCleaner.smartAddDirective`: remove, then append. -/
def smartAddDirective (existing newDirective key : Str) : Str :=
  let cleaned := removeDirective existing key
  if jsTrim cleaned = [] then newDirective else cleaned ++ '\n' :: newDirective

/-- `ConfigCleaner.smartAddHeader` (with `always = true`, the only way the
audit rules call it). -/
def smartAddHeader (existing : Str) (headerName headerValue : String) : Str :=
  smartAddDirective existing
    ("add_header ".data ++ headerName.data ++ ' ' :: '"' :: headerValue.data
      ++ '"' :: " always;".data)
    ("add_header ".data ++ headerName.data)

end ConfigCleaner

/-! ## AutoFixService's regex cleaner (`cleanRegex`)

Pattern `^\s*KEY\s+[^;]+;?(\r?\n)?` with flags `g m` — unlike the
`ConfigCleaner` patterns it is not `$`-anchored, so the engine's match always
ends at the first `;` (consuming it, and one following newline). -/

def cleanRegexAttempt (key : Str) (s : Str) : Option Nat :=
  let n := wsRun s
  match stripLit false key (s.drop n) with
  | none => none
  | some rest =>
    if wsRun rest = 0 then none else
    let t := firstSemi rest
    if t < 2 then none else
    let e := if (rest.drop t).head? = some ';' then t + 1 else t
    let e := match rest.drop e with
      | '\r' :: '\n' :: _ => e + 2
      | '\n' :: _ => e + 1
      | _ => e
    some (n + key.length + e)

/-- JS `replace(/\n{3,}/g, '\n\n')`: each run of three or more newlines
becomes exactly two. -/
def collapseGo (run : Nat) : Str → Str
  | [] => []
  | c :: s =>
    if c = '\n' then
      if run ≥ 2 then collapseGo (run + 1) s else '\n' :: collapseGo (run + 1) s
    else c :: collapseGo 0 s

def collapseNl (s : Str) : Str := collapseGo 0 s

/-- `cleanRegex` of AutoFixService.ts. -/
def cleanRegex (text : Str) (key : Str) : Str :=
  if jsTrim text = [] then [] else
  jsTrim (collapseNl (replaceAll (cleanRegexAttempt key) text))

/-! ## The domain model (`src/types/nginx.ts`) -/

structure ErrorLogConfig where
  path : String
  level : String
  deriving DecidableEq, Repr

structure GlobalConfig where
  user : String
  workerProcesses : String
  errorLog : ErrorLogConfig
  pid : String
  customDirectives : String
  deriving DecidableEq, Repr

structure EventsConfig where
  workerConnections : Nat
  use : String
  multiAccept : Bool
  customDirectives : String
  deriving DecidableEq, Repr

structure LogFormatConfig where
  name : String
  format : String
  deriving DecidableEq, Repr

structure AccessLogConfig where
  path : String
  format : String
  deriving DecidableEq, Repr

structure GzipConfig where
  enabled : Bool
  types : List String
  compLevel : Nat
  minLength : Nat
  deriving DecidableEq, Repr

structure HttpConfig where
  sendfile : Bool
  tcpNopush : Bool
  tcpNodelay : Bool
  keepaliveTimeout : Int
  typesHashMaxSize : Nat
  includeMimeTypes : Bool
  defaultType : String
  logFormat : LogFormatConfig
  accessLog : AccessLogConfig
  gzip : GzipConfig
  serverTokens : Bool
  clientMaxBodySize : String
  customDirectives : String
  deriving DecidableEq, Repr

structure UpstreamServer where
  id : String
  address : String
  port : Nat
  weight : Nat
  maxFails : Nat
  failTimeout : Nat
  backup : Bool
  down : Bool
  deriving DecidableEq, Repr

structure UpstreamConfig where
  id : String
  name : String
  strategy : String
  servers : List UpstreamServer
  customDirectives : String
  deriving DecidableEq, Repr

structure SSLConfig where
  enabled : Bool
  certificate : String
  certificateKey : String
  protocols : List String
  ciphers : String
  forceRedirect : Bool
  deriving DecidableEq, Repr

structure ListenConfig where
  port : Nat
  defaultServer : Bool
  http2 : Bool
  deriving DecidableEq, Repr

structure ServerConfig where
  id : String
  name : String
  listen : ListenConfig
  serverName : String
  ssl : SSLConfig
  root : String
  index : List String
  customDirectives : String
  deriving DecidableEq, Repr

structure ProxyHeader where
  name : String
  value : String
  enabled : Bool
  deriving DecidableEq, Repr

structure CorsConfig where
  enabled : Bool
  allowOrigin : String
  allowMethods : List String
  allowHeaders : List String
  allowCredentials : Bool
  deriving DecidableEq, Repr

structure AuthBasicConfig where
  enabled : Bool
  realm : String
  userFile : String
  deriving DecidableEq, Repr

structure AccessControlConfig where
  allow : List String
  deny : List String
  authBasic : AuthBasicConfig
  deriving DecidableEq, Repr

structure RewriteRule where
  pattern : String
  replacement : String
  flag : String
  deriving DecidableEq, Repr

structure LocationConfig where
  id : String
  serverId : String
  modifier : String
  path : String
  proxyPass : String
  upstreamId : Option String
  headers : List ProxyHeader
  cors : CorsConfig
  websocket : Bool
  aliasPath : String
  tryFiles : String
  returnCode : Option Int
  returnUrl : String
  rewrite : Option RewriteRule
  accessControl : AccessControlConfig
  customDirectives : String
  deriving DecidableEq, Repr

structure NginxConfig where
  global : GlobalConfig
  events : EventsConfig
  http : HttpConfig
  upstreams : List UpstreamConfig
  servers : List ServerConfig
  locations : List LocationConfig
  rawConfig : Option String
  deriving DecidableEq, Repr

/-- `uuidv4()` modelled as a deterministic fresh-id supply: a counter. -/
def freshId (g : Nat) : String × Nat := ("uuid-" ++ toString g, g + 1)

/-! ## AutoFixService (`src/services/AutoFixService.ts`) -/

namespace AutoFixService

/-- `cleanDirectives` of AutoFixService.ts (keys applied in source order,
each gated on membership of `targets`). -/
def cleanDirectives (text : String) (targets : List String) : String :=
  let t := text.data
  let t := if targets.contains "user" then cleanRegex t "user".data else t
  let t := if targets.contains "server_tokens" then cleanRegex t "server_tokens".data else t
  let t := if targets.contains "ssl_protocols" then cleanRegex t "ssl_protocols".data else t
  let t := if targets.contains "autoindex" then cleanRegex t "autoindex".data else t
  ⟨t⟩

/-- `getPortAsString`.  The TS is defensive over untyped `listen` shapes; on
the typed model the port is always `listen.port`. -/
def getPortAsString (s : ServerConfig) : String := toString s.listen.port

/-- `AutoFixService.findHttpNode`. -/
def findHttpNode (c : NginxConfig) (serverName : String)
    (excludeServerId : Option String) : Option ServerConfig :=
  c.servers.find? fun s =>
    (match excludeServerId with
     | some e => s.id != e
     | none => true) &&
    getPortAsString s == "80" && s.serverName == serverName

def fixRootUser (c : NginxConfig) : NginxConfig :=
  { c with global :=
      { c.global with
        customDirectives := cleanDirectives c.global.customDirectives ["user"]
        user := "nginx" } }

def fixServerTokens (c : NginxConfig) : NginxConfig :=
  { c with
    global := { c.global with
      customDirectives := cleanDirectives c.global.customDirectives ["server_tokens"] }
    http := { c.http with
      serverTokens := false
      customDirectives := cleanDirectives c.http.customDirectives ["server_tokens"] }
    servers := c.servers.map fun s =>
      { s with customDirectives := cleanDirectives s.customDirectives ["server_tokens"] } }

def fixSslProtocols (c : NginxConfig) : NginxConfig :=
  { c with servers := c.servers.map fun s =>
      if !s.ssl.enabled then s else
      { s with
        ssl := { s.ssl with protocols := ["TLSv1.2", "TLSv1.3"] }
        customDirectives := cleanDirectives s.customDirectives ["ssl_protocols"] } }

def fixAutoindex (c : NginxConfig) : NginxConfig :=
  { c with
    servers := c.servers.map fun s =>
      { s with customDirectives := cleanDirectives s.customDirectives ["autoindex"] }
    locations := c.locations.map fun l =>
      { l with customDirectives := cleanDirectives l.customDirectives ["autoindex"] } }

/-- `convertToPureRedirectHttpServer`. -/
def convertToPureRedirectHttpServer (server : ServerConfig) (serverName : String) :
    ServerConfig :=
  { server with
    name := serverName ++ " (HTTP Redirect)"
    listen := { server.listen with port := 80, http2 := false, defaultServer := false }
    serverName := serverName
    ssl := { server.ssl with
      enabled := false, forceRedirect := false
      certificate := "", certificateKey := "", protocols := [], ciphers := "" }
    root := ""
    index := []
    customDirectives := "return 301 https://$host$request_uri;" }

/-- `AutoFixService.applyForceHttps` (threading the fresh-id supply). -/
def applyForceHttps (c : NginxConfig) (httpsServerId : String) (g : Nat) :
    NginxConfig × Nat :=
  match c.servers.find? (fun s => s.id == httpsServerId) with
  | none => (c, g)
  | some httpsServer =>
    let serverName := httpsServer.serverName
    let existingHttp := findHttpNode c serverName (some httpsServerId)
    let (nextServers, nextLocations, g') :
        List ServerConfig × List LocationConfig × Nat :=
      match existingHttp with
      | some eh =>
        let locs := c.locations.filter fun l => l.serverId != eh.id
        let srvs := c.servers.map fun s =>
          if s.id == eh.id then convertToPureRedirectHttpServer s serverName else s
        let extra := srvs.filter fun s =>
          s.id != eh.id && getPortAsString s == "80" && s.serverName == serverName
        if extra.length > 0 then
          let extraIds := extra.map (·.id)
          (srvs.filter (fun s => !(extraIds.contains s.id)),
           locs.filter (fun l => !(extraIds.contains l.serverId)), g)
        else (srvs, locs, g)
      | none =>
        let (nid, g') := freshId g
        let redirectServer := convertToPureRedirectHttpServer
          { id := nid
            name := serverName ++ " (HTTP Redirect)"
            listen := { port := 80, defaultServer := false, http2 := false }
            serverName := serverName
            ssl := { httpsServer.ssl with
              enabled := false, forceRedirect := false
              protocols := [], ciphers := "", certificate := "", certificateKey := "" }
            root := ""
            index := []
            customDirectives := "" } serverName
        (c.servers ++ [redirectServer], c.locations, g')
    let nextServers := nextServers.map fun s =>
      if s.id == httpsServerId then
        { s with ssl := { s.ssl with enabled := true, forceRedirect := false } }
      else s
    ({ c with servers := nextServers, locations := nextLocations }, g')

/-- The `for (const s of current.servers)` loop of `applyAllFixes`: the
iterated array is the snapshot taken when the loop is entered, while the
config keeps being replaced. -/
def forceLoop : List ServerConfig → NginxConfig → List String → Nat →
    NginxConfig × List String × Nat
  | [], c, ws, g => (c, ws, g)
  | s :: rest, c, ws, g =>
    if s.ssl.enabled && s.ssl.forceRedirect then
      let (c', g') := applyForceHttps c s.id g
      forceLoop rest c'
        (ws ++ ["已为 " ++ s.serverName ++ " 执行 80 端口节点劫持（Force HTTPS）"]) g'
    else forceLoop rest c ws g

/-- `AutoFixService.applyAllFixes`. -/
def applyAllFixes (c : NginxConfig) (g : Nat) : (NginxConfig × List String) × Nat :=
  let cur := fixRootUser c
  let cur := fixServerTokens cur
  let cur := fixAutoindex cur
  let cur := fixSslProtocols cur
  let (c', ws, g') := forceLoop cur.servers cur [] g
  ((c', ws), g')

end AutoFixService

/-! ## Audit engine (src/unnamed/part_003) -/

/-- String-level wrappers over the `List Char` cleaners. -/
def ConfigCleaner.removeDirectiveS (text key : String) : String :=
  ⟨ConfigCleaner.removeDirective text.data key.data⟩

def ConfigCleaner.removeDirectivesS (text : String) (keys : List String) : String :=
  ⟨ConfigCleaner.removeDirectives text.data (keys.map String.data)⟩

def ConfigCleaner.smartAddHeaderS (existing headerName headerValue : String) : String :=
  ⟨ConfigCleaner.smartAddHeader existing.data headerName headerValue⟩

/-- Test a line-anchored pattern at every line start (a multiline
`RegExp.test`). -/
def testML (att : Str → Option Nat) : Bool → Str → Bool
  | atLS, [] => atLS && (att []).isSome
  | atLS, c :: s => (atLS && (att (c :: s)).isSome) || testML att (isLT c) s

/-- The probe of `/^\s*return\s+(301|302|307|308)\s+/` at one line start. -/
def redirectProbe (s : Str) : Option Nat :=
  let n := wsRun s
  match stripLit false "return".data (s.drop n) with
  | none => none
  | some u =>
    let w := wsRun u
    if w = 0 then none else
    let v := u.drop w
    let codeOk := ["301", "302", "307", "308"].any fun code =>
      match stripLit false code.data v with
      | some (c :: _) => isWs c
      | _ => false
    if codeOk then some 0 else none

/-- Modelled from the spec: `isRedirectServer` lives in
`src/utils/configGenerator.ts`, which is not among the provided sources (the
audit engine imports it).  Per the spec (§4.5): a server is redirect-only
when its passthrough text matches the redirect-statement pattern
`/^\s*return\s+(301|302|307|308)\s+/m` — the same pattern the in-repo
`isRedirectOnlyServer` (fixService.ts) and `ConfigCleaner.isRedirectServer`
use. -/
def isRedirectServer (server : ServerConfig) : Bool :=
  testML redirectProbe true server.customDirectives.data

/-- Unanchored search (`RegExp.test` without `^`): try at every position. -/
def searchAny (probe : Str → Bool) : Str → Bool
  | [] => probe []
  | c :: s => probe (c :: s) || searchAny probe s

/-- The probe of `/add_header\s+['"]?NAME['"]?\s+/i` at one position. -/
def addHeaderProbe (name : Str) (s : Str) : Bool :=
  match stripLit true "add_header".data s with
  | none => false
  | some u =>
    let w := wsRun u
    if w = 0 then false else
    let v := u.drop w
    let tailWs : Str → Bool := fun r =>
      match r with
      | c :: r' => if isQuote c then (wsRun r' > 0 || wsRun r > 0) else wsRun r > 0
      | [] => false
    let viaN : Str → Bool := fun v' =>
      match stripLit true name v' with
      | none => false
      | some r => tailWs r
    match v with
    | c :: v' => if isQuote c then (viaN v' || viaN v) else viaN v
    | [] => false

/-- `hasAddHeader` (part_003). -/
def hasAddHeader (customDirectives : String) (headerName : String) : Bool :=
  searchAny (addHeaderProbe headerName.data) customDirectives.data

/-- `serverNeedsSecurityHeaders` (part_003). -/
def serverNeedsSecurityHeaders (server : ServerConfig) : Bool :=
  !isRedirectServer server

namespace AuditEngine

inductive AuditSeverity
  | critical
  | warning
  | info
  deriving DecidableEq, Repr

inductive AuditCategory
  | security
  | performance
  | config
  deriving DecidableEq, Repr

/-- An audit issue.  The `id: uuidv4()` field of the TS `AuditIssue` is an
opaque random tag that nothing reads; it is not modelled. -/
structure AuditIssue where
  ruleId : String
  severity : AuditSeverity
  category : AuditCategory
  title : String
  titleZh : String
  description : String
  descriptionZh : String
  affectedNodeId : Option String
  affectedNodeType : Option String
  canAutoFix : Bool
  fixLabel : Option String
  fixLabelZh : Option String
  deriving DecidableEq, Repr

/-- A `Partial<NginxConfig>`: the keys a fix may set. -/
structure PartialConfig where
  global : Option GlobalConfig := none
  events : Option EventsConfig := none
  http : Option HttpConfig := none
  upstreams : Option (List UpstreamConfig) := none
  servers : Option (List ServerConfig) := none
  locations : Option (List LocationConfig) := none
  deriving DecidableEq, Repr

/-- `Object.keys(fix).length > 0`. -/
def PartialConfig.nonEmpty (p : PartialConfig) : Bool :=
  p.global.isSome || p.events.isSome || p.http.isSome ||
  p.upstreams.isSome || p.servers.isSome || p.locations.isSome

/-- `{ ...currentConfig, ...fix }`. -/
def mergePartial (c : NginxConfig) (p : PartialConfig) : NginxConfig :=
  { c with
    global := p.global.getD c.global
    events := p.events.getD c.events
    http := p.http.getD c.http
    upstreams := p.upstreams.getD c.upstreams
    servers := p.servers.getD c.servers
    locations := p.locations.getD c.locations }

structure AuditRule where
  id : String
  severity : AuditSeverity
  category : AuditCategory
  title : String
  titleZh : String
  description : String
  descriptionZh : String
  check : NginxConfig → List AuditIssue
  fix : Option (NginxConfig → String → Nat → PartialConfig × Nat)

end AuditEngine

/-- JS `String.prototype.includes` on char lists. -/
def subIn (sub : Str) : Str → Bool
  | [] => sub.isEmpty
  | c :: rest => (stripLit false sub (c :: rest)).isSome || subIn sub rest

namespace AuditEngine

/-- Rule 1: `security-server-tokens`. -/
def serverTokensRule : AuditRule :=
  { id := "security-server-tokens", severity := .critical, category := .security
    title := "Nginx Version Exposed", titleZh := "暴露 Nginx 版本号"
    description := "server_tokens is not set to off. Exposing version info helps attackers identify vulnerabilities."
    descriptionZh := "未设置 server_tokens off。暴露版本号可能导致攻击者针对性利用已知漏洞。"
    check := fun config =>
      if config.http.serverTokens != false then
        [{ ruleId := "security-server-tokens", severity := .critical, category := .security
           title := "Nginx Version Exposed", titleZh := "暴露 Nginx 版本号"
           description := "server_tokens is not set to off. Exposing version info helps attackers identify vulnerabilities."
           descriptionZh := "未设置 server_tokens off。暴露版本号可能导致攻击者针对性利用已知漏洞。"
           affectedNodeId := none, affectedNodeType := some "http", canAutoFix := true
           fixLabel := some "Set server_tokens off", fixLabelZh := some "设置 server_tokens off" }]
      else []
    fix := some fun config _ g =>
      ({ http := some { config.http with
           serverTokens := false
           customDirectives :=
             ConfigCleaner.removeDirectiveS config.http.customDirectives "server_tokens" } }, g) }

/-- The hidden-file-rule predicate on an existing location (rule 2's check). -/
def hasHiddenPath (l : LocationConfig) : Bool :=
  subIn "\\.".data l.path.data || subIn "/\\.".data l.path.data ||
  l.path == "~ /\\."

/-- Rule 2: `security-hidden-files`. -/
def hiddenFilesRule : AuditRule :=
  { id := "security-hidden-files", severity := .critical, category := .security
    title := "Hidden Files Not Protected", titleZh := "未保护隐藏文件"
    description := "No rule blocks access to hidden files like .git, .env, .htaccess which may contain sensitive data."
    descriptionZh := "缺少阻止访问隐藏文件（如 .git、.env）的规则，可能泄露敏感数据。"
    check := fun config =>
      config.servers.foldl (fun issues server =>
        if isRedirectServer server then issues else
        let serverLocations := config.locations.filter fun l => l.serverId == server.id
        let hasRule := serverLocations.any hasHiddenPath
        if !hasRule && serverLocations.length > 0 then
          issues ++
          [{ ruleId := "security-hidden-files", severity := .critical, category := .security
             title := "Hidden Files Not Protected", titleZh := "未保护隐藏文件"
             description := "Server \"" ++ server.serverName ++ "\" has no rule blocking access to hidden files (.git, .env)."
             descriptionZh := "服务器 \"" ++ server.serverName ++ "\" 缺少拦截隐藏文件的规则。"
             affectedNodeId := some server.id, affectedNodeType := some "server", canAutoFix := true
             fixLabel := some "Add hidden file protection", fixLabelZh := some "添加隐藏文件保护规则" }]
        else issues) []
    fix := some fun config affectedNodeId g =>
      if affectedNodeId == "" then ({}, g) else
      let existing := config.locations.find? fun l =>
        l.serverId == affectedNodeId &&
        (subIn "\\.".data l.path.data || l.path == "~ /\\.")
      match existing with
      | some _ => ({}, g)
      | none =>
        let (nid, g') := freshId g
        let newLocation : LocationConfig :=
          { id := nid, serverId := affectedNodeId, modifier := "~", path := "/\\."
            proxyPass := "", upstreamId := none, headers := []
            cors := { enabled := false, allowOrigin := "", allowMethods := []
                      allowHeaders := [], allowCredentials := false }
            websocket := false, aliasPath := "", tryFiles := ""
            returnCode := some 403, returnUrl := "", rewrite := none
            accessControl := { allow := [], deny := []
                               authBasic := { enabled := false, realm := "", userFile := "" } }
            customDirectives := "# 拦截所有隐藏文件访问（.git, .env 等）" }
        ({ locations := some (config.locations ++ [newLocation]) }, g') }

/-- The shared shape of the three header rules' fixes. -/
def headerFix (headerName headerValue : String)
    (config : NginxConfig) (affectedNodeId : String) (g : Nat) : PartialConfig × Nat :=
  if affectedNodeId == "" then ({}, g) else
  let server := config.servers.find? fun s => s.id == affectedNodeId
  match server with
  | some s =>
    if !serverNeedsSecurityHeaders s then ({}, g) else
    ({ servers := some (config.servers.map fun s =>
        if s.id == affectedNodeId then
          { s with customDirectives :=
              ConfigCleaner.smartAddHeaderS s.customDirectives headerName headerValue }
        else s) }, g)
  | none =>
    ({ servers := some (config.servers.map fun s =>
        if s.id == affectedNodeId then
          { s with customDirectives :=
              ConfigCleaner.smartAddHeaderS s.customDirectives headerName headerValue }
        else s) }, g)

/-- Rule 3: `security-x-frame-options`. -/
def xFrameOptionsRule : AuditRule :=
  { id := "security-x-frame-options", severity := .warning, category := .security
    title := "Missing Clickjacking Protection", titleZh := "缺少点击劫持防护"
    description := "X-Frame-Options header not configured. Your site may be vulnerable to clickjacking attacks."
    descriptionZh := "未配置 X-Frame-Options 响应头，网站可能遭受点击劫持攻击。"
    check := fun config =>
      config.servers.foldl (fun issues server =>
        if !serverNeedsSecurityHeaders server then issues else
        if !hasAddHeader server.customDirectives "X-Frame-Options" then
          issues ++
          [{ ruleId := "security-x-frame-options", severity := .warning, category := .security
             title := "Missing Clickjacking Protection", titleZh := "缺少点击劫持防护"
             description := "Server \"" ++ server.serverName ++ "\" is missing X-Frame-Options header."
             descriptionZh := "服务器 \"" ++ server.serverName ++ "\" 未配置 X-Frame-Options。"
             affectedNodeId := some server.id, affectedNodeType := some "server", canAutoFix := true
             fixLabel := some "Add X-Frame-Options: SAMEORIGIN", fixLabelZh := some "添加 X-Frame-Options 头" }]
        else issues) []
    fix := some (headerFix "X-Frame-Options" "SAMEORIGIN") }

/-- Rule 4: `security-x-content-type`. -/
def xContentTypeRule : AuditRule :=
  { id := "security-x-content-type", severity := .warning, category := .security
    title := "Missing MIME Sniffing Protection", titleZh := "缺少 MIME 嗅探防护"
    description := "X-Content-Type-Options header not configured. Browsers may incorrectly interpret file types."
    descriptionZh := "未配置 X-Content-Type-Options 响应头，浏览器可能错误解析文件类型。"
    check := fun config =>
      config.servers.foldl (fun issues server =>
        if !serverNeedsSecurityHeaders server then issues else
        if !hasAddHeader server.customDirectives "X-Content-Type-Options" then
          issues ++
          [{ ruleId := "security-x-content-type", severity := .warning, category := .security
             title := "Missing MIME Sniffing Protection", titleZh := "缺少 MIME 嗅探防护"
             description := "Server \"" ++ server.serverName ++ "\" is missing X-Content-Type-Options header."
             descriptionZh := "服务器 \"" ++ server.serverName ++ "\" 未配置 X-Content-Type-Options。"
             affectedNodeId := some server.id, affectedNodeType := some "server", canAutoFix := true
             fixLabel := some "Add X-Content-Type-Options: nosniff", fixLabelZh := some "添加 X-Content-Type-Options 头" }]
        else issues) []
    fix := some (headerFix "X-Content-Type-Options" "nosniff") }

/-- Rule 5: `security-hsts`. -/
def hstsRule : AuditRule :=
  { id := "security-hsts", severity := .critical, category := .security
    title := "HSTS Not Enabled for HTTPS", titleZh := "HTTPS 未启用 HSTS"
    description := "HTTPS server without Strict-Transport-Security header. Users may be vulnerable to downgrade attacks."
    descriptionZh := "HTTPS 服务器未配置 HSTS，用户可能遭受降级攻击。"
    check := fun config =>
      config.servers.foldl (fun issues server =>
        if !serverNeedsSecurityHeaders server then issues else
        if server.ssl.enabled && server.listen.port == 443 then
          if !hasAddHeader server.customDirectives "Strict-Transport-Security" then
            issues ++
            [{ ruleId := "security-hsts", severity := .critical, category := .security
               title := "HSTS Not Enabled for HTTPS", titleZh := "HTTPS 未启用 HSTS"
               description := "HTTPS server \"" ++ server.serverName ++ "\" should enable HSTS to prevent downgrade attacks."
               descriptionZh := "HTTPS 服务器 \"" ++ server.serverName ++ "\" 应启用 HSTS 防止降级攻击。"
               affectedNodeId := some server.id, affectedNodeType := some "server", canAutoFix := true
               fixLabel := some "Enable HSTS", fixLabelZh := some "启用 HSTS" }]
          else issues
        else issues) []
    fix := some (headerFix "Strict-Transport-Security" "max-age=31536000; includeSubDomains") }

/-- Rule 6: `perf-gzip`. -/
def gzipRule : AuditRule :=
  { id := "perf-gzip", severity := .warning, category := .performance
    title := "Gzip Compression Disabled", titleZh := "Gzip 压缩未启用"
    description := "Gzip compression is disabled. Enabling it can reduce bandwidth by 70%+ for text content."
    descriptionZh := "Gzip 压缩未开启，启用后可减少 70%+ 的文本内容带宽。"
    check := fun config =>
      if !config.http.gzip.enabled then
        [{ ruleId := "perf-gzip", severity := .warning, category := .performance
           title := "Gzip Compression Disabled", titleZh := "Gzip 压缩未启用"
           description := "Gzip compression is disabled. Enabling it can reduce bandwidth by 70%+ for text content."
           descriptionZh := "Gzip 压缩未开启，启用后可减少 70%+ 的文本内容带宽。"
           affectedNodeId := none, affectedNodeType := some "http", canAutoFix := true
           fixLabel := some "Enable Gzip", fixLabelZh := some "启用 Gzip" }]
      else []
    fix := some fun config _ g =>
      ({ http := some { config.http with
           gzip := { config.http.gzip with
             enabled := true
             compLevel := if config.http.gzip.compLevel = 0 then 6 else config.http.gzip.compLevel
             types := if config.http.gzip.types.length > 0 then config.http.gzip.types else
               ["text/plain", "text/css", "application/json", "application/javascript",
                "text/xml", "application/xml", "image/svg+xml"] }
           customDirectives := ConfigCleaner.removeDirectivesS config.http.customDirectives
             ["gzip", "gzip_comp_level", "gzip_types", "gzip_min_length"] } }, g) }

/-- Rule 7: `perf-sendfile`. -/
def sendfileRule : AuditRule :=
  { id := "perf-sendfile", severity := .info, category := .performance
    title := "Sendfile Not Enabled", titleZh := "未启用 Sendfile"
    description := "sendfile off. Enabling it allows kernel-level file transfer, improving static file performance."
    descriptionZh := "sendfile 未开启，启用后可利用内核级文件传输提升静态文件性能。"
    check := fun config =>
      if !config.http.sendfile then
        [{ ruleId := "perf-sendfile", severity := .info, category := .performance
           title := "Sendfile Not Enabled", titleZh := "未启用 Sendfile"
           description := "sendfile off. Enabling it allows kernel-level file transfer, improving static file performance."
           descriptionZh := "sendfile 未开启，启用后可利用内核级文件传输提升静态文件性能。"
           affectedNodeId := none, affectedNodeType := some "http", canAutoFix := true
           fixLabel := some "Enable sendfile", fixLabelZh := some "启用 sendfile" }]
      else []
    fix := some fun config _ g =>
      ({ http := some { config.http with
           sendfile := true
           customDirectives := ConfigCleaner.removeDirectiveS config.http.customDirectives "sendfile" } }, g) }

/-- Rule 8: `perf-tcp-nodelay`. -/
def tcpNodelayRule : AuditRule :=
  { id := "perf-tcp-nodelay", severity := .info, category := .performance
    title := "TCP Nodelay Not Enabled", titleZh := "未启用 TCP Nodelay"
    description := "tcp_nodelay off. Enabling it reduces latency for small packets."
    descriptionZh := "tcp_nodelay 未开启，启用后可减少小数据包延迟。"
    check := fun config =>
      if !config.http.tcpNodelay then
        [{ ruleId := "perf-tcp-nodelay", severity := .info, category := .performance
           title := "TCP Nodelay Not Enabled", titleZh := "未启用 TCP Nodelay"
           description := "tcp_nodelay off. Enabling it reduces latency for small packets."
           descriptionZh := "tcp_nodelay 未开启，启用后可减少小数据包延迟。"
           affectedNodeId := none, affectedNodeType := some "http", canAutoFix := true
           fixLabel := some "Enable tcp_nodelay", fixLabelZh := some "启用 tcp_nodelay" }]
      else []
    fix := some fun config _ g =>
      ({ http := some { config.http with
           tcpNodelay := true
           customDirectives := ConfigCleaner.removeDirectiveS config.http.customDirectives "tcp_nodelay" } }, g) }

/-- Rule 9: `perf-worker-processes`. -/
def workerProcessesRule : AuditRule :=
  { id := "perf-worker-processes", severity := .info, category := .performance
    title := "Worker Processes Not Auto", titleZh := "工作进程未设为 Auto"
    description := "worker_processes is not set to \"auto\". Using auto optimizes for available CPU cores."
    descriptionZh := "worker_processes 未设为 auto，设为 auto 可自动匹配 CPU 核心数。"
    check := fun config =>
      if config.global.workerProcesses != "auto" then
        [{ ruleId := "perf-worker-processes", severity := .info, category := .performance
           title := "Worker Processes Not Auto", titleZh := "工作进程未设为 Auto"
           description := "worker_processes is \"" ++ config.global.workerProcesses ++ "\". Using \"auto\" optimizes for CPU cores."
           descriptionZh := "worker_processes 当前为 \"" ++ config.global.workerProcesses ++ "\"，建议设为 auto。"
           affectedNodeId := none, affectedNodeType := some "global", canAutoFix := true
           fixLabel := some "Set to auto", fixLabelZh := some "设为 auto" }]
      else []
    fix := some fun config _ g =>
      ({ global := some { config.global with
           workerProcesses := "auto"
           customDirectives := ConfigCleaner.removeDirectiveS config.global.customDirectives "worker_processes" } }, g) }

/-- Rule 10: `perf-keepalive`. -/
def keepaliveRule : AuditRule :=
  { id := "perf-keepalive", severity := .info, category := .performance
    title := "Keepalive Timeout Too Low", titleZh := "Keepalive 超时过短"
    description := "keepalive_timeout is below recommended 65s. Low values increase connection overhead."
    descriptionZh := "keepalive_timeout 低于建议的 65 秒，过短会增加连接开销。"
    check := fun config =>
      if config.http.keepaliveTimeout < 60 then
        [{ ruleId := "perf-keepalive", severity := .info, category := .performance
           title := "Keepalive Timeout Too Low", titleZh := "Keepalive 超时过短"
           description := "keepalive_timeout is " ++ toString config.http.keepaliveTimeout ++ "s. Recommended: 65s."
           descriptionZh := "keepalive_timeout 当前为 " ++ toString config.http.keepaliveTimeout ++ "s，建议设为 65s。"
           affectedNodeId := none, affectedNodeType := some "http", canAutoFix := true
           fixLabel := some "Set to 65s", fixLabelZh := some "设为 65 秒" }]
      else []
    fix := some fun config _ g =>
      ({ http := some { config.http with
           keepaliveTimeout := 65
           customDirectives := ConfigCleaner.removeDirectiveS config.http.customDirectives "keepalive_timeout" } }, g) }

/-- Rule 11: `config-empty-upstream` (detection only). -/
def emptyUpstreamRule : AuditRule :=
  { id := "config-empty-upstream", severity := .critical, category := .config
    title := "Empty Upstream Pool", titleZh := "Upstream 服务器列表为空"
    description := "Upstream has no backend servers configured. Requests will fail."
    descriptionZh := "Upstream 未配置后端服务器，请求将失败。"
    check := fun config =>
      config.upstreams.foldl (fun issues upstream =>
        if upstream.servers.length = 0 then
          issues ++
          [{ ruleId := "config-empty-upstream", severity := .critical, category := .config
             title := "Empty Upstream Pool", titleZh := "Upstream 服务器列表为空"
             description := "Upstream \"" ++ upstream.name ++ "\" has no backend servers."
             descriptionZh := "Upstream \"" ++ upstream.name ++ "\" 没有后端服务器。"
             affectedNodeId := some upstream.id, affectedNodeType := some "upstream", canAutoFix := false
             fixLabel := none, fixLabelZh := none }]
        else issues) []
    fix := none }

/-- Rule 12: `config-missing-server-name` (detection only). -/
def missingServerNameRule : AuditRule :=
  { id := "config-missing-server-name", severity := .warning, category := .config
    title := "Missing Server Name", titleZh := "缺少 Server Name"
    description := "Server has no server_name configured. It may catch unintended requests."
    descriptionZh := "Server 未配置 server_name，可能接收到非预期请求。"
    check := fun config =>
      config.servers.foldl (fun issues server =>
        if server.serverName == "" || server.serverName == "_" then
          issues ++
          [{ ruleId := "config-missing-server-name", severity := .warning, category := .config
             title := "Missing Server Name", titleZh := "缺少 Server Name"
             description := "Server on port " ++ toString server.listen.port ++ " has no specific server_name."
             descriptionZh := "监听端口 " ++ toString server.listen.port ++ " 的服务器未配置 server_name。"
             affectedNodeId := some server.id, affectedNodeType := some "server", canAutoFix := false
             fixLabel := none, fixLabelZh := none }]
        else issues) []
    fix := none }

/-- The fixed, ordered rule list. -/
def auditRules : List AuditRule :=
  [serverTokensRule, hiddenFilesRule, xFrameOptionsRule, xContentTypeRule, hstsRule,
   gzipRule, sendfileRule, tcpNodelayRule, workerProcessesRule, keepaliveRule,
   emptyUpstreamRule, missingServerNameRule]

def severityRank : AuditSeverity → Nat
  | .critical => 0
  | .warning => 1
  | .info => 2

/-- Insertion step of a stable severity sort (JS `Array.prototype.sort` is
stable; the comparator is `severityOrder[a] - severityOrder[b]`). -/
def insertBySev (a : AuditIssue) : List AuditIssue → List AuditIssue
  | [] => [a]
  | b :: bs =>
    if severityRank b.severity < severityRank a.severity then b :: insertBySev a bs
    else a :: b :: bs

def sortBySeverity (xs : List AuditIssue) : List AuditIssue :=
  xs.foldr insertBySev []

structure AuditResult where
  score : Nat
  grade : String
  issues : List AuditIssue
  passedRules : Nat
  totalRules : Nat
  deriving DecidableEq, Repr

/-- `runAudit` (part_003). -/
def runAudit (config : NginxConfig) : AuditResult :=
  let perRule := auditRules.map fun r => r.check config
  let passedRules := (perRule.filter (·.length = 0)).length
  let issues := sortBySeverity perRule.flatten
  let criticalCount := (issues.filter (·.severity == AuditSeverity.critical)).length
  let warningCount := (issues.filter (·.severity == AuditSeverity.warning)).length
  let infoCount := (issues.filter (·.severity == AuditSeverity.info)).length
  let score : Int := max 0 (100 - (criticalCount * 20 : Int) - (warningCount * 10) - (infoCount * 3))
  let score : Nat := score.toNat
  let grade : String :=
    if score ≥ 90 then "A" else if score ≥ 75 then "B" else if score ≥ 60 then "C"
    else if score ≥ 40 then "D" else "F"
  { score := score, grade := grade, issues := issues
    passedRules := passedRules, totalRules := auditRules.length }

/-- `applyFix` (part_003). -/
def applyFix (config : NginxConfig) (ruleId : String) (affectedNodeId : Option String)
    (g : Nat) : Option PartialConfig × Nat :=
  match auditRules.find? (fun r => r.id == ruleId) with
  | none => (none, g)
  | some rule =>
    match rule.fix with
    | none => (none, g)
    | some f =>
      let (p, g') := f config (affectedNodeId.getD "") g
      (some p, g')

/-- The inner `for (const issue of currentIssues.issues)` pass of
`applyAllFixes`. -/
def fixPass : List AuditIssue → NginxConfig → Bool → Nat → NginxConfig × Bool × Nat
  | [], c, ch, g => (c, ch, g)
  | i :: rest, c, ch, g =>
    if !i.canAutoFix then fixPass rest c ch g else
    match auditRules.find? (fun r => r.id == i.ruleId) with
    | none => fixPass rest c ch g
    | some rule =>
      match rule.fix with
      | none => fixPass rest c ch g
      | some f =>
        let (p, g') := f c (i.affectedNodeId.getD "") g
        if p.nonEmpty then fixPass rest (mergePartial c p) true g'
        else fixPass rest c ch g'

/-- The bounded `while (hasChanges && iterations < maxIterations)` loop. -/
def fixLoop : Nat → Bool → NginxConfig → Nat → NginxConfig × Nat
  | 0, _, c, g => (c, g)
  | _ + 1, false, c, g => (c, g)
  | fuel + 1, true, c, g =>
    let res := runAudit c
    let (c', ch, g') := fixPass res.issues c false g
    fixLoop fuel ch c' g'

/-- `applyAllFixes` (part_003): destructive cleanup via AutoFixService, then
rule-based fixes to a fixpoint, capped at 10 iterations. -/
def applyAllFixes (config : NginxConfig) (g : Nat) : NginxConfig × Nat :=
  let ((c₁, _warnings), g₁) := AutoFixService.applyAllFixes config g
  fixLoop 10 true c₁ g₁

end AuditEngine

/-! ## Location matcher (the `locationMatcher` module inside fixService.ts)

`new RegExp(pattern, flags)` / `.test` is the host regex engine; it is
modelled as a parameter: `compile pattern ci` returns the compiled test,
or `none` when the constructor throws (the `catch` branch skips the
location; its `console.warn` diagnostic is not modelled). -/

def RegexEngine : Type := String → Bool → Option (String → Bool)

inductive Lang
  | zh
  | en
  deriving DecidableEq, Repr

/-- `MatchPriority` is the TS string union
`'exact' | 'prefix-priority' | 'regex' | 'prefix' | 'none'`. -/
structure MatchResult where
  matchedLocation : Option LocationConfig
  priority : String
  priorityLabel : String
  matchReason : String
  deriving DecidableEq, Repr

/-- `PRIORITY_LABELS`. -/
def priorityLabelOf : Lang → String → String
  | .zh, "exact" => "精确匹配"
  | .zh, "prefix-priority" => "前缀优先 (^~)"
  | .zh, "regex" => "正则匹配"
  | .zh, "prefix" => "最长前缀匹配"
  | .zh, "none" => "无匹配"
  | .en, "exact" => "Exact Match"
  | .en, "prefix-priority" => "Prefix Priority (^~)"
  | .en, "regex" => "Regex Match"
  | .en, "prefix" => "Longest Prefix Match"
  | .en, "none" => "No Match"
  | _, _ => ""

/-- `MATCH_REASONS`, one function per key. -/
def reasonExact : Lang → String → String
  | .zh, path => "✅ 精确匹配: path === \"" ++ path ++ "\""
  | .en, path => "✅ Exact Match: path === \"" ++ path ++ "\""

def reasonPrefixPriority : Lang → String → String
  | .zh, path => "✅ ^~ 前缀优先匹配: \"" ++ path ++ "\" 阻断了正则搜索"
  | .en, path => "✅ Prefix Priority: \"" ++ path ++ "\" blocked regex search"

def reasonRegex : Lang → String → String → String
  | .zh, pattern, modifier =>
    "✅ 正则匹配: " ++ (if modifier == "~*" then "(不区分大小写)" else "") ++ " /" ++ pattern ++ "/"
  | .en, pattern, modifier =>
    "✅ Regex Match: " ++ (if modifier == "~*" then "(case-insensitive)" else "") ++ " /" ++ pattern ++ "/"

def reasonLongest : Lang → String → Nat → String
  | .zh, path, length => "✅ 最长前缀匹配: \"" ++ path ++ "\" (长度: " ++ toString length ++ ")"
  | .en, path, length => "✅ Longest Prefix Match: \"" ++ path ++ "\" (length: " ++ toString length ++ ")"

def reasonNone : Lang → String
  | .zh => "❌ 无匹配: 404"
  | .en => "❌ No Match: 404"

/-- JS `String.prototype.startsWith` (exact character prefix), via the
structural `stripLit` so that it evaluates in the kernel. -/
def strSW (s p : String) : Bool := (stripLit false p.data s.data).isSome

/-- Step 2's loop: the best (longest, first on ties) prefix candidate among
the locations with modifier `''` or `'^~'`. -/
def bestPrefixFold (requestPath : String) (locations : List LocationConfig) :
    Option LocationConfig × Nat :=
  locations.foldl (fun acc loc =>
    if loc.modifier == "" || loc.modifier == "^~" then
      if strSW requestPath loc.path then
        if loc.path.length > acc.2 then (some loc, loc.path.length) else acc
      else acc
    else acc) (none, 0)

/-- Step 4's loop: first regex location (declaration order) whose pattern
compiles and tests true; locations whose pattern fails to compile are
skipped. -/
def regexScan (rx : RegexEngine) (requestPath : String) :
    List LocationConfig → Option LocationConfig
  | [] => none
  | loc :: rest =>
    if loc.modifier == "~" || loc.modifier == "~*" then
      match rx loc.path (loc.modifier == "~*") with
      | some test =>
        if test requestPath then some loc else regexScan rx requestPath rest
      | none => regexScan rx requestPath rest
    else regexScan rx requestPath rest

/-- `matchLocation` (fixService.ts, locationMatcher module). -/
def matchLocation (rx : RegexEngine) (requestPath : String)
    (locations : List LocationConfig) (language : Lang := .zh) : MatchResult :=
  match locations.find? (fun loc => loc.modifier == "=" && loc.path == requestPath) with
  | some loc =>
    { matchedLocation := some loc, priority := "exact"
      priorityLabel := priorityLabelOf language "exact"
      matchReason := reasonExact language loc.path }
  | none =>
    let best := bestPrefixFold requestPath locations
    match best.1 with
    | some bestNode =>
      if bestNode.modifier == "^~" then
        { matchedLocation := some bestNode, priority := "prefix-priority"
          priorityLabel := priorityLabelOf language "prefix-priority"
          matchReason := reasonPrefixPriority language bestNode.path }
      else
        match regexScan rx requestPath locations with
        | some loc =>
          { matchedLocation := some loc, priority := "regex"
            priorityLabel := priorityLabelOf language "regex"
            matchReason := reasonRegex language loc.path loc.modifier }
        | none =>
          { matchedLocation := some bestNode, priority := "prefix"
            priorityLabel := priorityLabelOf language "prefix"
            matchReason := reasonLongest language bestNode.path best.2 }
    | none =>
      match regexScan rx requestPath locations with
      | some loc =>
        { matchedLocation := some loc, priority := "regex"
          priorityLabel := priorityLabelOf language "regex"
          matchReason := reasonRegex language loc.path loc.modifier }
      | none =>
        { matchedLocation := none, priority := "none"
          priorityLabel := priorityLabelOf language "none"
          matchReason := reasonNone language }

/-! ## `parseListenDirective` (src/utils/nginxParser.ts) -/

/-- JS `parseInt(·, 10)`: skip leading whitespace, optional sign, then the
maximal digit prefix; `none` models `NaN`. -/
def parseDigitsGo (acc : Nat) : Str → Nat
  | [] => acc
  | c :: s => if c.isDigit then parseDigitsGo (acc * 10 + (c.toNat - 48)) s else acc

def parseIntJS (s : String) : Option Int :=
  match s.data.dropWhile (fun c => isWs c) with
  | '-' :: c :: rest =>
    if c.isDigit then some (-(parseDigitsGo (c.toNat - 48) rest : Int)) else none
  | '+' :: c :: rest =>
    if c.isDigit then some ((parseDigitsGo (c.toNat - 48) rest : Int)) else none
  | c :: rest => if c.isDigit then some ((parseDigitsGo (c.toNat - 48) rest : Int)) else none
  | [] => none

/-- `/^\d+$/.test(arg)`. -/
def isBareInt (a : String) : Bool :=
  !a.data.isEmpty && a.data.all Char.isDigit

/-- `arg.split(':')` and take the last part. -/
def afterLastColon (s : Str) : Str :=
  (s.reverse.takeWhile (fun c => c ≠ ':')).reverse

/-- The result record of `parseListenDirective`; `port : Option Int` models
the JS number (with `none` for `NaN`). -/
structure ListenParse where
  port : Option Int
  defaultServer : Bool
  http2 : Bool
  ssl : Bool
  deriving DecidableEq, Repr

/-- The body of `parseListenDirective`'s `for (const arg of args)` loop. -/
def listenStep (st : ListenParse) (arg : String) : ListenParse :=
  if isBareInt arg then { st with port := parseIntJS arg }
  else if arg == "default_server" then { st with defaultServer := true }
  else if arg == "http2" then { st with http2 := true }
  else if arg == "ssl" then { st with ssl := true }
  else if arg.data.contains ':' then
    { st with port := parseIntJS ⟨afterLastColon arg.data⟩ }
  else st

/-- `parseListenDirective` (nginxParser.ts). -/
def parseListenDirective (args : List String) : ListenParse :=
  args.foldl listenStep
    { port := some 80, defaultServer := false, http2 := false, ssl := false }

/-! ## Claim-side definitions and concrete fixtures -/

/-- Claim-side rendering of step 2 (C1): the longest-path prefix candidate
among locations with modifier `''` or `'^~'` whose path is a prefix of the
request path; on a length tie the first scanned wins. -/
def claimBestPrefix (requestPath : String) : List LocationConfig → Option LocationConfig
  | [] => none
  | l :: ls =>
    let rest := claimBestPrefix requestPath ls
    if (l.modifier == "" || l.modifier == "^~") && strSW requestPath l.path then
      match rest with
      | some b => if b.path.length > l.path.length then some b else some l
      | none => some l
    else rest

/-- Claim-side rendering of step 2 as the code realizes it: the candidate's
path must additionally be nonempty (the fold's strict `>` over the initial
best length 0 never lets an empty path win). -/
def claimBestPrefixPos (requestPath : String) : List LocationConfig → Option LocationConfig
  | [] => none
  | l :: ls =>
    let rest := claimBestPrefixPos requestPath ls
    if (l.modifier == "" || l.modifier == "^~") && strSW requestPath l.path
        && l.path.length != 0 then
      match rest with
      | some b => if b.path.length > l.path.length then some b else some l
      | none => some l
    else rest

/-- Claim-side rendering of step 4: the first `~`/`~*` location, in
declaration order, whose pattern compiles and tests true. -/
def claimRegexPick (rx : RegexEngine) (p : String)
    (ls : List LocationConfig) : Option LocationConfig :=
  ls.find? fun l => (l.modifier == "~" || l.modifier == "~*") &&
    (match rx l.path (l.modifier == "~*") with
     | some test => test p
     | none => false)

/-- The best length tracked by the prefix fold for a candidate. -/
def bpLen : Option LocationConfig → Nat
  | some b => b.path.length
  | none => 0

/-- Combining a prefix candidate found earlier (kept on ties) with the best
of the remaining locations. -/
def bpMerge : Option LocationConfig → Option LocationConfig → Option LocationConfig
  | none, x => x
  | some b, none => some b
  | some b, some c => if c.path.length > b.path.length then some c else some b

/-- `s` ends with `suf` (exact characters). -/
def endsWith (suf s : Str) : Bool :=
  (stripLit false suf.reverse s.reverse).isSome

/-- A concrete regex engine for the matcher fixtures: it compiles exactly the
pattern `\.(png|jpg)$` of the demo location list — testing whether the
subject ends in `.png` or `.jpg`, case-insensitively under the `i` flag — and
fails (throws) on every other pattern. -/
def rxDemo : RegexEngine := fun pattern ci =>
  if pattern == "\\.(png|jpg)$" then
    some fun s =>
      let t : Str := if ci then s.data.map foldCase else s.data
      endsWith ".png".data t || endsWith ".jpg".data t
  else none

/-- A location with the given id/modifier/path and inert remaining fields. -/
def demoLoc (id modifier path : String) : LocationConfig :=
  { id := id, serverId := "srv", modifier := modifier, path := path
    proxyPass := "", upstreamId := none, headers := []
    cors := { enabled := false, allowOrigin := "", allowMethods := []
              allowHeaders := [], allowCredentials := false }
    websocket := false, aliasPath := "", tryFiles := ""
    returnCode := none, returnUrl := "", rewrite := none
    accessControl := { allow := [], deny := []
                       authBasic := { enabled := false, realm := "", userFile := "" } }
    customDirectives := "" }

/-- The spec's concrete location list:
`[= /health, ^~ /static/, ~* \.(png|jpg)$, '' /]`. -/
def demoLocs : List LocationConfig :=
  [demoLoc "l1" "=" "/health",
   demoLoc "l2" "^~" "/static/",
   demoLoc "l3" "~*" "\\.(png|jpg)$",
   demoLoc "l4" "" "/"]

/-- The C2 fixture: a TLS server with `forceRedirect` and no port-80
sibling. -/
def c2ServerS : ServerConfig :=
  { id := "s1", name := "HTTPS"
    listen := { port := 443, defaultServer := false, http2 := false }
    serverName := "example.com"
    ssl := { enabled := true, certificate := "c", certificateKey := "k"
             protocols := ["TLSv1"], ciphers := "", forceRedirect := true }
    root := "/var/www", index := ["index.html"], customDirectives := "" }

/-- The C2 fixture config: `server_tokens` unset (`true`), gzip disabled,
one TLS server with `forceRedirect = true`, no port-80 server. -/
def c2Input : NginxConfig :=
  { global := { user := "root", workerProcesses := "auto"
                errorLog := { path := "/var/log/nginx/error.log", level := "warn" }
                pid := "/run/nginx.pid", customDirectives := "" }
    events := { workerConnections := 1024, use := "epoll", multiAccept := true
                customDirectives := "" }
    http := { sendfile := true, tcpNopush := true, tcpNodelay := true
              keepaliveTimeout := 65, typesHashMaxSize := 2048
              includeMimeTypes := true, defaultType := "application/octet-stream"
              logFormat := { name := "main", format := "" }
              accessLog := { path := "/var/log/nginx/access.log", format := "main" }
              gzip := { enabled := false, types := [], compLevel := 6, minLength := 1024 }
              serverTokens := true, clientMaxBodySize := "1m", customDirectives := "" }
    upstreams := [], servers := [c2ServerS], locations := [], rawConfig := none }

def c2Out : NginxConfig := (AuditEngine.applyAllFixes c2Input 0).1

def c2Gen : Nat := (AuditEngine.applyAllFixes c2Input 0).2

/-- C10 counterexample fixture: a TLS 443 server and a TLS port-80 server,
both `forceRedirect`, same name, the 443 one first. -/
def c10S : ServerConfig :=
  { id := "sa", name := "A", listen := { port := 443, defaultServer := false, http2 := false }
    serverName := "a.com"
    ssl := { enabled := true, certificate := "", certificateKey := ""
             protocols := ["TLSv1"], ciphers := "", forceRedirect := true }
    root := "", index := [], customDirectives := "" }

def c10Y : ServerConfig :=
  { id := "ya", name := "Y", listen := { port := 80, defaultServer := false, http2 := false }
    serverName := "a.com"
    ssl := { enabled := true, certificate := "", certificateKey := ""
             protocols := ["TLSv1"], ciphers := "", forceRedirect := true }
    root := "", index := [], customDirectives := "x;" }

def c10In : NginxConfig :=
  { c2Input with servers := [c10S, c10Y] }

/-- C3 counterexample fixture: the target TLS server itself listens on
port 80 next to the sibling it hijacks. -/
def c3T : ServerConfig :=
  { id := "t3", name := "T", listen := { port := 80, defaultServer := false, http2 := false }
    serverName := "b.com"
    ssl := { enabled := false, certificate := "", certificateKey := ""
             protocols := [], ciphers := "", forceRedirect := false }
    root := "/srv", index := ["index.html"], customDirectives := "old x;" }

def c3S80 : ServerConfig :=
  { id := "s3", name := "S", listen := { port := 80, defaultServer := false, http2 := false }
    serverName := "b.com"
    ssl := { enabled := true, certificate := "c", certificateKey := "k"
             protocols := ["TLSv1.2", "TLSv1.3"], ciphers := "", forceRedirect := true }
    root := "", index := [], customDirectives := "" }

def c3In : NginxConfig :=
  { c2Input with servers := [c3T, c3S80] }

/-! ## Declarative form of the cleaner pattern

Proof apparatus for the idempotence analysis of `removeDirective`: an
existential description of a match of `^\s*K\s+[^;]+;?\s*$`, the shape of a
removed span, and relations describing what `replaceAll` and `cleanAndFormat`
delete. -/

def allWs (u : Str) : Prop := ∀ c ∈ u, isWs c = true

def noSemi (u : Str) : Prop := ∀ c ∈ u, c ≠ ';'

/-- `$` holds at the start of the remainder `u`. -/
def lineEndB : Str → Bool
  | [] => true
  | c :: _ => isLT c

/-- A match of `\s+[^;]+;?\s*$` against a prefix of `u`:
`A` the `\s+` part, `B` the `[^;]+` part, `C` the optional `;`, `D` the
trailing `\s*`, `rest` beginning at a line end. -/
def TailDecomp (u : Str) : Prop :=
  ∃ A B C D rest, u = A ++ B ++ C ++ D ++ rest ∧
    A ≠ [] ∧ allWs A ∧ B ≠ [] ∧ noSemi B ∧ (C = [] ∨ C = [';']) ∧ allWs D ∧
    lineEndB rest = true

/-- A match of the full pattern anchored at the start of `s` (assumed to be a
line start): leading `\s*`, the key literal, then the tail. -/
def AttemptP (ci : Bool) (key : Str) (s : Str) : Prop :=
  ∃ W K T, s = W ++ K ++ T ∧ allWs W ∧
    List.Forall₂ (fun p c => chMatch ci p c = true) key K ∧ TailDecomp T

/-- The exact text a successful match consumes. -/
def SpanShape (ci : Bool) (key : Str) (i : Str) : Prop :=
  ∃ W K A B C D, i = W ++ K ++ A ++ B ++ C ++ D ∧ allWs W ∧
    List.Forall₂ (fun p c => chMatch ci p c = true) key K ∧
    A ≠ [] ∧ allWs A ∧ B ≠ [] ∧ noSemi B ∧ (C = [] ∨ C = [';']) ∧ allWs D

/-- A plain directive key: a nonempty single word containing no whitespace
and no `;` (every key of `DIRECTIVE_PATTERNS`, and every single-word key sent
to the generic pattern — as opposed to the composite
`add_header <name>` / `proxy_set_header <name>` forms). -/
def PlainKey (key : Str) : Prop :=
  key ≠ [] ∧ ∀ c ∈ key, isWs c = false ∧ c ≠ ';'

/-- `u` ends at a line-start boundary (the position after `u` is a line
start): `u` is empty and the scan flag is set, or `u` ends with a line
terminator. -/
def LineStartish (b : Bool) (u : Str) : Prop :=
  (u = [] ∧ b = true) ∨ (∃ u' c, u = u' ++ [c] ∧ isLT c = true)

/-- No line start of `s` carries a match (`b`: whether position 0 of `s` is a
line start). -/
def NoMatch (ci : Bool) (key : Str) (b : Bool) (s : Str) : Prop :=
  ∀ u v, s = u ++ v → LineStartish b u → ¬ AttemptP ci key v

/-- The trace of the global-replace scan: `Scan ci key b s w` holds when `w`
is `s` minus a set of matched spans, each span starting at a line start and
ending at a line end, every surviving line start being match-free. -/
inductive Scan (ci : Bool) (key : Str) : Bool → Str → Str → Prop
  | nil : ∀ b, Scan ci key b [] []
  | copy : ∀ b c s w, (b = true → ¬ AttemptP ci key (c :: s)) →
      Scan ci key (isLT c) s w → Scan ci key b (c :: s) (c :: w)
  | span : ∀ i' c rest w, SpanShape ci key (i' ++ [c]) → lineEndB rest = true →
      Scan ci key (isLT c) rest w →
      Scan ci key true (i' ++ [c] ++ rest) w

/-- `WsIns b v w`: `w` is `v` with whitespace inserted; a (run of)
insertion(s) may start only at a line-start boundary (`b` tracks it), except
that arbitrary whitespace may trail after the end of `v` — exactly the
deletions `cleanAndFormat` performs (dropped blank lines sit after a
surviving newline or at the very start; the final trim deletes a whitespace
prefix and suffix). -/
inductive WsIns : Bool → Str → Str → Prop
  | nil : ∀ b, WsIns b [] []
  | tail : ∀ b c w, isWs c = true → WsIns b [] w → WsIns b [] (c :: w)
  | keep : ∀ b c v w, WsIns (isLT c) v w → WsIns b (c :: v) (c :: w)
  | ins : ∀ c v w, isWs c = true → WsIns true v w → WsIns true v (c :: w)

/-- Claim-side view of one `parseListenDirective` argument's effect on the
port: `some p` when the argument sets the port to `p`, `none` when it leaves
the port alone (mirroring the chain of the fold step). -/
def portUpdate (arg : String) : Option (Option Int) :=
  if isBareInt arg then some (parseIntJS arg)
  else if arg == "default_server" then none
  else if arg == "http2" then none
  else if arg == "ssl" then none
  else if arg.data.contains ':' then some (parseIntJS ⟨afterLastColon arg.data⟩)
  else none

/-- An argument `parseListenDirective` reacts to; every other token is
ignored. -/
def recognizedListen (arg : String) : Bool :=
  isBareInt arg || arg == "default_server" || arg == "http2" || arg == "ssl" ||
  arg.data.contains ':'

/-- The scan flag after consuming a run of characters: line-terminator status
of the last consumed character (the initial flag when the run is empty). -/
def lastFlag (b : Bool) (l : Str) : Bool := l.foldl (fun _ c => isLT c) b

/-- The blocking location the `security-hidden-files` fix appends (its id
drawn from the fresh-id supply, its `serverId` the node id it was invoked
with). -/
def hfBlockLoc (sid : String) (g : Nat) : LocationConfig :=
  { id := "uuid-" ++ toString g, serverId := sid, modifier := "~", path := "/\\."
    proxyPass := "", upstreamId := none, headers := []
    cors := { enabled := false, allowOrigin := "", allowMethods := []
              allowHeaders := [], allowCredentials := false }
    websocket := false, aliasPath := "", tryFiles := ""
    returnCode := some 403, returnUrl := "", rewrite := none
    accessControl := { allow := [], deny := []
                       authBasic := { enabled := false, realm := "", userFile := "" } }
    customDirectives := "# 拦截所有隐藏文件访问（.git, .env 等）" }

/-- The passthrough text of a server after the four destructive cleaner
passes (`server_tokens`, `autoindex`, and — when TLS is enabled —
`ssl_protocols`). -/
def pipeText (s : ServerConfig) : String :=
  if s.ssl.enabled then
    AutoFixService.cleanDirectives (AutoFixService.cleanDirectives
      (AutoFixService.cleanDirectives s.customDirectives ["server_tokens"])
      ["autoindex"]) ["ssl_protocols"]
  else
    AutoFixService.cleanDirectives (AutoFixService.cleanDirectives
      s.customDirectives ["server_tokens"]) ["autoindex"]

/-- The two halves of `jsTrim`. -/
def ltrimWs (s : Str) : Str := s.dropWhile isWs

def rtrimWs (s : Str) : Str := (s.reverse.dropWhile isWs).reverse

/-! # Theorems -/

/-! ## Character-class facts -/

theorem ws_toNat_range (c : Char) (h : isWs c = true) :
    c.val.toNat < 65 ∨ 122 < c.val.toNat := by
  unfold isWs at h
  simp only [Bool.or_eq_true, decide_eq_true_eq, or_assoc] at h
  rcases h with h|h|h|h|h|h|h|h|h|h|h|h|h|h|h|h|h|h|h|h|h|h|h|h|h <;>
    rw [h] <;> decide

theorem isLT_isWs (c : Char) (h : isLT c = true) : isWs c = true := by
  unfold isLT at h
  unfold isWs
  simp only [Bool.or_eq_true, decide_eq_true_eq, or_assoc] at h ⊢
  tauto

theorem toNat_ofNat_valid (n : Nat) (h : n < 0xd800) : (Char.ofNat n).toNat = n := by
  rw [Char.ofNat, dif_pos (Or.inl h)]
  simp [Char.ofNatAux, Char.toNat, UInt32.toNat]

/-- ASCII `toLower` moves only upper-case letters into `[97,122]`; if the
target's codepoint is not a lower-case letter, the source already equals the
target. -/
theorem toLower_fix {p c : Char} (h : p.toLower = c)
    (hc : c.val.toNat < 97 ∨ 122 < c.val.toNat) : p = c := by
  unfold Char.toLower at h
  by_cases h65 : p.toNat ≥ 65 ∧ p.toNat ≤ 90
  · exfalso
    rw [if_pos h65] at h
    have hv : (Char.ofNat (p.toNat + 32)).toNat = p.toNat + 32 :=
      toNat_ofNat_valid _ (by simp only [Char.toNat] at h65 ⊢; omega)
    rw [h] at hv
    simp only [Char.toNat] at hv h65
    omega
  · rwa [if_neg h65] at h

theorem toLower_eq_self_of_range {c : Char}
    (hc : c.val.toNat < 65 ∨ 122 < c.val.toNat) : c.toLower = c := by
  unfold Char.toLower
  rw [if_neg]
  simp only [Char.toNat]
  omega

/-- A character matched (possibly case-insensitively) by a whitespace
character is that whitespace character: whitespace is fixed by `toLower` and
not the image of any letter. -/
theorem chMatch_ws {ci : Bool} {p c : Char} (h : chMatch ci p c = true)
    (hc : isWs c = true) : isWs p = true := by
  unfold chMatch at h
  simp only [Bool.or_eq_true, decide_eq_true_eq, Bool.and_eq_true] at h
  rcases h with h | ⟨_, h⟩
  · subst h; exact hc
  · unfold foldCase at h
    rw [toLower_eq_self_of_range (ws_toNat_range c hc)] at h
    have := toLower_fix h (by rcases ws_toNat_range c hc with h'|h' <;> omega)
    subst this; exact hc

theorem chMatch_semi {ci : Bool} {p c : Char} (h : chMatch ci p c = true)
    (hc : c = ';') : p = ';' := by
  subst hc
  unfold chMatch at h
  simp only [Bool.or_eq_true, decide_eq_true_eq, Bool.and_eq_true] at h
  rcases h with h | ⟨_, h⟩
  · exact h
  · unfold foldCase at h
    rw [show Char.toLower ';' = ';' by decide] at h
    exact toLower_fix h (by decide)

theorem ws_ne_semi {c : Char} (h : isWs c = true) : c ≠ ';' := by
  intro hc
  subst hc
  revert h
  decide

/-! ## C5 — the cleaner never cross-matches a key that is a proper prefix of
a longer directive name -/

/-- C5: `removeDirective("ssl_session_cache shared:SSL:10m;", "ssl")` leaves
the line untouched: the removal pattern requires whitespace right after the
full key token, and `ssl_session_cache` continues with `_`. -/
theorem claim_C5 :
    ConfigCleaner.removeDirective "ssl_session_cache shared:SSL:10m;".data "ssl".data
      = "ssl_session_cache shared:SSL:10m;".data := by
  decide

/-! ## C4 — cleaner idempotence: refuted in general (composite header keys),
proved for plain directive keys -/

/-- C4 counterexample: with the composite key `add_header X-Frame-Options`,
removing a matching directive line can join a bare `add_header` line with a
later line starting with the header name, so a second `removeDirective` call
removes more text.  Here the first call yields
`"add_header\n\nX-Frame-Options x"` and the second call yields `""`. -/
theorem claim_C4_cx :
    ConfigCleaner.removeDirective
      (ConfigCleaner.removeDirective
        "add_header\nadd_header X-Frame-Options v;\nX-Frame-Options x".data
        "add_header X-Frame-Options".data)
      "add_header X-Frame-Options".data
    ≠ ConfigCleaner.removeDirective
        "add_header\nadd_header X-Frame-Options v;\nX-Frame-Options x".data
        "add_header X-Frame-Options".data := by
  decide

/-! ## C2 — fix convergence and idempotence on the spec's scenario -/

set_option maxHeartbeats 4000000 in
/-- C2: on a config with `server_tokens` unset, gzip disabled, and a TLS
server with `forceRedirect = true` and no port-80 sibling, `applyAllFixes`
converges (within the cap) to `serverTokens = false`, gzip enabled, and
exactly one new port-80 server whose only passthrough content is the HTTPS
redirect directive; the output is audit-clean and a second `applyAllFixes`
run returns it unchanged (idempotence). -/
theorem claim_C2 :
    c2Input.http.serverTokens = true ∧
    c2Input.http.gzip.enabled = false ∧
    c2ServerS.ssl.enabled = true ∧
    c2ServerS.ssl.forceRedirect = true ∧
    (c2Input.servers.filter fun s => s.listen.port == 80) = [] ∧
    c2Out.http.serverTokens = false ∧
    c2Out.http.gzip.enabled = true ∧
    (c2Out.servers.filter fun s => s.listen.port == 80) =
      [{ id := "uuid-0", name := "example.com (HTTP Redirect)"
         listen := { port := 80, defaultServer := false, http2 := false }
         serverName := "example.com"
         ssl := { enabled := false, certificate := "", certificateKey := ""
                  protocols := [], ciphers := "", forceRedirect := false }
         root := "", index := []
         customDirectives := "return 301 https://$host$request_uri;" }] ∧
    c2Input.servers.all (fun s => s.id != "uuid-0") ∧
    (AuditEngine.runAudit c2Out).issues = [] ∧
    AuditEngine.applyAllFixes c2Out c2Gen = (c2Out, c2Gen) := by
  decide

/-! ## C3 — the hijack can delete the target server itself -/

/-- C3 counterexample: when the TLS target server `S` itself listens on
port 80, the "extra port-80 servers" sweep of `applyForceHttps` deletes `S`
from the config, so `S` does not end with `forceRedirect` cleared and
`ssl.enabled` true — it does not end in the config at all. -/
theorem claim_C3_cx :
    (c3In.servers.find? (fun s => s.id == "s3")) = some c3S80 ∧
    c3S80.ssl.enabled = true ∧ c3S80.ssl.forceRedirect = true ∧
    c3T.id ≠ c3S80.id ∧ c3T.listen.port = 80 ∧ c3T.serverName = c3S80.serverName ∧
    AutoFixService.findHttpNode c3In "b.com" (some "s3") = some c3T ∧
    ((AutoFixService.applyForceHttps c3In "s3" 0).1.servers.find?
      (fun s => s.id == "s3")) = none := by
  decide

/-! ## C7 — listen parsing is permissive but case-sensitive -/

/-- C7 counterexample: the flag tokens are compared case-sensitively: the
argument list `["SSL"]` does not set the `ssl` flag (it is ignored as an
unrecognized token), refuting "regardless of their letter case". -/
theorem claim_C7_cx :
    parseListenDirective ["SSL"] =
      { port := some 80, defaultServer := false, http2 := false, ssl := false } := by
  decide

/-! ## C8 — a bogus node id is not always a no-op -/

/-- C8 counterexample: the `security-server-tokens` rule's fix ignores its
node-id argument entirely: invoked with the id `"zz"`, which identifies no
entity of `c2Input`, it returns a non-empty partial update whose merge
changes the config. -/
theorem claim_C8_cx :
    c2Input.servers.all (fun s => s.id != "zz") ∧
    c2Input.locations = [] ∧ c2Input.upstreams = [] ∧
    ((AuditEngine.applyFix c2Input "security-server-tokens" (some "zz") 0).1.map
      (fun p => (AuditEngine.PartialConfig.nonEmpty p,
                 AuditEngine.mergePartial c2Input p == c2Input)))
      = some (true, false) := by
  decide

/-! ## C10 — the protocol overwrite is not unconditional -/

set_option maxHeartbeats 4000000 in
/-- C10 counterexample: a `forceRedirect` TLS server that itself listens on
port 80 (`c10Y`) is first hijacked into a redirect server and then, by the
final step of its own `applyForceHttps` pass, has `ssl.enabled` forced back
to `true` — so the output of `applyAllFixes` contains an ssl-enabled server
whose `ssl.protocols` is `[]`, not `["TLSv1.2", "TLSv1.3"]`. -/
theorem claim_C10_cx :
    c10Y.ssl.enabled = true ∧ c10Y.ssl.forceRedirect = true ∧
    c10Y.listen.port = 80 ∧
    ((AuditEngine.applyAllFixes c10In 0).1.servers.find? (fun s => s.id == "ya")).map
      (fun s => (s.ssl.enabled, s.ssl.protocols)) = some (true, []) := by
  decide

/-! ## C6 — audit result shape -/

theorem mem_of_head? {α : Type} {l : List α} {b : α} (h : l.head? = some b) : b ∈ l := by
  cases l with
  | nil => cases h
  | cons y ys =>
    injection h with h
    subst h
    exact List.mem_cons_self y ys

theorem insertBySev_front (a : AuditEngine.AuditIssue)
    (L : List AuditEngine.AuditIssue)
    (h : ∀ b, L.head? = some b → ¬ AuditEngine.severityRank b.severity <
      AuditEngine.severityRank a.severity) :
    AuditEngine.insertBySev a L = a :: L := by
  cases L with
  | nil => rfl
  | cons b bs =>
    have hb := h b rfl
    simp [AuditEngine.insertBySev, hb]

theorem insertBySev_append (a : AuditEngine.AuditIssue)
    (L₁ L₂ : List AuditEngine.AuditIssue)
    (h₁ : ∀ b ∈ L₁, AuditEngine.severityRank b.severity <
      AuditEngine.severityRank a.severity)
    (h₂ : ∀ b, L₂.head? = some b → ¬ AuditEngine.severityRank b.severity <
      AuditEngine.severityRank a.severity) :
    AuditEngine.insertBySev a (L₁ ++ L₂) = L₁ ++ a :: L₂ := by
  induction L₁ with
  | nil => exact insertBySev_front a L₂ h₂
  | cons c L₁ ih =>
    have hc := h₁ c (by simp)
    simp only [List.cons_append, AuditEngine.insertBySev, if_pos hc]
    exact congrArg (c :: ·) (ih (fun b hb => h₁ b (by simp [hb])))

theorem mem_filter_sev {S : AuditEngine.AuditSeverity} {xs : List AuditEngine.AuditIssue}
    {b : AuditEngine.AuditIssue} (h : b ∈ xs.filter (fun i => i.severity == S)) :
    b.severity = S := by
  have := (List.mem_filter.mp h).2
  simpa using this

theorem sortBySeverity_eq (xs : List AuditEngine.AuditIssue) :
    AuditEngine.sortBySeverity xs =
      xs.filter (fun i => i.severity == AuditEngine.AuditSeverity.critical)
        ++ xs.filter (fun i => i.severity == AuditEngine.AuditSeverity.warning)
        ++ xs.filter (fun i => i.severity == AuditEngine.AuditSeverity.info) := by
  induction xs with
  | nil => rfl
  | cons x xs ih =>
    show AuditEngine.insertBySev x (AuditEngine.sortBySeverity xs) = _
    rw [ih]
    cases hx : x.severity with
    | critical =>
      rw [insertBySev_front x _
        (fun b _ => by simp [AuditEngine.severityRank, hx])]
      simp [List.filter_cons, hx]
    | warning =>
      rw [List.append_assoc]
      rw [insertBySev_append x
        (xs.filter (fun i => i.severity == AuditEngine.AuditSeverity.critical))
        (xs.filter (fun i => i.severity == AuditEngine.AuditSeverity.warning)
          ++ xs.filter (fun i => i.severity == AuditEngine.AuditSeverity.info))
        (fun b hb => by rw [mem_filter_sev hb, hx]; decide)
        (fun b hb => by
          rcases List.mem_append.mp (mem_of_head? hb) with hm | hm <;>
            rw [mem_filter_sev hm, hx] <;> decide)]
      simp [List.filter_cons, hx]
    | info =>
      rw [insertBySev_append x
        (xs.filter (fun i => i.severity == AuditEngine.AuditSeverity.critical)
          ++ xs.filter (fun i => i.severity == AuditEngine.AuditSeverity.warning))
        (xs.filter (fun i => i.severity == AuditEngine.AuditSeverity.info))
        (fun b hb => by
          rcases List.mem_append.mp hb with hm | hm <;>
            rw [mem_filter_sev hm, hx] <;> decide)
        (fun b hb => by rw [mem_filter_sev (mem_of_head? hb), hx]; decide)]
      simp [List.filter_cons, hx, List.append_assoc]

theorem filter_sev_block (S T : AuditEngine.AuditSeverity)
    (xs : List AuditEngine.AuditIssue) (h : S ≠ T) :
    (xs.filter (fun i => i.severity == S)).filter (fun i => i.severity == T) = [] := by
  rw [List.filter_eq_nil_iff]
  intro a ha hT
  exact h (by rw [← mem_filter_sev ha]; simpa using hT)

theorem filter_sev_self (S : AuditEngine.AuditSeverity)
    (xs : List AuditEngine.AuditIssue) :
    (xs.filter (fun i => i.severity == S)).filter (fun i => i.severity == S)
      = xs.filter (fun i => i.severity == S) := by
  rw [List.filter_eq_self]
  intro a ha
  simp [mem_filter_sev ha]

theorem sorted_filter_sev (xs : List AuditEngine.AuditIssue)
    (S : AuditEngine.AuditSeverity) :
    (AuditEngine.sortBySeverity xs).filter (fun i => i.severity == S)
      = xs.filter (fun i => i.severity == S) := by
  rw [sortBySeverity_eq, List.filter_append, List.filter_append]
  cases S with
  | critical =>
    rw [filter_sev_self, filter_sev_block _ _ _ (by decide),
      filter_sev_block _ _ _ (by decide)]
    simp
  | warning =>
    rw [filter_sev_self, filter_sev_block _ _ _ (by decide),
      filter_sev_block _ _ _ (by decide)]
    simp
  | info =>
    rw [filter_sev_self, filter_sev_block _ _ _ (by decide),
      filter_sev_block _ _ _ (by decide)]
    simp

/-- C6: `runAudit` concatenates every rule's issues, orders them critical,
then warning, then info, stably (the sorted list is exactly the three
severity-filtered sublists in their original relative order), scores
`max 0 (100 - 20c - 10w - 3i)` over the issue counts, grades by the fixed
thresholds (≥90 A, ≥75 B, ≥60 C, ≥40 D, else F), and reports all 12 rules. -/
theorem claim_C6 (config : NginxConfig) :
    (AuditEngine.runAudit config).issues =
      ((AuditEngine.auditRules.map fun r => r.check config).flatten.filter
          (fun i => i.severity == AuditEngine.AuditSeverity.critical))
        ++ ((AuditEngine.auditRules.map fun r => r.check config).flatten.filter
          (fun i => i.severity == AuditEngine.AuditSeverity.warning))
        ++ ((AuditEngine.auditRules.map fun r => r.check config).flatten.filter
          (fun i => i.severity == AuditEngine.AuditSeverity.info)) ∧
    ((AuditEngine.runAudit config).score : Int) =
      max 0 (100 -
        (((AuditEngine.auditRules.map fun r => r.check config).flatten.filter
          (fun i => i.severity == AuditEngine.AuditSeverity.critical)).length * 20 : Int) -
        (((AuditEngine.auditRules.map fun r => r.check config).flatten.filter
          (fun i => i.severity == AuditEngine.AuditSeverity.warning)).length * 10 : Int) -
        (((AuditEngine.auditRules.map fun r => r.check config).flatten.filter
          (fun i => i.severity == AuditEngine.AuditSeverity.info)).length * 3 : Int)) ∧
    (AuditEngine.runAudit config).grade =
      (if (AuditEngine.runAudit config).score ≥ 90 then "A"
       else if (AuditEngine.runAudit config).score ≥ 75 then "B"
       else if (AuditEngine.runAudit config).score ≥ 60 then "C"
       else if (AuditEngine.runAudit config).score ≥ 40 then "D" else "F") ∧
    (AuditEngine.runAudit config).totalRules = 12 := by
  refine ⟨?_, ?_, rfl, rfl⟩
  · show AuditEngine.sortBySeverity _ = _
    exact sortBySeverity_eq _
  · show ((Int.toNat _ : Nat) : Int) = _
    rw [Int.toNat_of_nonneg (le_max_left _ _)]
    rw [sorted_filter_sev, sorted_filter_sev, sorted_filter_sev]

/-! ## C7 — listen parsing -/

theorem getLastD_cons (x : Option Int) (l : List (Option Int)) (d : Option Int) :
    ((x :: l).getLast?).getD d = (l.getLast?).getD x := by
  cases l with
  | nil => rfl
  | cons y l =>
    rw [List.getLast?_cons_cons]
    cases hl : (y :: l).getLast? with
    | none => rw [List.getLast?_eq_none_iff] at hl; cases hl
    | some z => rfl

theorem bareInt_not_flag {a : String} (h1 : isBareInt a = true) (t : String)
    (ht : isBareInt t = false) : (a == t) = false := by
  cases hb : a == t
  · rfl
  · rw [eq_of_beq hb] at h1; rw [h1] at ht; cases ht

theorem listenStep_port (st : ListenParse) (a : String) :
    (listenStep st a).port = (portUpdate a).getD st.port := by
  unfold listenStep portUpdate
  by_cases h1 : isBareInt a = true
  · simp [h1]
  · by_cases h2 : (a == "default_server") = true
    · simp [h1, h2]
    · by_cases h3 : (a == "http2") = true
      · simp [h1, h2, h3]
      · by_cases h4 : (a == "ssl") = true
        · simp [h1, h2, h3, h4]
        · by_cases h5 : a.data.contains ':' = true
          · have h5' : ':' ∈ a.data := by simpa using h5
            simp [h1, h2, h3, h4, h5, h5']
          · have h5' : ¬ ':' ∈ a.data := by simpa using h5
            simp [h1, h2, h3, h4, h5, h5']

theorem listenStep_defaultServer (st : ListenParse) (a : String) :
    (listenStep st a).defaultServer = (st.defaultServer || (a == "default_server")) := by
  unfold listenStep
  by_cases h1 : isBareInt a = true
  · rw [bareInt_not_flag h1 "default_server" (by decide)]
    simp [h1]
  · by_cases h2 : (a == "default_server") = true
    · simp [h1, h2]
    · by_cases h3 : (a == "http2") = true
      · simp [h1, h2, h3]
      · by_cases h4 : (a == "ssl") = true
        · simp [h1, h2, h3, h4]
        · by_cases h5 : a.data.contains ':' = true
          · have h5' : ':' ∈ a.data := by simpa using h5
            simp [h1, h2, h3, h4, h5, h5']
          · have h5' : ¬ ':' ∈ a.data := by simpa using h5
            simp [h1, h2, h3, h4, h5, h5']

theorem listenStep_http2 (st : ListenParse) (a : String) :
    (listenStep st a).http2 = (st.http2 || (a == "http2")) := by
  unfold listenStep
  by_cases h1 : isBareInt a = true
  · rw [bareInt_not_flag h1 "http2" (by decide)]
    simp [h1]
  · by_cases h2 : (a == "default_server") = true
    · have hh : (a == "http2") = false := by rw [eq_of_beq h2]; decide
      simp [h1, h2, hh]
    · by_cases h3 : (a == "http2") = true
      · simp [h1, h2, h3]
      · by_cases h4 : (a == "ssl") = true
        · simp [h1, h2, h3, h4]
        · by_cases h5 : a.data.contains ':' = true
          · have h5' : ':' ∈ a.data := by simpa using h5
            simp [h1, h2, h3, h4, h5, h5']
          · have h5' : ¬ ':' ∈ a.data := by simpa using h5
            simp [h1, h2, h3, h4, h5, h5']

theorem listenStep_ssl (st : ListenParse) (a : String) :
    (listenStep st a).ssl = (st.ssl || (a == "ssl")) := by
  unfold listenStep
  by_cases h1 : isBareInt a = true
  · rw [bareInt_not_flag h1 "ssl" (by decide)]
    simp [h1]
  · by_cases h2 : (a == "default_server") = true
    · have hs : (a == "ssl") = false := by rw [eq_of_beq h2]; decide
      simp [h1, h2, hs]
    · by_cases h3 : (a == "http2") = true
      · have hs : (a == "ssl") = false := by rw [eq_of_beq h3]; decide
        simp [h1, h2, h3, hs]
      · by_cases h4 : (a == "ssl") = true
        · simp [h1, h2, h3, h4]
        · by_cases h5 : a.data.contains ':' = true
          · have h5' : ':' ∈ a.data := by simpa using h5
            simp [h1, h2, h3, h4, h5, h5']
          · have h5' : ¬ ':' ∈ a.data := by simpa using h5
            simp [h1, h2, h3, h4, h5, h5']

theorem listenFold_defaultServer (args : List String) (st : ListenParse) :
    (args.foldl listenStep st).defaultServer
      = (st.defaultServer || args.any (· == "default_server")) := by
  induction args generalizing st with
  | nil => simp
  | cons a args ih =>
    rw [List.foldl_cons, ih, listenStep_defaultServer]
    simp [Bool.or_assoc]

theorem listenFold_http2 (args : List String) (st : ListenParse) :
    (args.foldl listenStep st).http2 = (st.http2 || args.any (· == "http2")) := by
  induction args generalizing st with
  | nil => simp
  | cons a args ih =>
    rw [List.foldl_cons, ih, listenStep_http2]
    simp [Bool.or_assoc]

theorem listenFold_ssl (args : List String) (st : ListenParse) :
    (args.foldl listenStep st).ssl = (st.ssl || args.any (· == "ssl")) := by
  induction args generalizing st with
  | nil => simp
  | cons a args ih =>
    rw [List.foldl_cons, ih, listenStep_ssl]
    simp [Bool.or_assoc]

theorem listenFold_port (args : List String) (st : ListenParse) :
    (args.foldl listenStep st).port
      = ((args.filterMap portUpdate).getLast?).getD st.port := by
  induction args generalizing st with
  | nil => rfl
  | cons a args ih =>
    rw [List.foldl_cons, ih, listenStep_port]
    cases hpa : portUpdate a with
    | none => simp [List.filterMap_cons, hpa]
    | some p => simp [List.filterMap_cons, hpa, getLastD_cons]

theorem any_beq_filter (args : List String) (t : String)
    (ht : recognizedListen t = true) :
    (args.filter recognizedListen).any (· == t) = args.any (· == t) := by
  induction args with
  | nil => rfl
  | cons a args ih =>
    by_cases hq : recognizedListen a = true
    · simp [List.filter_cons, hq, ih]
    · have hat : (a == t) = false := by
        cases hab : a == t
        · rfl
        · rw [eq_of_beq hab] at hq; exact absurd ht hq
      simp [List.filter_cons, hq, hat, ih]

theorem filterMap_portUpdate_filter (args : List String) :
    (args.filter recognizedListen).filterMap portUpdate
      = args.filterMap portUpdate := by
  induction args with
  | nil => rfl
  | cons a args ih =>
    by_cases hq : recognizedListen a = true
    · cases hpa : portUpdate a with
      | none => simp [List.filter_cons, hq, List.filterMap_cons, hpa, ih]
      | some p => simp [List.filter_cons, hq, List.filterMap_cons, hpa, ih]
    · have hq' : recognizedListen a = false := by
        cases hv : recognizedListen a
        · rfl
        · exact absurd hv hq
      have hpu : portUpdate a = none := by
        unfold recognizedListen at hq'
        have h1 : isBareInt a = false := by
          cases hv : isBareInt a
          · rfl
          · rw [hv] at hq'; simp at hq'
        have h2 : (a == "default_server") = false := by
          cases hv : a == "default_server"
          · rfl
          · rw [hv] at hq'; simp at hq'
        have h3 : (a == "http2") = false := by
          cases hv : a == "http2"
          · rfl
          · rw [hv] at hq'; simp at hq'
        have h4 : (a == "ssl") = false := by
          cases hv : a == "ssl"
          · rfl
          · rw [hv] at hq'; simp at hq'
        have h5 : a.data.contains ':' = false := by
          cases hv : a.data.contains ':'
          · rfl
          · rw [hv] at hq'; simp at hq'
        have h5' : ¬ ':' ∈ a.data := by simpa using h5
        simp [portUpdate, h1, h2, h3, h4, h5, h5']
      simp [List.filter_cons, hq, List.filterMap_cons, hpu, ih]

/-- C7: listen-argument parsing characterized in full: the flag tokens
`default_server`, `http2` and `ssl` set their flags iff they occur, in any
position but matched exactly (case-sensitively); the port is the value of
the last port-setting argument (a bare integer, or the substring after the
last `:` of an argument containing `:`), defaulting to 80; and unrecognized
tokens are ignored rather than rejected: filtering them out does not change
the parse. -/
theorem claim_C7 (args : List String) :
    (parseListenDirective args).defaultServer = args.any (· == "default_server") ∧
    (parseListenDirective args).http2 = args.any (· == "http2") ∧
    (parseListenDirective args).ssl = args.any (· == "ssl") ∧
    (parseListenDirective args).port
      = ((args.filterMap portUpdate).getLast?).getD (some 80) ∧
    parseListenDirective args = parseListenDirective (args.filter recognizedListen) := by
  refine ⟨?_, ?_, ?_, ?_, ?_⟩
  · rw [parseListenDirective, listenFold_defaultServer]
    rfl
  · rw [parseListenDirective, listenFold_http2]
    rfl
  · rw [parseListenDirective, listenFold_ssl]
    rfl
  · rw [parseListenDirective, listenFold_port]
  · have e1 : (parseListenDirective args).port
        = (parseListenDirective (args.filter recognizedListen)).port := by
      rw [parseListenDirective, parseListenDirective, listenFold_port, listenFold_port,
        filterMap_portUpdate_filter]
    have e2 : (parseListenDirective args).defaultServer
        = (parseListenDirective (args.filter recognizedListen)).defaultServer := by
      rw [parseListenDirective, parseListenDirective, listenFold_defaultServer,
        listenFold_defaultServer, any_beq_filter args "default_server" (by decide)]
    have e3 : (parseListenDirective args).http2
        = (parseListenDirective (args.filter recognizedListen)).http2 := by
      rw [parseListenDirective, parseListenDirective, listenFold_http2,
        listenFold_http2, any_beq_filter args "http2" (by decide)]
    have e4 : (parseListenDirective args).ssl
        = (parseListenDirective (args.filter recognizedListen)).ssl := by
      rw [parseListenDirective, parseListenDirective, listenFold_ssl,
        listenFold_ssl, any_beq_filter args "ssl" (by decide)]
    calc parseListenDirective args
        = (⟨(parseListenDirective args).port,
            (parseListenDirective args).defaultServer,
            (parseListenDirective args).http2,
            (parseListenDirective args).ssl⟩ : ListenParse) := rfl
      _ = (⟨(parseListenDirective (args.filter recognizedListen)).port,
            (parseListenDirective (args.filter recognizedListen)).defaultServer,
            (parseListenDirective (args.filter recognizedListen)).http2,
            (parseListenDirective (args.filter recognizedListen)).ssl⟩ : ListenParse) := by
          rw [e1, e2, e3, e4]
      _ = parseListenDirective (args.filter recognizedListen) := rfl

/-! ## C9 — matcher totality, the null case, skipping bad regexes -/

theorem find?_skip (p : String) (loc : LocationConfig)
    (pre post : List LocationConfig)
    (h : (loc.modifier == "=" && loc.path == p) = false) :
    (pre ++ loc :: post).find? (fun l => l.modifier == "=" && l.path == p)
      = (pre ++ post).find? (fun l => l.modifier == "=" && l.path == p) := by
  induction pre with
  | nil => simp [List.find?, h]
  | cons a pre ih =>
    simp only [List.cons_append, List.find?, List.append_eq]
    rw [ih]

theorem bestPrefixFold_skip (rp : String) (loc : LocationConfig)
    (pre post : List LocationConfig)
    (h : (loc.modifier == "" || loc.modifier == "^~") = false) :
    bestPrefixFold rp (pre ++ loc :: post) = bestPrefixFold rp (pre ++ post) := by
  unfold bestPrefixFold
  rw [List.foldl_append, List.foldl_append, List.foldl_cons]
  congr 1
  simp [h]

theorem regexScan_skip (rx : RegexEngine) (p : String) (loc : LocationConfig)
    (pre post : List LocationConfig)
    (hm : loc.modifier = "~" ∨ loc.modifier = "~*")
    (hrx : rx loc.path (loc.modifier == "~*") = none) :
    regexScan rx p (pre ++ loc :: post) = regexScan rx p (pre ++ post) := by
  induction pre with
  | nil =>
    rcases hm with h | h
    · simp only [List.nil_append, regexScan, h] at hrx ⊢
      rw [show (("~" : String) == "~*") = false by decide] at hrx
      simp [hrx]
    · simp only [List.nil_append, regexScan, h] at hrx ⊢
      rw [show (("~*" : String) == "~*") = true by decide] at hrx
      simp [hrx]
  | cons a pre ih =>
    simp only [List.cons_append, regexScan, List.append_eq]
    rw [ih]

/-- C9: the location matcher is total by construction (the embedding is a
function into `MatchResult`); its `matchedLocation` is `none` exactly when
no exact location, no prefix candidate and no regex location matches; and a
regex location whose pattern fails to compile (`rx` returns `none`, the
`catch` branch) is skipped: deleting it from the list leaves the result
unchanged, so matching continues with the remaining locations. -/
theorem claim_C9 (rx : RegexEngine) (p : String) (lang : Lang) :
    (∀ ls, (matchLocation rx p ls lang).matchedLocation = none ↔
      (ls.find? (fun loc => loc.modifier == "=" && loc.path == p) = none ∧
       (bestPrefixFold p ls).1 = none ∧ regexScan rx p ls = none)) ∧
    (∀ pre loc post, (loc.modifier = "~" ∨ loc.modifier = "~*") →
      rx loc.path (loc.modifier == "~*") = none →
      matchLocation rx p (pre ++ loc :: post) lang
        = matchLocation rx p (pre ++ post) lang) := by
  constructor
  · intro ls
    unfold matchLocation
    cases hf : ls.find? (fun loc => loc.modifier == "=" && loc.path == p) with
    | some loc => simp [hf]
    | none =>
      cases hb : (bestPrefixFold p ls).1 with
      | some b =>
        by_cases hmod : (b.modifier == "^~") = true
        · simp [hf, hb, hmod]
        · cases hr : regexScan rx p ls with
          | some l => simp [hf, hb, hmod, hr]
          | none => simp [hf, hb, hmod, hr]
      | none =>
        cases hr : regexScan rx p ls with
        | some l => simp [hf, hb, hr]
        | none => simp [hf, hb, hr]
  · intro pre loc post hm hrx
    have hm' : (loc.modifier == "=" && loc.path == p) = false := by
      rcases hm with h | h <;> simp [h]
    have hp' : (loc.modifier == "" || loc.modifier == "^~") = false := by
      rcases hm with h | h <;> simp [h]
    unfold matchLocation
    rw [find?_skip p loc pre post hm', bestPrefixFold_skip p loc pre post hp',
      regexScan_skip rx p loc pre post hm hrx]

/-- C9 witness: a concrete skip — a `~` location whose pattern does not
compile under `rxDemo` is passed over, leaving the match over the demo
locations unchanged. -/
theorem claim_C9_witness :
    matchLocation rxDemo "/img/x.gif" (demoLoc "l9" "~" "bad(" :: demoLocs) .zh
      = matchLocation rxDemo "/img/x.gif" demoLocs .zh :=
  (claim_C9 rxDemo "/img/x.gif" .zh).2 [] (demoLoc "l9" "~" "bad(") demoLocs
    (Or.inl rfl) rfl

/-! ## C8 — fixes with a bogus node id (amended) -/

theorem headerFix_ghost (config : NginxConfig) (nodeId : String) (g : Nat)
    (name value : String) (h0 : (nodeId == "") = false)
    (h : ∀ s ∈ config.servers, s.id ≠ nodeId) :
    AuditEngine.headerFix name value config nodeId g
      = ({ servers := some config.servers }, g) := by
  unfold AuditEngine.headerFix
  have hfind : config.servers.find? (fun s => s.id == nodeId) = none := by
    rw [List.find?_eq_none]
    intro s hs
    simp [h s hs]
  have hmap : (config.servers.map fun s =>
      if s.id == nodeId then
        { s with customDirectives :=
            ConfigCleaner.smartAddHeaderS s.customDirectives name value }
      else s) = config.servers := by
    conv_rhs => rw [← List.map_id config.servers]
    apply List.map_congr_left
    intro s hs
    have hb : (s.id == nodeId) = false := by
      rw [beq_eq_false_iff_ne]
      exact h s hs
    simp [hb]
  rw [if_neg (by simp [h0])]
  simp only [hfind]
  rw [hmap]

/-- C8 (amended): a rule's fix never throws (the embedding is total).  Only
the four node-targeted rules (`security-hidden-files` and the three
security-header rules) guard on the node id: each of them returns the empty
partial update when invoked with an empty node id.  The other fixes ignore
the node id entirely — for `security-server-tokens` and `perf-gzip` the
result is literally invariant in it — and `security-server-tokens` returns
the same non-empty http partial for every node id, empty included (see the
counterexample).  A non-empty node id that identifies no entity is a no-op
for the three security-header rules (their partial merges back to the
unchanged config), while `security-hidden-files`, invoked with a node id
referenced by no existing location, appends a fresh blocking location
`hfBlockLoc nodeId g` attached to that very id (modifier `~`, path
`/\.`, return 403) and consumes one fresh id.  An unknown rule id yields
no partial at all. -/
theorem claim_C8 (config : NginxConfig) (nodeId : String) (g : Nat)
    (h : ∀ s ∈ config.servers, s.id ≠ nodeId) (h0 : (nodeId == "") = false) :
    (∀ ruleId, ruleId ∈ (["security-x-frame-options", "security-x-content-type",
        "security-hsts"] : List String) →
      ((AuditEngine.applyFix config ruleId (some nodeId) g).1.map
        (AuditEngine.mergePartial config) = some config ∧
       (AuditEngine.applyFix config ruleId (some nodeId) g).2 = g)) ∧
    (∀ ruleId, ruleId ∈ (["security-hidden-files", "security-x-frame-options",
        "security-x-content-type", "security-hsts"] : List String) →
      AuditEngine.applyFix config ruleId (some "") g = (some {}, g)) ∧
    AuditEngine.applyFix config "no-such-rule" (some nodeId) g = (none, g) ∧
    (∀ nid : String, AuditEngine.applyFix config "security-server-tokens" (some nid) g
      = AuditEngine.applyFix config "security-server-tokens" (some "") g) ∧
    (∀ nid : String, AuditEngine.applyFix config "perf-gzip" (some nid) g
      = AuditEngine.applyFix config "perf-gzip" (some "") g) ∧
    (AuditEngine.applyFix config "security-server-tokens" (some "") g
      = (some { http := some { config.http with
          serverTokens := false
          customDirectives :=
            ConfigCleaner.removeDirectiveS config.http.customDirectives
              "server_tokens" } }, g) ∧
     ({ http := some { config.http with
          serverTokens := false
          customDirectives :=
            ConfigCleaner.removeDirectiveS config.http.customDirectives
              "server_tokens" } } : AuditEngine.PartialConfig).nonEmpty = true) ∧
    ((∀ l ∈ config.locations, l.serverId ≠ nodeId) →
      AuditEngine.applyFix config "security-hidden-files" (some nodeId) g
        = (some { locations := some (config.locations ++ [hfBlockLoc nodeId g]) },
           g + 1) ∧
      (hfBlockLoc nodeId g).serverId = nodeId) := by
  refine ⟨?_, ?_, rfl, fun nid => rfl, fun nid => rfl, ⟨rfl, rfl⟩, ?_⟩
  · intro ruleId hr
    simp only [List.mem_cons, List.mem_singleton] at hr
    rcases hr with rfl | rfl | hr
    · have e : AuditEngine.applyFix config "security-x-frame-options" (some nodeId) g
          = (some (AuditEngine.headerFix "X-Frame-Options" "SAMEORIGIN"
              config nodeId g).1,
             (AuditEngine.headerFix "X-Frame-Options" "SAMEORIGIN"
              config nodeId g).2) := rfl
      rw [e, headerFix_ghost config nodeId g _ _ h0 h]
      exact ⟨rfl, rfl⟩
    · have e : AuditEngine.applyFix config "security-x-content-type" (some nodeId) g
          = (some (AuditEngine.headerFix "X-Content-Type-Options" "nosniff"
              config nodeId g).1,
             (AuditEngine.headerFix "X-Content-Type-Options" "nosniff"
              config nodeId g).2) := rfl
      rw [e, headerFix_ghost config nodeId g _ _ h0 h]
      exact ⟨rfl, rfl⟩
    · rcases hr with rfl | hr
      · have e : AuditEngine.applyFix config "security-hsts" (some nodeId) g
            = (some (AuditEngine.headerFix "Strict-Transport-Security"
                "max-age=31536000; includeSubDomains" config nodeId g).1,
               (AuditEngine.headerFix "Strict-Transport-Security"
                "max-age=31536000; includeSubDomains" config nodeId g).2) := rfl
        rw [e, headerFix_ghost config nodeId g _ _ h0 h]
        exact ⟨rfl, rfl⟩
      · cases hr
  · intro ruleId hr
    simp only [List.mem_cons, List.mem_singleton] at hr
    rcases hr with rfl | rfl | rfl | hr
    · rfl
    · rfl
    · rfl
    · rcases hr with rfl | hr
      · rfl
      · cases hr
  · intro hloc
    have hcond : ¬ ((nodeId == "") = true) := by
      rw [h0]
      exact fun hh => nomatch hh
    have hfind : config.locations.find? (fun l =>
        l.serverId == nodeId &&
        (subIn "\\.".data l.path.data || l.path == "~ /\\.")) = none := by
      rw [List.find?_eq_none]
      intro l hl
      have hb : (l.serverId == nodeId) = false := by
        rw [beq_eq_false_iff_ne]
        exact hloc l hl
      simp [hb]
    have e : AuditEngine.applyFix config "security-hidden-files" (some nodeId) g
        = (some (if nodeId == "" then (({} : AuditEngine.PartialConfig), g) else
            match config.locations.find? (fun l =>
                l.serverId == nodeId &&
                (subIn "\\.".data l.path.data || l.path == "~ /\\.")) with
            | some _ => (({} : AuditEngine.PartialConfig), g)
            | none =>
              (({ locations := some (config.locations ++ [hfBlockLoc nodeId g]) }
                : AuditEngine.PartialConfig), g + 1)).1,
           (if nodeId == "" then (({} : AuditEngine.PartialConfig), g) else
            match config.locations.find? (fun l =>
                l.serverId == nodeId &&
                (subIn "\\.".data l.path.data || l.path == "~ /\\.")) with
            | some _ => (({} : AuditEngine.PartialConfig), g)
            | none =>
              (({ locations := some (config.locations ++ [hfBlockLoc nodeId g]) }
                : AuditEngine.PartialConfig), g + 1)).2) := rfl
    rw [e, if_neg hcond, hfind]
    exact ⟨rfl, rfl⟩

/-- C8 witness: the X-Frame-Options fix, given the id `"zz"` of no server of
`c2Input`, merges to the unchanged config. -/
theorem claim_C8_witness :
    (AuditEngine.applyFix c2Input "security-x-frame-options" (some "zz") 0).1.map
      (AuditEngine.mergePartial c2Input) = some c2Input :=
  (((claim_C8 c2Input "zz" 0 (by decide) (by decide)).1
    "security-x-frame-options" (by simp)).1)

/-! ## C1 — the five priority tiers -/

theorem bpMerge_absorb (r : Option LocationConfig) (l : LocationConfig)
    (x : Option LocationConfig) (h : l.path.length > bpLen r) :
    bpMerge r (bpMerge (some l) x) = bpMerge (some l) x := by
  cases r with
  | none => rfl
  | some b =>
    simp only [bpLen] at h
    cases x with
    | none =>
      simp only [bpMerge]
      rw [if_pos h]
    | some c =>
      by_cases hcl : c.path.length > l.path.length
      · simp only [bpMerge, if_pos hcl]
        rw [if_pos (by omega)]
      · simp only [bpMerge, if_neg hcl]
        rw [if_pos h]

theorem bpMerge_dominated (b l : LocationConfig) (x : Option LocationConfig)
    (h : ¬ l.path.length > b.path.length) :
    bpMerge (some b) (bpMerge (some l) x) = bpMerge (some b) x := by
  cases x with
  | none =>
    simp only [bpMerge]
    rw [if_neg h]
  | some c =>
    by_cases hcl : c.path.length > l.path.length
    · simp only [bpMerge, if_pos hcl]
    · simp only [bpMerge, if_neg hcl]
      rw [if_neg h, if_neg (by omega)]

theorem claimBPP_cons_pos (p : String) (l : LocationConfig)
    (ls : List LocationConfig)
    (hcond : ((l.modifier == "" || l.modifier == "^~")
      && strSW p l.path && l.path.length != 0) = true) :
    claimBestPrefixPos p (l :: ls) = bpMerge (some l) (claimBestPrefixPos p ls) := by
  show (if (l.modifier == "" || l.modifier == "^~")
      && strSW p l.path && l.path.length != 0 then
      match claimBestPrefixPos p ls with
      | some b => if b.path.length > l.path.length then some b else some l
      | none => some l
    else claimBestPrefixPos p ls) = _
  rw [if_pos hcond]
  cases claimBestPrefixPos p ls <;> rfl

theorem claimBPP_cons_neg (p : String) (l : LocationConfig)
    (ls : List LocationConfig)
    (hcond : ((l.modifier == "" || l.modifier == "^~")
      && strSW p l.path && l.path.length != 0) = false) :
    claimBestPrefixPos p (l :: ls) = claimBestPrefixPos p ls := by
  show (if (l.modifier == "" || l.modifier == "^~")
      && strSW p l.path && l.path.length != 0 then
      match claimBestPrefixPos p ls with
      | some b => if b.path.length > l.path.length then some b else some l
      | none => some l
    else claimBestPrefixPos p ls) = _
  rw [if_neg (by rw [hcond]; decide)]

theorem bestPrefixFold_go (p : String) (ls : List LocationConfig)
    (r : Option LocationConfig) :
    ls.foldl (fun acc loc =>
      if loc.modifier == "" || loc.modifier == "^~" then
        if strSW p loc.path then
          if loc.path.length > acc.2 then (some loc, loc.path.length) else acc
        else acc
      else acc) (r, bpLen r)
    = (bpMerge r (claimBestPrefixPos p ls),
       bpLen (bpMerge r (claimBestPrefixPos p ls))) := by
  induction ls generalizing r with
  | nil =>
    simp only [List.foldl_nil, claimBestPrefixPos]
    cases r <;> rfl
  | cons l ls ih =>
    rw [List.foldl_cons]
    by_cases hm : (l.modifier == "" || l.modifier == "^~") = true
    · by_cases hs : strSW p l.path = true
      · by_cases hlen : l.path.length > bpLen r
        · have hpos : (l.path.length != 0) = true := by
            simp only [bne_iff_ne, ne_eq]
            omega
          have hcond : ((l.modifier == "" || l.modifier == "^~")
              && strSW p l.path && l.path.length != 0) = true := by
            rw [hm, hs, hpos]
            rfl
          have hstep : (if l.modifier == "" || l.modifier == "^~" then
              if strSW p l.path then
                if l.path.length > (r, bpLen r).2 then (some l, l.path.length)
                else (r, bpLen r)
              else (r, bpLen r)
            else (r, bpLen r)) = (some l, bpLen (some l)) := by
            rw [if_pos hm, if_pos hs, if_pos hlen]
            rfl
          rw [hstep, ih (some l), claimBPP_cons_pos p l ls hcond,
            bpMerge_absorb r l _ hlen]
        · have hstep : (if l.modifier == "" || l.modifier == "^~" then
              if strSW p l.path then
                if l.path.length > (r, bpLen r).2 then (some l, l.path.length)
                else (r, bpLen r)
              else (r, bpLen r)
            else (r, bpLen r)) = (r, bpLen r) := by
            rw [if_pos hm, if_pos hs, if_neg hlen]
          rw [hstep, ih r]
          cases r with
          | none =>
            have hz : l.path.length = 0 := by
              simp only [bpLen] at hlen
              omega
            have hcond : ((l.modifier == "" || l.modifier == "^~")
                && strSW p l.path && l.path.length != 0) = false := by
              rw [hz]
              simp
            rw [claimBPP_cons_neg p l ls hcond]
          | some b =>
            simp only [bpLen] at hlen
            by_cases hz : l.path.length = 0
            · have hcond : ((l.modifier == "" || l.modifier == "^~")
                  && strSW p l.path && l.path.length != 0) = false := by
                rw [hz]
                simp
              rw [claimBPP_cons_neg p l ls hcond]
            · have hpos : (l.path.length != 0) = true := by
                simp only [bne_iff_ne, ne_eq]
                omega
              have hcond : ((l.modifier == "" || l.modifier == "^~")
                  && strSW p l.path && l.path.length != 0) = true := by
                rw [hm, hs, hpos]
                rfl
              rw [claimBPP_cons_pos p l ls hcond, bpMerge_dominated b l _ hlen]
      · have hsf : strSW p l.path = false := by
          rwa [Bool.not_eq_true] at hs
        have hcond : ((l.modifier == "" || l.modifier == "^~")
            && strSW p l.path && l.path.length != 0) = false := by
          rw [hsf]
          simp
        have hstep : (if l.modifier == "" || l.modifier == "^~" then
            if strSW p l.path then
              if l.path.length > (r, bpLen r).2 then (some l, l.path.length)
              else (r, bpLen r)
            else (r, bpLen r)
          else (r, bpLen r)) = (r, bpLen r) := by
          rw [if_pos hm, if_neg hs]
        rw [hstep, ih r, claimBPP_cons_neg p l ls hcond]
    · have hmf : (l.modifier == "" || l.modifier == "^~") = false := by
        rwa [Bool.not_eq_true] at hm
      have hcond : ((l.modifier == "" || l.modifier == "^~")
          && strSW p l.path && l.path.length != 0) = false := by
        rw [hmf]
        simp
      have hstep : (if l.modifier == "" || l.modifier == "^~" then
          if strSW p l.path then
            if l.path.length > (r, bpLen r).2 then (some l, l.path.length)
            else (r, bpLen r)
          else (r, bpLen r)
        else (r, bpLen r)) = (r, bpLen r) := by
        rw [if_neg hm]
      rw [hstep, ih r, claimBPP_cons_neg p l ls hcond]

theorem bestPrefixFold_eq (p : String) (ls : List LocationConfig) :
    bestPrefixFold p ls
      = (claimBestPrefixPos p ls, bpLen (claimBestPrefixPos p ls)) := by
  have h := bestPrefixFold_go p ls none
  simpa only [bestPrefixFold, bpMerge, bpLen] using h

theorem regexScan_eq (rx : RegexEngine) (p : String) (ls : List LocationConfig) :
    regexScan rx p ls = claimRegexPick rx p ls := by
  induction ls with
  | nil => rfl
  | cons l ls ih =>
    by_cases hm : (l.modifier == "~" || l.modifier == "~*") = true
    · cases hrx : rx l.path (l.modifier == "~*") with
      | some test =>
        by_cases ht : test p = true
        · simp [regexScan, claimRegexPick, List.find?, hm, hrx, ht]
        · simp [regexScan, claimRegexPick, List.find?, hm, hrx, ht, ih]
      | none => simp [regexScan, claimRegexPick, List.find?, hm, hrx, ih]
    · simp [regexScan, claimRegexPick, List.find?, hm, ih]

/-- C1 counterexample: a prefix location with the empty path.  The spec's
step 2 makes it a prefix candidate for every request path (every string
starts with `""`), so step 5 should return it; the code's fold only replaces
the candidate on a strictly greater path length than the initial 0, so the
empty-path location can never become the candidate and the match is `none`. -/
theorem claim_C1_cx :
    claimBestPrefix "/x" [demoLoc "l0" "" ""] = some (demoLoc "l0" "" "") ∧
    (matchLocation rxDemo "/x" [demoLoc "l0" "" ""] .zh).matchedLocation = none ∧
    (matchLocation rxDemo "/x" [demoLoc "l0" "" ""] .zh).priority = "none" := by
  decide

/-- C1 (amended): `matchLocation` implements the five ordered tiers, with
step 2 restricted to locations whose path is a nonempty prefix of the
request path: (1) first `=` location with equal path; (2) best nonempty
prefix candidate among `''`/`^~` locations (longest, first on ties);
(3) `^~` candidate returned immediately, regex never consulted; (4) first
compiling, matching `~`/`~*` location in declaration order; (5) otherwise
the prefix candidate, possibly `none`.  The spec's concrete examples hold. -/
theorem claim_C1 (rx : RegexEngine) (p : String) (ls : List LocationConfig)
    (lang : Lang) :
    ((matchLocation rx p ls lang).matchedLocation,
     (matchLocation rx p ls lang).priority) =
      (match ls.find? (fun l => l.modifier == "=" && l.path == p) with
       | some l => (some l, "exact")
       | none =>
         match claimBestPrefixPos p ls with
         | some b =>
           if b.modifier == "^~" then (some b, "prefix-priority")
           else
             match claimRegexPick rx p ls with
             | some r => (some r, "regex")
             | none => (some b, "prefix")
         | none =>
           match claimRegexPick rx p ls with
           | some r => (some r, "regex")
           | none => (none, "none")) ∧
    (matchLocation rxDemo "/health" demoLocs .zh).matchedLocation
      = some (demoLoc "l1" "=" "/health") ∧
    (matchLocation rxDemo "/static/logo.png" demoLocs .zh).matchedLocation
      = some (demoLoc "l2" "^~" "/static/") ∧
    (matchLocation rxDemo "/static/logo.png" demoLocs .zh).priority
      = "prefix-priority" ∧
    (matchLocation rxDemo "/img/logo.png" demoLocs .zh).matchedLocation
      = some (demoLoc "l3" "~*" "\\.(png|jpg)$") ∧
    (matchLocation rxDemo "/anything" demoLocs .zh).matchedLocation
      = some (demoLoc "l4" "" "/") ∧
    (matchLocation rxDemo "/nope" (demoLocs.filter fun l => l.id != "l4")
        .zh).matchedLocation = none := by
  refine ⟨?_, by decide, by decide, by decide, by decide, by decide, by decide⟩
  unfold matchLocation
  rw [bestPrefixFold_eq, regexScan_eq]
  cases hf : ls.find? (fun l => l.modifier == "=" && l.path == p) with
  | some loc => simp [hf]
  | none =>
    cases hb : claimBestPrefixPos p ls with
    | some b =>
      by_cases hmod : (b.modifier == "^~") = true
      · simp [hf, hb, hmod]
      · cases hr : claimRegexPick rx p ls with
        | some l => simp [hf, hb, hmod, hr]
        | none => simp [hf, hb, hmod, hr]
    | none =>
      cases hr : claimRegexPick rx p ls with
      | some l => simp [hf, hb, hr]
      | none => simp [hf, hb, hr]

/-! ## C3 — the hijack, amended -/

theorem applyForceHttps_shape (c : NginxConfig) (sid : String) (g : Nat)
    (S T : ServerConfig)
    (hS : c.servers.find? (fun s => s.id == sid) = some S)
    (hT : AutoFixService.findHttpNode c S.serverName (some sid) = some T) :
    AutoFixService.applyForceHttps c sid g =
      (let locs := c.locations.filter fun l => l.serverId != T.id
       let srvs := c.servers.map fun s =>
         if s.id == T.id then
           AutoFixService.convertToPureRedirectHttpServer s S.serverName
         else s
       let extra := srvs.filter fun s =>
         s.id != T.id && AutoFixService.getPortAsString s == "80"
           && s.serverName == S.serverName
       let pair :=
         if extra.length > 0 then
           (srvs.filter (fun s => !((extra.map (·.id)).contains s.id)),
            locs.filter (fun l => !((extra.map (·.id)).contains l.serverId)))
         else (srvs, locs)
       ({ c with
           servers := pair.1.map fun s =>
             if s.id == sid then
               { s with ssl := { s.ssl with enabled := true, forceRedirect := false } }
             else s
           locations := pair.2 }, g)) := by
  unfold AutoFixService.applyForceHttps
  rw [hS]
  dsimp only
  rw [hT]
  dsimp only
  by_cases hex : (List.filter
      (fun s => s.id != T.id && AutoFixService.getPortAsString s == "80"
        && s.serverName == S.serverName)
      (List.map (fun s => if s.id == T.id then
          AutoFixService.convertToPureRedirectHttpServer s S.serverName
        else s) c.servers)).length > 0
  · rw [if_pos hex, if_pos hex]
  · rw [if_neg hex, if_neg hex]

theorem tweak_id (sid : String) (s : ServerConfig) :
    (if s.id == sid then
      { s with ssl := { s.ssl with enabled := true, forceRedirect := false } }
     else s).id = s.id := by
  by_cases h : (s.id == sid) = true <;> simp [h]

theorem tweak_listen (sid : String) (s : ServerConfig) :
    (if s.id == sid then
      { s with ssl := { s.ssl with enabled := true, forceRedirect := false } }
     else s).listen = s.listen := by
  by_cases h : (s.id == sid) = true <;> simp [h]

theorem tweak_serverName (sid : String) (s : ServerConfig) :
    (if s.id == sid then
      { s with ssl := { s.ssl with enabled := true, forceRedirect := false } }
     else s).serverName = s.serverName := by
  by_cases h : (s.id == sid) = true <;> simp [h]

theorem tweak_port (sid : String) (s : ServerConfig) :
    AutoFixService.getPortAsString (if s.id == sid then
      { s with ssl := { s.ssl with enabled := true, forceRedirect := false } }
     else s) = AutoFixService.getPortAsString s := by
  unfold AutoFixService.getPortAsString
  rw [tweak_listen]

theorem tweak_of_eq (sid : String) (s : ServerConfig) (h : s.id = sid) :
    (if s.id == sid then
      { s with ssl := { s.ssl with enabled := true, forceRedirect := false } }
     else s)
    = { s with ssl := { s.ssl with enabled := true, forceRedirect := false } } := by
  rw [if_pos (by simp [h])]

theorem tweak_of_ne (sid : String) (s : ServerConfig) (h : s.id ≠ sid) :
    (if s.id == sid then
      { s with ssl := { s.ssl with enabled := true, forceRedirect := false } }
     else s) = s := by
  rw [if_neg (by simp [beq_eq_false_iff_ne.mpr h])]

theorem convIf_id (tid n : String) (s : ServerConfig) :
    (if s.id == tid then AutoFixService.convertToPureRedirectHttpServer s n
     else s).id = s.id := by
  by_cases h : (s.id == tid) = true <;>
    simp [h, AutoFixService.convertToPureRedirectHttpServer]

theorem convIf_of_eq (tid n : String) (s : ServerConfig) (h : s.id = tid) :
    (if s.id == tid then AutoFixService.convertToPureRedirectHttpServer s n
     else s) = AutoFixService.convertToPureRedirectHttpServer s n := by
  rw [if_pos (by simp [h])]

theorem convIf_of_ne (tid n : String) (s : ServerConfig) (h : s.id ≠ tid) :
    (if s.id == tid then AutoFixService.convertToPureRedirectHttpServer s n
     else s) = s := by
  rw [if_neg (by simp [beq_eq_false_iff_ne.mpr h])]

/-- C3 (amended): provided no server carrying the target id itself listens
on port 80, the hijack behaves as specified: after the fix no location
references `T`, the server carrying `T`'s id is the pure redirect server
(empty root and index, port 80, TLS stripped, passthrough text exactly the
redirect directive), no other port-80 server with the same name survives,
every server carrying `S`'s id ends with `ssl.enabled = true` and
`forceRedirect` cleared, `S` does survive — and the deleted extra port-80
same-name servers' locations are cascaded: no surviving location references
any of them. -/
theorem claim_C3 (c : NginxConfig) (sid : String) (g : Nat) (S T : ServerConfig)
    (hS : c.servers.find? (fun s => s.id == sid) = some S)
    (hssl : S.ssl.enabled = true) (hfr : S.ssl.forceRedirect = true)
    (hT : AutoFixService.findHttpNode c S.serverName (some sid) = some T)
    (hport : ∀ s ∈ c.servers, s.id = sid → AutoFixService.getPortAsString s ≠ "80") :
    (∀ l ∈ (AutoFixService.applyForceHttps c sid g).1.locations,
      l.serverId ≠ T.id) ∧
    (∀ s ∈ (AutoFixService.applyForceHttps c sid g).1.servers, s.id = T.id →
      s.root = "" ∧ s.index = [] ∧ s.listen.port = 80 ∧ s.ssl.enabled = false ∧
      s.customDirectives = "return 301 https://$host$request_uri;") ∧
    (∀ s ∈ (AutoFixService.applyForceHttps c sid g).1.servers,
      AutoFixService.getPortAsString s = "80" → s.serverName = S.serverName →
      s.id = T.id) ∧
    (∀ s ∈ (AutoFixService.applyForceHttps c sid g).1.servers, s.id = sid →
      s.ssl.enabled = true ∧ s.ssl.forceRedirect = false) ∧
    (∃ s, s ∈ (AutoFixService.applyForceHttps c sid g).1.servers ∧ s.id = sid) ∧
    (AutoFixService.applyForceHttps c sid g).2 = g ∧
    (∀ l ∈ (AutoFixService.applyForceHttps c sid g).1.locations,
      ∀ s ∈ c.servers, s.id ≠ T.id →
        AutoFixService.getPortAsString s = "80" → s.serverName = S.serverName →
        l.serverId ≠ s.id) := by
  have hSmem : S ∈ c.servers := List.mem_of_find?_eq_some hS
  have hSid : S.id = sid := by
    have h := List.find?_some hS
    simpa using h
  have hTP := List.find?_some (by
    have h := hT
    unfold AutoFixService.findHttpNode at h
    exact h)
  dsimp only at hTP
  rw [Bool.and_eq_true, Bool.and_eq_true] at hTP
  obtain ⟨⟨hTid', hTport'⟩, hTname'⟩ := hTP
  have hTid : T.id ≠ sid := bne_iff_ne.mp hTid'
  have hST : S.id ≠ T.id := by
    rw [hSid]
    exact Ne.symm hTid
  rw [applyForceHttps_shape c sid g S T hS hT]
  dsimp only
  set srvs := List.map (fun s => if s.id == T.id then
      AutoFixService.convertToPureRedirectHttpServer s S.serverName else s)
    c.servers with hsrvs
  set extra := List.filter (fun s =>
      s.id != T.id && AutoFixService.getPortAsString s == "80"
        && s.serverName == S.serverName) srvs with hextra
  set locs := List.filter (fun l => l.serverId != T.id) c.locations with hlocs
  have hsrv_b : ∀ s' ∈ srvs, s'.id = T.id →
      s'.root = "" ∧ s'.index = [] ∧ s'.listen.port = 80 ∧
      s'.ssl.enabled = false ∧
      s'.customDirectives = "return 301 https://$host$request_uri;" := by
    intro s' hs' hid
    rw [hsrvs] at hs'
    obtain ⟨s0, hs0, rfl⟩ := List.mem_map.mp hs'
    by_cases h0 : s0.id = T.id
    · rw [convIf_of_eq _ _ _ h0]
      exact ⟨rfl, rfl, rfl, rfl, rfl⟩
    · rw [convIf_of_ne _ _ _ h0] at hid
      exact absurd hid h0
  have hsrv_surv : ∀ s' ∈ srvs, s'.id = sid →
      AutoFixService.getPortAsString s' ≠ "80" := by
    intro s' hs' hid
    rw [hsrvs] at hs'
    obtain ⟨s0, hs0, rfl⟩ := List.mem_map.mp hs'
    by_cases h0 : s0.id = T.id
    · rw [convIf_of_eq _ _ _ h0] at hid
      exact absurd (by rw [← h0]; exact hid) hTid
    · rw [convIf_of_ne _ _ _ h0] at hid ⊢
      exact hport s0 hs0 hid
  have hSsrv : S ∈ srvs := by
    rw [hsrvs]
    have hmm : (if S.id == T.id then
        AutoFixService.convertToPureRedirectHttpServer S S.serverName else S)
        ∈ List.map (fun s => if s.id == T.id then
            AutoFixService.convertToPureRedirectHttpServer s S.serverName else s)
          c.servers :=
      List.mem_map_of_mem _ hSmem
    rwa [convIf_of_ne _ _ _ hST] at hmm
  have hextra_no_sid : ∀ e ∈ extra, e.id ≠ sid := by
    intro e he hesid
    rw [hextra] at he
    have hmem := (List.mem_filter.mp he).1
    have hpredE := (List.mem_filter.mp he).2
    rw [Bool.and_eq_true, Bool.and_eq_true] at hpredE
    obtain ⟨⟨heT, hep⟩, hname⟩ := hpredE
    have hp80 : AutoFixService.getPortAsString e = "80" := by simpa using hep
    exact hsrv_surv e hmem hesid hp80
  have hScont : ((extra.map (fun x => x.id)).contains S.id) = false := by
    cases hc : (extra.map (fun x => x.id)).contains S.id
    · rfl
    · exfalso
      have hin : S.id ∈ extra.map (fun x => x.id) := List.elem_iff.mp hc
      obtain ⟨e, he, heid⟩ := List.mem_map.mp hin
      exact hextra_no_sid e he (by rw [heid]; exact hSid)
  have hsrv_c : ∀ s' ∈ srvs, s'.id ≠ T.id →
      AutoFixService.getPortAsString s' = "80" → s'.serverName = S.serverName →
      s' ∈ extra := by
    intro s' hs' hne hp hn
    rw [hextra]
    refine List.mem_filter.mpr ⟨hs', ?_⟩
    rw [Bool.and_eq_true, Bool.and_eq_true]
    exact ⟨⟨bne_iff_ne.mpr hne, beq_iff_eq.mpr hp⟩, beq_iff_eq.mpr hn⟩
  by_cases hex : extra.length > 0
  · rw [if_pos hex]
    dsimp only
    refine ⟨?_, ?_, ?_, ?_, ?_, rfl, ?_⟩
    · intro l hl
      have hl2 := (List.mem_filter.mp hl).1
      rw [hlocs] at hl2
      exact bne_iff_ne.mp (List.mem_filter.mp hl2).2
    · intro s hs hid
      obtain ⟨s', hs', rfl⟩ := List.mem_map.mp hs
      rw [tweak_id] at hid
      have hs2 := (List.mem_filter.mp hs').1
      have hb := hsrv_b s' hs2 hid
      have hne : s'.id ≠ sid := by rw [hid]; exact hTid
      rw [tweak_of_ne _ _ hne]
      exact hb
    · intro s hs hp hn
      obtain ⟨s', hs', rfl⟩ := List.mem_map.mp hs
      rw [tweak_id]
      rw [tweak_port] at hp
      rw [tweak_serverName] at hn
      by_cases hne : s'.id = T.id
      · exact hne
      · exfalso
        have hmemE := hsrv_c s' (List.mem_filter.mp hs').1 hne hp hn
        have hcont := (List.mem_filter.mp hs').2
        have hin : s'.id ∈ extra.map (fun x => x.id) :=
          List.mem_map_of_mem _ hmemE
        have htrue : (extra.map (fun x => x.id)).contains s'.id = true :=
          List.elem_iff.mpr hin
        rw [htrue] at hcont
        exact absurd hcont (by decide)
    · intro s hs hid
      obtain ⟨s', hs', rfl⟩ := List.mem_map.mp hs
      rw [tweak_id] at hid
      rw [tweak_of_eq _ _ hid]
      exact ⟨rfl, rfl⟩
    · have hfs : S ∈ List.filter
          (fun s => !(List.map (fun x => x.id) extra).contains s.id) srvs := by
        refine List.mem_filter.mpr ⟨hSsrv, ?_⟩
        rw [hScont]
        rfl
      exact ⟨_, List.mem_map_of_mem _ hfs, by rw [tweak_id]; exact hSid⟩
    · intro l hl s hs hsneT hsp hsn heq
      have hcont := (List.mem_filter.mp hl).2
      have hs_srv : s ∈ srvs := by
        rw [hsrvs]
        have hmm : (if s.id == T.id then
            AutoFixService.convertToPureRedirectHttpServer s S.serverName else s)
            ∈ List.map (fun s => if s.id == T.id then
                AutoFixService.convertToPureRedirectHttpServer s S.serverName else s)
              c.servers :=
          List.mem_map_of_mem _ hs
        rwa [convIf_of_ne _ _ _ hsneT] at hmm
      have hsE : s ∈ extra := hsrv_c s hs_srv hsneT hsp hsn
      have hin : l.serverId ∈ extra.map (fun x => x.id) := by
        rw [heq]
        exact List.mem_map_of_mem _ hsE
      have htrue : (extra.map (fun x => x.id)).contains l.serverId = true :=
        List.elem_iff.mpr hin
      rw [htrue] at hcont
      exact absurd hcont (by decide)
  · rw [if_neg hex]
    dsimp only
    refine ⟨?_, ?_, ?_, ?_, ?_, rfl, ?_⟩
    · intro l hl
      rw [hlocs] at hl
      exact bne_iff_ne.mp (List.mem_filter.mp hl).2
    · intro s hs hid
      obtain ⟨s', hs', rfl⟩ := List.mem_map.mp hs
      rw [tweak_id] at hid
      have hb := hsrv_b s' hs' hid
      have hne : s'.id ≠ sid := by rw [hid]; exact hTid
      rw [tweak_of_ne _ _ hne]
      exact hb
    · intro s hs hp hn
      obtain ⟨s', hs', rfl⟩ := List.mem_map.mp hs
      rw [tweak_id]
      rw [tweak_port] at hp
      rw [tweak_serverName] at hn
      by_cases hne : s'.id = T.id
      · exact hne
      · exfalso
        have hmemE := hsrv_c s' hs' hne hp hn
        have hlen : extra.length = 0 := by omega
        rw [List.length_eq_zero.mp hlen] at hmemE
        cases hmemE
    · intro s hs hid
      obtain ⟨s', hs', rfl⟩ := List.mem_map.mp hs
      rw [tweak_id] at hid
      rw [tweak_of_eq _ _ hid]
      exact ⟨rfl, rfl⟩
    · exact ⟨_, List.mem_map_of_mem _ hSsrv, by rw [tweak_id]; exact hSid⟩
    · intro l hl s hs hsneT hsp hsn _
      have hs_srv : s ∈ srvs := by
        rw [hsrvs]
        have hmm : (if s.id == T.id then
            AutoFixService.convertToPureRedirectHttpServer s S.serverName else s)
            ∈ List.map (fun s => if s.id == T.id then
                AutoFixService.convertToPureRedirectHttpServer s S.serverName else s)
              c.servers :=
          List.mem_map_of_mem _ hs
        rwa [convIf_of_ne _ _ _ hsneT] at hmm
      have hsE : s ∈ extra := hsrv_c s hs_srv hsneT hsp hsn
      have hlen : extra.length = 0 := by omega
      rw [List.length_eq_zero.mp hlen] at hsE
      exact absurd hsE (List.not_mem_nil s)

/-- C3 witness: the hijack applied to the `c10In` fixture (TLS server `sa`
on port 443, sibling `ya` on port 80): the target survives with its id. -/
theorem claim_C3_witness :
    ∃ s, s ∈ (AutoFixService.applyForceHttps c10In "sa" 0).1.servers ∧
      s.id = "sa" :=
  (claim_C3 c10In "sa" 0 c10S c10Y (by decide) (by decide) (by decide)
    (by decide) (by decide)).2.2.2.2.1

/-! ## C10 — the unconditional overwrites, amended -/

theorem stripLit_self_append (p r : Str) : stripLit false p (p ++ r) = some r := by
  induction p with
  | nil => rfl
  | cons c p ih =>
    simp only [List.cons_append, stripLit, chMatch]
    rw [if_pos (by simp)]
    exact ih

theorem strSW_uuid (n : Nat) : strSW ("uuid-" ++ toString n) "uuid-" = true := by
  unfold strSW
  rw [String.data_append "uuid-" (toString n), stripLit_self_append]
  rfl

theorem forceLoop_cons_pos (e : ServerConfig) (rest : List ServerConfig)
    (c : NginxConfig) (ws : List String) (g : Nat)
    (h : (e.ssl.enabled && e.ssl.forceRedirect) = true) :
    AutoFixService.forceLoop (e :: rest) c ws g
      = AutoFixService.forceLoop rest (AutoFixService.applyForceHttps c e.id g).1
          (ws ++ ["已为 " ++ e.serverName ++ " 执行 80 端口节点劫持（Force HTTPS）"])
          (AutoFixService.applyForceHttps c e.id g).2 := by
  show (if e.ssl.enabled && e.ssl.forceRedirect then _ else _) = _
  rw [if_pos h]

theorem forceLoop_cons_neg (e : ServerConfig) (rest : List ServerConfig)
    (c : NginxConfig) (ws : List String) (g : Nat)
    (h : (e.ssl.enabled && e.ssl.forceRedirect) = false) :
    AutoFixService.forceLoop (e :: rest) c ws g
      = AutoFixService.forceLoop rest c ws g := by
  show (if e.ssl.enabled && e.ssl.forceRedirect then _ else _) = _
  rw [if_neg (by rw [h]; decide)]

theorem applyForceHttps_shapeB (c : NginxConfig) (sid : String) (g : Nat)
    (S : ServerConfig)
    (hS : c.servers.find? (fun s => s.id == sid) = some S)
    (hT : AutoFixService.findHttpNode c S.serverName (some sid) = none) :
    AutoFixService.applyForceHttps c sid g =
      ({ c with
          servers := (c.servers ++
            [AutoFixService.convertToPureRedirectHttpServer
              { id := "uuid-" ++ toString g
                name := S.serverName ++ " (HTTP Redirect)"
                listen := { port := 80, defaultServer := false, http2 := false }
                serverName := S.serverName
                ssl := { S.ssl with
                  enabled := false, forceRedirect := false
                  protocols := [], ciphers := "", certificate := "", certificateKey := "" }
                root := "", index := [], customDirectives := "" }
              S.serverName]).map fun s =>
            if s.id == sid then
              { s with ssl := { s.ssl with enabled := true, forceRedirect := false } }
            else s }, g + 1) := by
  unfold AutoFixService.applyForceHttps
  rw [hS]
  dsimp only
  rw [hT]
  dsimp only [freshId]

theorem applyForceHttps_frame (c : NginxConfig) (sid : String) (g : Nat) :
    (AutoFixService.applyForceHttps c sid g).1.global = c.global ∧
    (AutoFixService.applyForceHttps c sid g).1.http = c.http := by
  cases hf : c.servers.find? (fun s => s.id == sid) with
  | none =>
    unfold AutoFixService.applyForceHttps
    rw [hf]
    exact ⟨rfl, rfl⟩
  | some S =>
    cases hT : AutoFixService.findHttpNode c S.serverName (some sid) with
    | some T =>
      rw [applyForceHttps_shape c sid g S T hf hT]
      exact ⟨rfl, rfl⟩
    | none =>
      rw [applyForceHttps_shapeB c sid g S hf hT]
      exact ⟨rfl, rfl⟩

theorem forceLoop_frame (rest : List ServerConfig) (c : NginxConfig)
    (ws : List String) (g : Nat) :
    (AutoFixService.forceLoop rest c ws g).1.global = c.global ∧
    (AutoFixService.forceLoop rest c ws g).1.http = c.http := by
  induction rest generalizing c ws g with
  | nil => exact ⟨rfl, rfl⟩
  | cons e rest ih =>
    by_cases hfe : (e.ssl.enabled && e.ssl.forceRedirect) = true
    · rw [forceLoop_cons_pos e rest c ws g hfe]
      have h1 := ih (AutoFixService.applyForceHttps c e.id g).1
        (ws ++ ["已为 " ++ e.serverName ++ " 执行 80 端口节点劫持（Force HTTPS）"])
        (AutoFixService.applyForceHttps c e.id g).2
      have h2 := applyForceHttps_frame c e.id g
      exact ⟨h1.1.trans h2.1, h1.2.trans h2.2⟩
    · rw [forceLoop_cons_neg e rest c ws g (by rwa [Bool.not_eq_true] at hfe)]
      exact ih c ws g

theorem pass_J (c : NginxConfig) (sid : String) (g : Nat)
    (hJ : ∀ s ∈ c.servers, s.ssl.enabled = true →
      s.ssl.protocols = ["TLSv1.2", "TLSv1.3"])
    (hsid : ∀ s ∈ c.servers, s.id = sid → s.ssl.enabled = true)
    (hsid_uuid : strSW sid "uuid-" = false) :
    ∀ s ∈ (AutoFixService.applyForceHttps c sid g).1.servers,
      s.ssl.enabled = true → s.ssl.protocols = ["TLSv1.2", "TLSv1.3"] := by
  cases hf : c.servers.find? (fun s => s.id == sid) with
  | none =>
    unfold AutoFixService.applyForceHttps
    rw [hf]
    exact hJ
  | some S =>
    cases hT : AutoFixService.findHttpNode c S.serverName (some sid) with
    | some T =>
      have hTP := List.find?_some (by
        have h := hT
        unfold AutoFixService.findHttpNode at h
        exact h)
      dsimp only at hTP
      rw [Bool.and_eq_true, Bool.and_eq_true] at hTP
      obtain ⟨⟨hTid', hTport'⟩, hTname'⟩ := hTP
      have hTid : T.id ≠ sid := bne_iff_ne.mp hTid'
      rw [applyForceHttps_shape c sid g S T hf hT]
      dsimp only
      set srvs := List.map (fun s => if s.id == T.id then
          AutoFixService.convertToPureRedirectHttpServer s S.serverName else s)
        c.servers with hsrvs
      set extra := List.filter (fun s =>
          s.id != T.id && AutoFixService.getPortAsString s == "80"
            && s.serverName == S.serverName) srvs with hextra
      have core : ∀ s' ∈ srvs,
          ((if s'.id == sid then
            { s' with ssl := { s'.ssl with enabled := true, forceRedirect := false } }
           else s').ssl.enabled = true) →
          (if s'.id == sid then
            { s' with ssl := { s'.ssl with enabled := true, forceRedirect := false } }
           else s').ssl.protocols = ["TLSv1.2", "TLSv1.3"] := by
        intro s' hs' hen
        rw [hsrvs] at hs'
        obtain ⟨s0, hs0, rfl⟩ := List.mem_map.mp hs'
        by_cases h0 : s0.id = T.id
        · rw [convIf_of_eq _ _ _ h0] at hen ⊢
          have hidc : (AutoFixService.convertToPureRedirectHttpServer
              s0 S.serverName).id ≠ sid := by
            show s0.id ≠ sid
            rw [h0]
            exact hTid
          rw [tweak_of_ne _ _ hidc] at hen
          simp [AutoFixService.convertToPureRedirectHttpServer] at hen
        · rw [convIf_of_ne _ _ _ h0] at hen ⊢
          by_cases hsd : s0.id = sid
          · rw [tweak_of_eq _ _ hsd]
            exact hJ s0 hs0 (hsid s0 hs0 hsd)
          · rw [tweak_of_ne _ _ hsd] at hen ⊢
            exact hJ s0 hs0 hen
      by_cases hex : extra.length > 0
      · rw [if_pos hex]
        dsimp only
        intro s hs hen
        obtain ⟨s', hs', rfl⟩ := List.mem_map.mp hs
        exact core s' (List.mem_filter.mp hs').1 hen
      · rw [if_neg hex]
        dsimp only
        intro s hs hen
        obtain ⟨s', hs', rfl⟩ := List.mem_map.mp hs
        exact core s' hs' hen
    | none =>
      rw [applyForceHttps_shapeB c sid g S hf hT]
      dsimp only
      intro s hs hen
      obtain ⟨s', hs', rfl⟩ := List.mem_map.mp hs
      rcases List.mem_append.mp hs' with hm | hm
      · by_cases hsd : s'.id = sid
        · rw [tweak_of_eq _ _ hsd] at hen ⊢
          exact hJ s' hm (hsid s' hm hsd)
        · rw [tweak_of_ne _ _ hsd] at hen ⊢
          exact hJ s' hm hen
      · have heq := List.mem_singleton.mp hm
        subst heq
        have hid : (AutoFixService.convertToPureRedirectHttpServer
            { id := "uuid-" ++ toString g
              name := S.serverName ++ " (HTTP Redirect)"
              listen := { port := 80, defaultServer := false, http2 := false }
              serverName := S.serverName
              ssl := { S.ssl with
                enabled := false, forceRedirect := false
                protocols := [], ciphers := "", certificate := "", certificateKey := "" }
              root := "", index := [], customDirectives := "" }
            S.serverName).id ≠ sid := by
          intro hh
          have h1 : strSW sid "uuid-" = true := by
            rw [← hh]
            exact strSW_uuid g
          rw [hsid_uuid] at h1
          exact absurd h1 (by decide)
        rw [tweak_of_ne _ _ hid] at hen
        simp [AutoFixService.convertToPureRedirectHttpServer] at hen

theorem pass_K (c : NginxConfig) (sid : String) (g : Nat) (e : ServerConfig)
    (hne : e.id ≠ sid)
    (he_uuid : strSW e.id "uuid-" = false)
    (hKe : ∀ s ∈ c.servers, s.id = e.id →
      s.ssl.enabled = true ∧ AutoFixService.getPortAsString s ≠ "80") :
    ∀ s ∈ (AutoFixService.applyForceHttps c sid g).1.servers, s.id = e.id →
      s.ssl.enabled = true ∧ AutoFixService.getPortAsString s ≠ "80" := by
  cases hf : c.servers.find? (fun s => s.id == sid) with
  | none =>
    unfold AutoFixService.applyForceHttps
    rw [hf]
    exact hKe
  | some S =>
    cases hT : AutoFixService.findHttpNode c S.serverName (some sid) with
    | some T =>
      have hT2 : c.servers.find? (fun s =>
          (match (some sid : Option String) with
           | some e => s.id != e
           | none => true) && AutoFixService.getPortAsString s == "80"
          && s.serverName == S.serverName) = some T := by
        have h := hT
        unfold AutoFixService.findHttpNode at h
        exact h
      have hTmem : T ∈ c.servers := List.mem_of_find?_eq_some hT2
      have hTP := List.find?_some hT2
      dsimp only at hTP
      rw [Bool.and_eq_true, Bool.and_eq_true] at hTP
      obtain ⟨⟨hTid', hTport'⟩, hTname'⟩ := hTP
      have hTport : AutoFixService.getPortAsString T = "80" := by
        simpa using hTport'
      have hTe : T.id ≠ e.id := fun hh => (hKe T hTmem hh).2 hTport
      rw [applyForceHttps_shape c sid g S T hf hT]
      dsimp only
      set srvs := List.map (fun s => if s.id == T.id then
          AutoFixService.convertToPureRedirectHttpServer s S.serverName else s)
        c.servers with hsrvs
      set extra := List.filter (fun s =>
          s.id != T.id && AutoFixService.getPortAsString s == "80"
            && s.serverName == S.serverName) srvs with hextra
      have core : ∀ s' ∈ srvs,
          ((if s'.id == sid then
            { s' with ssl := { s'.ssl with enabled := true, forceRedirect := false } }
           else s').id = e.id) →
          ((if s'.id == sid then
            { s' with ssl := { s'.ssl with enabled := true, forceRedirect := false } }
           else s').ssl.enabled = true ∧
           AutoFixService.getPortAsString (if s'.id == sid then
            { s' with ssl := { s'.ssl with enabled := true, forceRedirect := false } }
           else s') ≠ "80") := by
        intro s' hs' hid
        rw [tweak_id] at hid
        rw [hsrvs] at hs'
        obtain ⟨s0, hs0, rfl⟩ := List.mem_map.mp hs'
        by_cases h0 : s0.id = T.id
        · rw [convIf_of_eq _ _ _ h0] at hid
          exact absurd (by rw [← h0]; exact hid) hTe
        · rw [convIf_of_ne _ _ _ h0] at hid ⊢
          have hk := hKe s0 hs0 hid
          by_cases hsd : s0.id = sid
          · exfalso
            apply hne
            rw [← hid, hsd]
          · rw [tweak_of_ne _ _ hsd]
            exact hk
      by_cases hex : extra.length > 0
      · rw [if_pos hex]
        dsimp only
        intro s hs hid
        obtain ⟨s', hs', rfl⟩ := List.mem_map.mp hs
        exact core s' (List.mem_filter.mp hs').1 hid
      · rw [if_neg hex]
        dsimp only
        intro s hs hid
        obtain ⟨s', hs', rfl⟩ := List.mem_map.mp hs
        exact core s' hs' hid
    | none =>
      rw [applyForceHttps_shapeB c sid g S hf hT]
      dsimp only
      intro s hs hid
      obtain ⟨s', hs', rfl⟩ := List.mem_map.mp hs
      rcases List.mem_append.mp hs' with hm | hm
      · rw [tweak_id] at hid
        have hk := hKe s' hm hid
        by_cases hsd : s'.id = sid
        · exfalso
          apply hne
          rw [← hid, hsd]
        · rw [tweak_of_ne _ _ hsd]
          exact hk
      · have heq := List.mem_singleton.mp hm
        subst heq
        rw [tweak_id] at hid
        exfalso
        have h1 : strSW e.id "uuid-" = true := by
          rw [← hid]
          exact strSW_uuid g
        rw [he_uuid] at h1
        exact absurd h1 (by decide)

theorem forceLoop_J (rest : List ServerConfig) (c : NginxConfig)
    (ws : List String) (g : Nat)
    (hD : (rest.map (fun s => s.id)).Nodup)
    (hJ : ∀ s ∈ c.servers, s.ssl.enabled = true →
      s.ssl.protocols = ["TLSv1.2", "TLSv1.3"])
    (hK : ∀ e ∈ rest, e.ssl.enabled = true → e.ssl.forceRedirect = true →
      (strSW e.id "uuid-" = false ∧
       ∀ s ∈ c.servers, s.id = e.id →
         s.ssl.enabled = true ∧ AutoFixService.getPortAsString s ≠ "80")) :
    ∀ s ∈ (AutoFixService.forceLoop rest c ws g).1.servers,
      s.ssl.enabled = true → s.ssl.protocols = ["TLSv1.2", "TLSv1.3"] := by
  induction rest generalizing c ws g with
  | nil => exact hJ
  | cons e rest ih =>
    rw [List.map_cons, List.nodup_cons] at hD
    obtain ⟨hDe, hDrest⟩ := hD
    by_cases hfe : (e.ssl.enabled && e.ssl.forceRedirect) = true
    · rw [forceLoop_cons_pos e rest c ws g hfe]
      rw [Bool.and_eq_true] at hfe
      obtain ⟨hen, hfr⟩ := hfe
      obtain ⟨heU, heP⟩ := hK e (by simp) hen hfr
      apply ih _ _ _ hDrest
      · exact pass_J c e.id g hJ (fun s hs hid => (heP s hs hid).1) heU
      · intro e' he' hen' hfr'
        obtain ⟨hU', hP'⟩ := hK e' (by simp [he']) hen' hfr'
        have hne' : e'.id ≠ e.id := by
          intro hh
          exact hDe (hh ▸ List.mem_map_of_mem (fun s => s.id) he')
        exact ⟨hU', pass_K c e.id g e' hne' hU' hP'⟩
    · rw [forceLoop_cons_neg e rest c ws g (by rwa [Bool.not_eq_true] at hfe)]
      exact ih c ws g hDrest hJ (fun e' he' => hK e' (by simp [he']))

theorem pipeline_servers (c : NginxConfig) :
    (AutoFixService.fixSslProtocols (AutoFixService.fixAutoindex
      (AutoFixService.fixServerTokens (AutoFixService.fixRootUser c)))).servers
    = c.servers.map (fun s =>
        let s1 := { s with customDirectives :=
          AutoFixService.cleanDirectives s.customDirectives ["server_tokens"] }
        let s2 := { s1 with customDirectives :=
          AutoFixService.cleanDirectives s1.customDirectives ["autoindex"] }
        if !s2.ssl.enabled then s2 else
          { s2 with
            ssl := { s2.ssl with protocols := ["TLSv1.2", "TLSv1.3"] }
            customDirectives :=
              AutoFixService.cleanDirectives s2.customDirectives ["ssl_protocols"] }) := by
  unfold AutoFixService.fixSslProtocols AutoFixService.fixAutoindex
    AutoFixService.fixServerTokens AutoFixService.fixRootUser
  dsimp only
  rw [List.map_map, List.map_map]
  rfl

theorem pipeElem_fields (s : ServerConfig) :
    ((fun s =>
        let s1 := { s with customDirectives :=
          AutoFixService.cleanDirectives s.customDirectives ["server_tokens"] }
        let s2 := { s1 with customDirectives :=
          AutoFixService.cleanDirectives s1.customDirectives ["autoindex"] }
        if !s2.ssl.enabled then s2 else
          { s2 with
            ssl := { s2.ssl with protocols := ["TLSv1.2", "TLSv1.3"] }
            customDirectives :=
              AutoFixService.cleanDirectives s2.customDirectives ["ssl_protocols"] })
      s : ServerConfig).id = s.id ∧
    ((fun s =>
        let s1 := { s with customDirectives :=
          AutoFixService.cleanDirectives s.customDirectives ["server_tokens"] }
        let s2 := { s1 with customDirectives :=
          AutoFixService.cleanDirectives s1.customDirectives ["autoindex"] }
        if !s2.ssl.enabled then s2 else
          { s2 with
            ssl := { s2.ssl with protocols := ["TLSv1.2", "TLSv1.3"] }
            customDirectives :=
              AutoFixService.cleanDirectives s2.customDirectives ["ssl_protocols"] })
      s : ServerConfig).ssl.enabled = s.ssl.enabled ∧
    ((fun s =>
        let s1 := { s with customDirectives :=
          AutoFixService.cleanDirectives s.customDirectives ["server_tokens"] }
        let s2 := { s1 with customDirectives :=
          AutoFixService.cleanDirectives s1.customDirectives ["autoindex"] }
        if !s2.ssl.enabled then s2 else
          { s2 with
            ssl := { s2.ssl with protocols := ["TLSv1.2", "TLSv1.3"] }
            customDirectives :=
              AutoFixService.cleanDirectives s2.customDirectives ["ssl_protocols"] })
      s : ServerConfig).ssl.forceRedirect = s.ssl.forceRedirect ∧
    ((fun s =>
        let s1 := { s with customDirectives :=
          AutoFixService.cleanDirectives s.customDirectives ["server_tokens"] }
        let s2 := { s1 with customDirectives :=
          AutoFixService.cleanDirectives s1.customDirectives ["autoindex"] }
        if !s2.ssl.enabled then s2 else
          { s2 with
            ssl := { s2.ssl with protocols := ["TLSv1.2", "TLSv1.3"] }
            customDirectives :=
              AutoFixService.cleanDirectives s2.customDirectives ["ssl_protocols"] })
      s : ServerConfig).listen = s.listen ∧
    (s.ssl.enabled = true →
      ((fun s =>
        let s1 := { s with customDirectives :=
          AutoFixService.cleanDirectives s.customDirectives ["server_tokens"] }
        let s2 := { s1 with customDirectives :=
          AutoFixService.cleanDirectives s1.customDirectives ["autoindex"] }
        if !s2.ssl.enabled then s2 else
          { s2 with
            ssl := { s2.ssl with protocols := ["TLSv1.2", "TLSv1.3"] }
            customDirectives :=
              AutoFixService.cleanDirectives s2.customDirectives ["ssl_protocols"] })
      s : ServerConfig).ssl.protocols = ["TLSv1.2", "TLSv1.3"]) := by
  dsimp only
  by_cases h : (!s.ssl.enabled) = true
  · rw [if_pos h]
    refine ⟨rfl, rfl, rfl, rfl, fun hen => ?_⟩
    rw [hen] at h
    exact absurd h (by decide)
  · rw [if_neg h]
    exact ⟨rfl, rfl, rfl, rfl, fun _ => rfl⟩

theorem tweak_text (sid : String) (s : ServerConfig) :
    (if s.id == sid then
      { s with ssl := { s.ssl with enabled := true, forceRedirect := false } }
     else s).customDirectives = s.customDirectives := by
  by_cases h : (s.id == sid) = true <;> simp [h]

theorem applyForceHttps_locs_sub (c : NginxConfig) (sid : String) (g : Nat) :
    ∀ l ∈ (AutoFixService.applyForceHttps c sid g).1.locations,
      l ∈ c.locations := by
  cases hf : c.servers.find? (fun s => s.id == sid) with
  | none =>
    unfold AutoFixService.applyForceHttps
    rw [hf]
    exact fun l hl => hl
  | some S =>
    cases hT : AutoFixService.findHttpNode c S.serverName (some sid) with
    | some T =>
      rw [applyForceHttps_shape c sid g S T hf hT]
      dsimp only
      set srvs := List.map (fun s => if s.id == T.id then
          AutoFixService.convertToPureRedirectHttpServer s S.serverName else s)
        c.servers with hsrvs
      set extra := List.filter (fun s =>
          s.id != T.id && AutoFixService.getPortAsString s == "80"
            && s.serverName == S.serverName) srvs with hextra
      set locs := List.filter (fun l => l.serverId != T.id) c.locations with hlocs
      by_cases hex : extra.length > 0
      · rw [if_pos hex]
        dsimp only
        intro l hl
        have hl2 := (List.mem_filter.mp hl).1
        rw [hlocs] at hl2
        exact (List.mem_filter.mp hl2).1
      · rw [if_neg hex]
        dsimp only
        intro l hl
        rw [hlocs] at hl
        exact (List.mem_filter.mp hl).1
    | none =>
      rw [applyForceHttps_shapeB c sid g S hf hT]
      exact fun l hl => hl

theorem forceLoop_locs_sub (rest : List ServerConfig) (c : NginxConfig)
    (ws : List String) (g : Nat) :
    ∀ l ∈ (AutoFixService.forceLoop rest c ws g).1.locations,
      l ∈ c.locations := by
  induction rest generalizing c ws g with
  | nil => exact fun l hl => hl
  | cons e rest ih =>
    by_cases hfe : (e.ssl.enabled && e.ssl.forceRedirect) = true
    · rw [forceLoop_cons_pos e rest c ws g hfe]
      intro l hl
      exact applyForceHttps_locs_sub c e.id g l
        (ih (AutoFixService.applyForceHttps c e.id g).1 _ _ l hl)
    · rw [forceLoop_cons_neg e rest c ws g (by rwa [Bool.not_eq_true] at hfe)]
      exact ih c ws g

theorem applyForceHttps_texts (c : NginxConfig) (sid : String) (g : Nat) :
    ∀ s ∈ (AutoFixService.applyForceHttps c sid g).1.servers,
      s.customDirectives = "return 301 https://$host$request_uri;" ∨
      ∃ s0 ∈ c.servers, s.customDirectives = s0.customDirectives := by
  cases hf : c.servers.find? (fun s => s.id == sid) with
  | none =>
    unfold AutoFixService.applyForceHttps
    rw [hf]
    exact fun s hs => Or.inr ⟨s, hs, rfl⟩
  | some S =>
    cases hT : AutoFixService.findHttpNode c S.serverName (some sid) with
    | some T =>
      rw [applyForceHttps_shape c sid g S T hf hT]
      dsimp only
      set srvs := List.map (fun s => if s.id == T.id then
          AutoFixService.convertToPureRedirectHttpServer s S.serverName else s)
        c.servers with hsrvs
      set extra := List.filter (fun s =>
          s.id != T.id && AutoFixService.getPortAsString s == "80"
            && s.serverName == S.serverName) srvs with hextra
      have hsrv_text : ∀ s' ∈ srvs,
          s'.customDirectives = "return 301 https://$host$request_uri;" ∨
          ∃ s0 ∈ c.servers, s'.customDirectives = s0.customDirectives := by
        intro s' hs'
        rw [hsrvs] at hs'
        obtain ⟨s0, hs0, rfl⟩ := List.mem_map.mp hs'
        by_cases h0 : s0.id = T.id
        · rw [convIf_of_eq _ _ _ h0]
          exact Or.inl rfl
        · rw [convIf_of_ne _ _ _ h0]
          exact Or.inr ⟨s0, hs0, rfl⟩
      by_cases hex : extra.length > 0
      · rw [if_pos hex]
        dsimp only
        intro s hs
        obtain ⟨s', hs', rfl⟩ := List.mem_map.mp hs
        rw [tweak_text]
        exact hsrv_text s' (List.mem_filter.mp hs').1
      · rw [if_neg hex]
        dsimp only
        intro s hs
        obtain ⟨s', hs', rfl⟩ := List.mem_map.mp hs
        rw [tweak_text]
        exact hsrv_text s' hs'
    | none =>
      rw [applyForceHttps_shapeB c sid g S hf hT]
      intro s hs
      obtain ⟨s', hs', rfl⟩ := List.mem_map.mp hs
      rw [tweak_text]
      rcases List.mem_append.mp hs' with hmem | hmem
      · exact Or.inr ⟨s', hmem, rfl⟩
      · rw [List.mem_singleton] at hmem
        subst hmem
        exact Or.inl rfl

theorem forceLoop_texts (rest : List ServerConfig) (c : NginxConfig)
    (ws : List String) (g : Nat) :
    ∀ s ∈ (AutoFixService.forceLoop rest c ws g).1.servers,
      s.customDirectives = "return 301 https://$host$request_uri;" ∨
      ∃ s0 ∈ c.servers, s.customDirectives = s0.customDirectives := by
  induction rest generalizing c ws g with
  | nil => exact fun s hs => Or.inr ⟨s, hs, rfl⟩
  | cons e rest ih =>
    by_cases hfe : (e.ssl.enabled && e.ssl.forceRedirect) = true
    · rw [forceLoop_cons_pos e rest c ws g hfe]
      intro s hs
      rcases ih (AutoFixService.applyForceHttps c e.id g).1 _ _ s hs with
        h | ⟨s1, hs1, heq⟩
      · exact Or.inl h
      · rcases applyForceHttps_texts c e.id g s1 hs1 with h1 | ⟨s0, hs0, h0⟩
        · exact Or.inl (heq.trans h1)
        · exact Or.inr ⟨s0, hs0, heq.trans h0⟩
    · rw [forceLoop_cons_neg e rest c ws g (by rwa [Bool.not_eq_true] at hfe)]
      exact ih c ws g

theorem pipeline_locations (c : NginxConfig) :
    (AutoFixService.fixSslProtocols (AutoFixService.fixAutoindex
      (AutoFixService.fixServerTokens (AutoFixService.fixRootUser c)))).locations
    = c.locations.map (fun l =>
        { l with customDirectives :=
            AutoFixService.cleanDirectives l.customDirectives ["autoindex"] }) :=
  rfl

theorem pipeElem_text (s : ServerConfig) :
    ((fun s =>
        let s1 := { s with customDirectives :=
          AutoFixService.cleanDirectives s.customDirectives ["server_tokens"] }
        let s2 := { s1 with customDirectives :=
          AutoFixService.cleanDirectives s1.customDirectives ["autoindex"] }
        if !s2.ssl.enabled then s2 else
          { s2 with
            ssl := { s2.ssl with protocols := ["TLSv1.2", "TLSv1.3"] }
            customDirectives :=
              AutoFixService.cleanDirectives s2.customDirectives ["ssl_protocols"] })
      s : ServerConfig).customDirectives = pipeText s := by
  dsimp only
  unfold pipeText
  by_cases h : s.ssl.enabled = true
  · rw [if_neg (by rw [h]; decide), if_pos h]
  · have hf2 : s.ssl.enabled = false := by
      rw [Bool.not_eq_true] at h
      exact h
    rw [if_pos (by rw [hf2]; rfl), if_neg h]

/-- C10 (amended): the destructive fixer pipeline, on every input, sets
`global.user = "nginx"` and `http.serverTokens = false`; it pushes the
global passthrough text through the `user` and then the `server_tokens`
cleaner passes and the http passthrough text through the `server_tokens`
pass; every location of the result carries the `autoindex`-cleaned text of
an input location; and every server of the result carries either the
generated redirect text `return 301 https://$host$request_uri;` or the
cleaned text `pipeText s0` of some input server (`server_tokens`, then
`autoindex`, then — for TLS-enabled servers — `ssl_protocols`).  Finally,
when the input server ids are distinct, not shaped like the generated
`uuid-` ids, and no `forceRedirect` TLS server itself listens on port 80,
every ssl-enabled server of the result carries exactly
`["TLSv1.2", "TLSv1.3"]`; without the port proviso that protocol clause
fails (see the counterexample): a `forceRedirect` server on port 80 is
hijacked and then re-enabled with an empty protocol list.  A single
cleaner pass does not always delete every matching directive line
(overlapping matches can survive one pass), so the removal of `user`,
`server_tokens`, `ssl_protocols` and `autoindex` lines holds exactly in
the form of these cleaner-pass equations. -/
theorem claim_C10 (c : NginxConfig) (g : Nat) :
    ((AutoFixService.applyAllFixes c g).1).1.global.user = "nginx" ∧
    ((AutoFixService.applyAllFixes c g).1).1.http.serverTokens = false ∧
    ((AutoFixService.applyAllFixes c g).1).1.global.customDirectives
      = AutoFixService.cleanDirectives
          (AutoFixService.cleanDirectives c.global.customDirectives ["user"])
          ["server_tokens"] ∧
    ((AutoFixService.applyAllFixes c g).1).1.http.customDirectives
      = AutoFixService.cleanDirectives c.http.customDirectives
          ["server_tokens"] ∧
    (∀ l ∈ ((AutoFixService.applyAllFixes c g).1).1.locations,
      ∃ l0 ∈ c.locations,
        l.customDirectives
          = AutoFixService.cleanDirectives l0.customDirectives ["autoindex"]) ∧
    (∀ s ∈ ((AutoFixService.applyAllFixes c g).1).1.servers,
      s.customDirectives = "return 301 https://$host$request_uri;" ∨
      ∃ s0 ∈ c.servers, s.customDirectives = pipeText s0) ∧
    ((c.servers.map (fun s => s.id)).Nodup →
     (∀ s ∈ c.servers, strSW s.id "uuid-" = false) →
     (∀ s ∈ c.servers, s.ssl.enabled = true → s.ssl.forceRedirect = true →
        AutoFixService.getPortAsString s ≠ "80") →
     ∀ s ∈ ((AutoFixService.applyAllFixes c g).1).1.servers,
       s.ssl.enabled = true → s.ssl.protocols = ["TLSv1.2", "TLSv1.3"]) := by
  have hshape : ((AutoFixService.applyAllFixes c g).1).1
      = (AutoFixService.forceLoop
          (AutoFixService.fixSslProtocols (AutoFixService.fixAutoindex
            (AutoFixService.fixServerTokens (AutoFixService.fixRootUser c)))).servers
          (AutoFixService.fixSslProtocols (AutoFixService.fixAutoindex
            (AutoFixService.fixServerTokens (AutoFixService.fixRootUser c))))
          [] g).1 := rfl
  rw [hshape]
  refine ⟨?_, ?_, ?_, ?_, ?_, ?_, ?_⟩
  · rw [(forceLoop_frame _ _ _ _).1]
    rfl
  · rw [(forceLoop_frame _ _ _ _).2]
    rfl
  · rw [(forceLoop_frame _ _ _ _).1]
    rfl
  · rw [(forceLoop_frame _ _ _ _).2]
    rfl
  · intro l hl
    have hl2 := forceLoop_locs_sub _ _ _ _ l hl
    rw [pipeline_locations] at hl2
    obtain ⟨l0, hl0, rfl⟩ := List.mem_map.mp hl2
    exact ⟨l0, hl0, rfl⟩
  · intro s hs
    rcases forceLoop_texts _ _ _ _ s hs with h | ⟨s1, hs1, heq⟩
    · exact Or.inl h
    · rw [pipeline_servers] at hs1
      obtain ⟨s0, hs0, rfl⟩ := List.mem_map.mp hs1
      exact Or.inr ⟨s0, hs0, heq.trans (pipeElem_text s0)⟩
  · intro huniq huuid hfr80
    apply forceLoop_J
    · rw [pipeline_servers, List.map_map]
      have hcg : ∀ x ∈ c.servers,
          ((fun s => s.id) ∘ (fun s =>
            let s1 := { s with customDirectives :=
              AutoFixService.cleanDirectives s.customDirectives ["server_tokens"] }
            let s2 := { s1 with customDirectives :=
              AutoFixService.cleanDirectives s1.customDirectives ["autoindex"] }
            if !s2.ssl.enabled then s2 else
              { s2 with
                ssl := { s2.ssl with protocols := ["TLSv1.2", "TLSv1.3"] }
                customDirectives :=
                  AutoFixService.cleanDirectives s2.customDirectives
                    ["ssl_protocols"] })) x
          = (fun s => s.id) x := fun x _ => (pipeElem_fields x).1
      rw [List.map_congr_left hcg]
      exact huniq
    · rw [pipeline_servers]
      intro s hs hen
      obtain ⟨s0, hs0, rfl⟩ := List.mem_map.mp hs
      have hp := pipeElem_fields s0
      rw [hp.2.1] at hen
      exact hp.2.2.2.2 hen
    · rw [pipeline_servers]
      intro e he hen hfr
      obtain ⟨e0, he0, rfl⟩ := List.mem_map.mp he
      have hpe := pipeElem_fields e0
      rw [hpe.2.1] at hen
      rw [hpe.2.2.1] at hfr
      refine ⟨by rw [hpe.1]; exact huuid e0 he0, ?_⟩
      intro s hs hid
      obtain ⟨s0, hs0, rfl⟩ := List.mem_map.mp hs
      have hps := pipeElem_fields s0
      rw [hps.1, hpe.1] at hid
      have heq : s0 = e0 := List.inj_on_of_nodup_map huniq hs0 he0 hid
      subst heq
      constructor
      · rw [hps.2.1]
        exact hen
      · have hl := hps.2.2.2.1
        unfold AutoFixService.getPortAsString
        rw [hl]
        exact hfr80 s0 hs0 hen hfr

/-- C10 witness: the amended theorem at the `c2Input` fixture, with the
protocol clause provisos discharged by computation. -/
theorem claim_C10_witness :
    ((AutoFixService.applyAllFixes c2Input 0).1).1.global.user = "nginx" ∧
    ((AutoFixService.applyAllFixes c2Input 0).1).1.http.serverTokens = false ∧
    ∀ s ∈ ((AutoFixService.applyAllFixes c2Input 0).1).1.servers,
      s.ssl.enabled = true → s.ssl.protocols = ["TLSv1.2", "TLSv1.3"] :=
  ⟨(claim_C10 c2Input 0).1, (claim_C10 c2Input 0).2.1,
   (claim_C10 c2Input 0).2.2.2.2.2.2 (by decide) (by decide) (by decide)⟩

/-! ## C4 — groundwork: membership helpers and structural soundness of the
tail matcher -/

theorem allWs_nil : allWs [] := fun c hc => absurd hc (List.not_mem_nil c)

theorem noSemi_nil : noSemi [] := fun c hc => absurd hc (List.not_mem_nil c)

theorem allWs_cons {c : Char} {u : Str} :
    allWs (c :: u) ↔ isWs c = true ∧ allWs u := List.forall_mem_cons

theorem noSemi_cons {c : Char} {u : Str} :
    noSemi (c :: u) ↔ c ≠ ';' ∧ noSemi u := List.forall_mem_cons

theorem allWs_append {u v : Str} :
    allWs (u ++ v) ↔ allWs u ∧ allWs v := List.forall_mem_append

theorem noSemi_append {u v : Str} :
    noSemi (u ++ v) ↔ noSemi u ∧ noSemi v := List.forall_mem_append

theorem wsRun_cons (c : Char) (s : Str) :
    wsRun (c :: s) = if isWs c then wsRun s + 1 else 0 := rfl

theorem firstSemi_cons (c : Char) (s : Str) :
    firstSemi (c :: s) = if c = ';' then 0 else firstSemi s + 1 := rfl

theorem lastLineEnd_cons (c : Char) (s : Str) :
    lastLineEnd (c :: s) = if isWs c then
        match lastLineEnd s with
        | some x => some (x + 1)
        | none => if isLT c then some 0 else none
      else if isLT c then some 0 else none := rfl

theorem wsRun_decomp (s : Str) : ∃ W r, s = W ++ r ∧ W.length = wsRun s ∧
    allWs W ∧ ∀ c, r.head? = some c → isWs c = false := by
  induction s with
  | nil => exact ⟨[], [], rfl, rfl, allWs_nil, fun c hc => by cases hc⟩
  | cons c s ih =>
    by_cases hc : isWs c = true
    · obtain ⟨W, r, hsr, hlen, hW, hr⟩ := ih
      refine ⟨c :: W, r, by rw [List.cons_append, ← hsr], ?_, allWs_cons.mpr ⟨hc, hW⟩, hr⟩
      show W.length + 1 = wsRun (c :: s)
      rw [wsRun_cons, if_pos hc, hlen]
    · refine ⟨[], c :: s, rfl, ?_, allWs_nil, ?_⟩
      · show 0 = wsRun (c :: s)
        rw [wsRun_cons, if_neg hc]
      · intro d hd
        injection hd with hd
        subst hd
        rwa [Bool.not_eq_true] at hc

theorem wsRun_append (W r : Str) (hW : allWs W)
    (hr : ∀ c, r.head? = some c → isWs c = false) :
    wsRun (W ++ r) = W.length := by
  induction W with
  | nil =>
    cases r with
    | nil => rfl
    | cons c r =>
      show wsRun (c :: r) = 0
      rw [wsRun_cons, if_neg (by rw [hr c rfl]; exact fun h => nomatch h)]
  | cons w W ih =>
    show wsRun (w :: (W ++ r)) = W.length + 1
    rw [wsRun_cons, if_pos (allWs_cons.mp hW).1, ih (allWs_cons.mp hW).2]

theorem wsRun_pos (c : Char) (s : Str) (hc : isWs c = true) :
    1 ≤ wsRun (c :: s) := by
  rw [wsRun_cons, if_pos hc]
  omega

theorem firstSemi_decomp (s : Str) :
    (∃ P Q, s = P ++ ';' :: Q ∧ P.length = firstSemi s ∧ noSemi P) ∨
    (noSemi s ∧ firstSemi s = s.length) := by
  induction s with
  | nil => exact Or.inr ⟨noSemi_nil, rfl⟩
  | cons c s ih =>
    by_cases hc : c = ';'
    · subst hc
      exact Or.inl ⟨[], s, rfl, by rw [firstSemi_cons, if_pos rfl]; rfl, noSemi_nil⟩
    · have hfs : firstSemi (c :: s) = firstSemi s + 1 := by
        rw [firstSemi_cons, if_neg hc]
      rcases ih with ⟨P, Q, hPQ, hlen, hP⟩ | ⟨hns, hlen⟩
      · refine Or.inl ⟨c :: P, Q, by rw [List.cons_append, ← hPQ], ?_,
          noSemi_cons.mpr ⟨hc, hP⟩⟩
        rw [hfs, ← hlen]
        rfl
      · exact Or.inr ⟨noSemi_cons.mpr ⟨hc, hns⟩, by rw [hfs, hlen]; rfl⟩

theorem firstSemi_append (P r : Str) (hP : noSemi P) :
    firstSemi (P ++ r) = P.length + firstSemi r := by
  induction P with
  | nil => simp
  | cons c P ih =>
    show firstSemi (c :: (P ++ r)) = P.length + 1 + firstSemi r
    rw [firstSemi_cons, if_neg (noSemi_cons.mp hP).1, ih (noSemi_cons.mp hP).2]
    omega

theorem lastLineEnd_decomp (v : Str) (x : Nat) (h : lastLineEnd v = some x) :
    ∃ D rest, v = D ++ rest ∧ D.length = x ∧ allWs D ∧ lineEndB rest = true := by
  induction v generalizing x with
  | nil =>
    injection h with h
    exact ⟨[], [], rfl, h, allWs_nil, rfl⟩
  | cons c v ih =>
    rw [lastLineEnd_cons] at h
    by_cases hc : isWs c = true
    · rw [if_pos hc] at h
      cases hv : lastLineEnd v with
      | some y =>
        rw [hv] at h
        injection h with h
        obtain ⟨D, rest, hDr, hlen, hD, hle⟩ := ih y hv
        exact ⟨c :: D, rest, by rw [List.cons_append, ← hDr],
          by rw [← h, ← hlen]; rfl, allWs_cons.mpr ⟨hc, hD⟩, hle⟩
      | none =>
        rw [hv] at h
        by_cases hlt : isLT c = true
        · rw [if_pos hlt] at h
          injection h with h
          exact ⟨[], c :: v, rfl, h, allWs_nil, hlt⟩
        · rw [if_neg hlt] at h
          exact nomatch h
    · rw [if_neg hc] at h
      by_cases hlt : isLT c = true
      · rw [if_pos hlt] at h
        injection h with h
        exact ⟨[], c :: v, rfl, h, allWs_nil, hlt⟩
      · rw [if_neg hlt] at h
        exact nomatch h

theorem lastLineEnd_isSome (D rest : Str) (hD : allWs D) (hle : lineEndB rest = true) :
    (lastLineEnd (D ++ rest)).isSome = true := by
  induction D with
  | nil =>
    cases rest with
    | nil => rfl
    | cons c r =>
      have hlt : isLT c = true := hle
      show (lastLineEnd (c :: r)).isSome = true
      rw [lastLineEnd_cons, if_pos (isLT_isWs c hlt)]
      cases hv : lastLineEnd r with
      | some y => rfl
      | none => rw [if_pos hlt]; rfl
  | cons d D ih =>
    show (lastLineEnd (d :: (D ++ rest))).isSome = true
    rw [lastLineEnd_cons, if_pos (allWs_cons.mp hD).1]
    have := ih (allWs_cons.mp hD).2
    cases hv : lastLineEnd (D ++ rest) with
    | some y => rfl
    | none => rw [hv] at this; exact nomatch this

/-! ## C4 — stripLit and tail matcher: soundness and completeness -/

theorem tailLoop_succ (s : Str) (z t : Nat) :
    tailLoop s z (t + 2) = ((tailCheck s z (t + 2)) <|> tailLoop s z (t + 1)) := rfl

theorem stripLit_decomp (ci : Bool) (key u r : Str)
    (h : stripLit ci key u = some r) :
    ∃ K, u = K ++ r ∧ List.Forall₂ (fun p c => chMatch ci p c = true) key K := by
  induction key generalizing u with
  | nil =>
    injection h with h
    exact ⟨[], by rw [h]; rfl, List.Forall₂.nil⟩
  | cons p ps ih =>
    cases u with
    | nil => exact nomatch h
    | cons c s =>
      rw [show stripLit ci (p :: ps) (c :: s) =
        (if chMatch ci p c then stripLit ci ps s else none) from rfl] at h
      by_cases hm : chMatch ci p c = true
      · rw [if_pos hm] at h
        obtain ⟨K, hKr, hF⟩ := ih s h
        exact ⟨c :: K, by rw [List.cons_append, ← hKr], List.Forall₂.cons hm hF⟩
      · rw [if_neg hm] at h
        exact nomatch h

theorem stripLit_complete (ci : Bool) (key K T : Str)
    (hF : List.Forall₂ (fun p c => chMatch ci p c = true) key K) :
    stripLit ci key (K ++ T) = some T := by
  induction hF with
  | nil => rfl
  | cons hm hF ih =>
    rename_i p c ps K'
    show (if chMatch ci p c then stripLit ci ps (K' ++ T) else none) = some T
    rw [if_pos hm, ih]

theorem tailLoop_decomp (s : Str) (z : Nat) (t0 : Nat) (x : Nat)
    (h : tailLoop s z t0 = some x) :
    ∃ t, 2 ≤ t ∧ t ≤ t0 ∧ tailCheck s z t = some x := by
  induction t0 with
  | zero => exact nomatch h
  | succ t1 ih =>
    cases t1 with
    | zero => exact nomatch h
    | succ t =>
      rw [tailLoop_succ] at h
      cases hc : tailCheck s z (t + 2) with
      | some y =>
        rw [hc] at h
        injection h with h
        exact ⟨t + 2, by omega, Nat.le_refl _, by rw [hc, h]⟩
      | none =>
        rw [hc, Option.none_orElse] at h
        obtain ⟨t', h2, hle, hch⟩ := ih h
        exact ⟨t', h2, by omega, hch⟩

theorem tailLoop_complete (s : Str) (z : Nat) (t t0 : Nat)
    (h2 : 2 ≤ t) (hle : t ≤ t0) (h : (tailCheck s z t).isSome = true) :
    (tailLoop s z t0).isSome = true := by
  induction t0 with
  | zero => omega
  | succ t1 ih =>
    cases t1 with
    | zero => omega
    | succ t' =>
      rw [tailLoop_succ]
      by_cases he : t = t' + 2
      · subst he
        cases hc : tailCheck s z (t' + 2) with
        | some y => rfl
        | none => rw [hc] at h; exact nomatch h
      · have := ih (by omega)
        cases hc : tailCheck s z (t' + 2) with
        | some y => rfl
        | none =>
          rw [Option.none_orElse]
          exact this

/-! ## C4 — tailCheck and matchTail: soundness -/

theorem isLT_ne_semi {c : Char} (h : isLT c = true) : c ≠ ';' :=
  ws_ne_semi (isLT_isWs c h)

theorem tailCheck_eq_pos (s : Str) (z t : Nat)
    (h : (decide (t = z) && decide (z < s.length)) = true) :
    tailCheck s z t = match lastLineEnd (s.drop (z + 1)) with
      | some x => some (z + 1 + x) | none => none := by
  unfold tailCheck
  rw [if_pos h]

theorem tailCheck_eq_neg (s : Str) (z t : Nat)
    (h : ¬ (decide (t = z) && decide (z < s.length)) = true) :
    tailCheck s z t = match lastLineEnd (s.drop t) with
      | some x => some (t + x) | none => none := by
  unfold tailCheck
  rw [if_neg h]

theorem firstSemi_take (s : Str) : noSemi (s.take (firstSemi s)) := by
  induction s with
  | nil => exact noSemi_nil
  | cons c s ih =>
    rw [firstSemi_cons]
    by_cases hc : c = ';'
    · rw [if_pos hc]
      exact noSemi_nil
    · rw [if_neg hc]
      exact noSemi_cons.mpr ⟨hc, ih⟩

theorem noSemi_take_of_le (s : Str) (t : Nat) (ht : t ≤ firstSemi s) :
    noSemi (s.take t) := by
  intro c hc
  apply firstSemi_take s c
  have : s.take t = (s.take (firstSemi s)).take t := by
    rw [List.take_take, min_eq_left ht]
  rw [this] at hc
  exact List.take_subset _ _ hc

theorem firstSemi_le (s : Str) : firstSemi s ≤ s.length := by
  induction s with
  | nil => exact Nat.le_refl 0
  | cons c s ih =>
    rw [firstSemi_cons]
    by_cases hc : c = ';'
    · rw [if_pos hc]; exact Nat.zero_le _
    · rw [if_neg hc]; exact Nat.succ_le_succ ih

theorem tailCheck_decomp (s : Str) (t x : Nat) (h2 : 2 ≤ t)
    (htz : t ≤ firstSemi s) (hws : 1 ≤ wsRun s)
    (h : tailCheck s (firstSemi s) t = some x) :
    ∃ A B C D rest, s = A ++ B ++ C ++ D ++ rest ∧ A ≠ [] ∧ allWs A ∧
      B ≠ [] ∧ noSemi B ∧ (C = [] ∨ C = [';']) ∧ allWs D ∧
      lineEndB rest = true ∧ (A ++ B ++ C ++ D).length = x := by
  cases s with
  | nil =>
    exfalso
    have : wsRun ([] : Str) = 0 := rfl
    omega
  | cons c s1 =>
    have hc : isWs c = true := by
      by_contra hcc
      rw [Bool.not_eq_true] at hcc
      rw [wsRun_cons, if_neg (by rw [hcc]; exact fun hh => nomatch hh)] at hws
      omega
    set z := firstSemi (c :: s1) with hz
    by_cases hcond : (decide (t = z) && decide (z < (c :: s1).length)) = true
    · rw [tailCheck_eq_pos _ _ _ hcond] at h
      simp only [Bool.and_eq_true, decide_eq_true_eq] at hcond
      obtain ⟨htez, hzlen⟩ := hcond
      rcases firstSemi_decomp (c :: s1) with ⟨P, Q, hPQ, hlen, hP⟩ | ⟨_, hlen⟩
      rotate_right
      · exfalso
        rw [← hz] at hlen
        omega
      · rw [← hz] at hlen
        have hdropz : (c :: s1).drop z = ';' :: Q := by
          rw [hPQ, ← hlen]
          exact List.drop_left P (';' :: Q)
        have hdrop : (c :: s1).drop (z + 1) = Q := by
          rw [← List.drop_drop 1 z, hdropz]
          rfl
        rw [hdrop] at h
        cases hlle : lastLineEnd Q with
        | none => rw [hlle] at h; exact nomatch h
        | some xx =>
          rw [hlle] at h
          injection h with h
          obtain ⟨D, rest, hQ, hDlen, hD, hle⟩ := lastLineEnd_decomp Q xx hlle
          cases P with
          | nil =>
            exfalso
            have hz0 : z = 0 := by rw [← hlen]; rfl
            omega
          | cons c0 P1 =>
            have hc0 : c0 = c := by
              have := hPQ
              rw [List.cons_append] at this
              injection this with h1 _
              exact h1.symm
            subst hc0
            have hP1 : P1 ≠ [] := by
              intro hh
              subst hh
              have : z = 1 := by rw [← hlen]; rfl
              omega
            refine ⟨[c0], P1, [';'], D, rest, ?_, List.cons_ne_nil c0 [], ?_, hP1,
              ?_, Or.inr rfl, hD, hle, ?_⟩
            · rw [hPQ, hQ]
              simp [List.append_assoc]
            · intro d hd
              rcases List.mem_cons.mp hd with hh | hh
              · rw [hh]; exact hc
              · exact absurd hh (List.not_mem_nil d)
            · intro d hd
              exact (noSemi_cons.mp hP).2 d hd
            · have hplen : P1.length + 1 = z := by
                rw [← hlen]
                rfl
              simp only [List.length_append, List.length_cons, List.length_nil]
              rw [← h, ← hDlen]
              omega
    · rw [tailCheck_eq_neg _ _ _ hcond] at h
      have htlen : t ≤ (c :: s1).length := Nat.le_trans htz (by rw [hz] at htz ⊢; exact firstSemi_le _)
      cases hlle : lastLineEnd ((c :: s1).drop t) with
      | none => rw [hlle] at h; exact nomatch h
      | some xx =>
        rw [hlle] at h
        injection h with h
        obtain ⟨D, rest, hQ, hDlen, hD, hle⟩ :=
          lastLineEnd_decomp ((c :: s1).drop t) xx hlle
        obtain ⟨t1, ht1⟩ : ∃ t1, t = t1 + 2 := ⟨t - 2, by omega⟩
        have htake : (c :: s1).take t = c :: s1.take (t1 + 1) := by
          rw [ht1]
          rfl
        have hBne : s1.take (t1 + 1) ≠ [] := by
          intro hh
          have := congrArg List.length hh
          rw [List.length_take, List.length_nil] at this
          have hlen1 : (c :: s1).length = s1.length + 1 := rfl
          omega
        refine ⟨[c], s1.take (t1 + 1), [], D, rest, ?_, List.cons_ne_nil c [], ?_,
          hBne, ?_, Or.inl rfl, hD, hle, ?_⟩
        · have := List.take_append_drop t (c :: s1)
          rw [htake, hQ] at this
          rw [← this]
          simp [List.append_assoc]
        · intro d hd
          rcases List.mem_cons.mp hd with hh | hh
          · rw [hh]; exact hc
          · exact absurd hh (List.not_mem_nil d)
        · intro d hd
          have : d ∈ (c :: s1).take t := by
            rw [htake]
            exact List.mem_cons_of_mem c hd
          exact noSemi_take_of_le _ t htz d this
        · simp only [List.length_append, List.length_cons, List.length_nil,
            List.length_take]
          have hlen1 : (c :: s1).length = s1.length + 1 := rfl
          rw [← h, ← hDlen]
          have : min (t1 + 1) s1.length = t1 + 1 := by omega
          omega

theorem matchTail_decomp (u : Str) (x : Nat) (h : matchTail u = some x) :
    ∃ A B C D rest, u = A ++ B ++ C ++ D ++ rest ∧ A ≠ [] ∧ allWs A ∧
      B ≠ [] ∧ noSemi B ∧ (C = [] ∨ C = [';']) ∧ allWs D ∧
      lineEndB rest = true ∧ (A ++ B ++ C ++ D).length = x := by
  unfold matchTail at h
  by_cases hws : wsRun u = 0
  · rw [if_pos hws] at h
    exact nomatch h
  · rw [if_neg hws] at h
    obtain ⟨t, h2, htz, hch⟩ := tailLoop_decomp u (firstSemi u) (firstSemi u) x h
    exact tailCheck_decomp u t x h2 htz (by omega) hch

/-! ## C4 — matchTail and attemptPlain: completeness, and the E-equivalences -/

theorem forall₂_preimage {R : Char → Char → Prop} {l₁ l₂ : Str}
    (h : List.Forall₂ R l₁ l₂) : ∀ c ∈ l₂, ∃ p ∈ l₁, R p c := by
  induction h with
  | nil => intro c hc; exact absurd hc (List.not_mem_nil c)
  | cons hm hF ih =>
    intro c hc
    rcases List.mem_cons.mp hc with hh | hh
    · subst hh
      exact ⟨_, List.mem_cons_self _ _, hm⟩
    · obtain ⟨p, hp, hpm⟩ := ih c hh
      exact ⟨p, List.mem_cons_of_mem _ hp, hpm⟩

theorem keyImage_facts (ci : Bool) (key K : Str) (hk : PlainKey key)
    (hF : List.Forall₂ (fun p c => chMatch ci p c = true) key K) :
    K ≠ [] ∧ ∀ c ∈ K, isWs c = false ∧ c ≠ ';' := by
  obtain ⟨hne, hkc⟩ := hk
  constructor
  · intro hh
    subst hh
    exact hne (List.forall₂_nil_right_iff.mp hF)
  · intro c hc
    obtain ⟨p, hp, hm⟩ := forall₂_preimage hF c hc
    constructor
    · by_contra hcw
      rw [Bool.not_eq_false] at hcw
      exact absurd ((hkc p hp).1) (by rw [chMatch_ws hm hcw]; exact fun hh => nomatch hh)
    · intro hcs
      exact (hkc p hp).2 (chMatch_semi hm hcs)

theorem matchTail_complete (T : Str) (hT : TailDecomp T) :
    (matchTail T).isSome = true := by
  obtain ⟨A, B, C, D, rest, hTd, hAne, hA, hBne, hB, hC, hD, hle⟩ := hT
  obtain ⟨a, A1, haA⟩ : ∃ a A1, A = a :: A1 := by
    cases A with
    | nil => exact absurd rfl hAne
    | cons a A1 => exact ⟨a, A1, rfl⟩
  have hwsT : 1 ≤ wsRun T := by
    rw [hTd, haA, List.cons_append]
    exact wsRun_pos a _ (hA a (by rw [haA]; exact List.mem_cons_self a A1))
  have hABns : noSemi (A ++ B) := noSemi_append.mpr
    ⟨fun d hd => ws_ne_semi (hA d hd), hB⟩
  have hABne : 2 ≤ (A ++ B).length := by
    rw [List.length_append]
    cases A with
    | nil => exact absurd rfl hAne
    | cons a A1 =>
      cases B with
      | nil => exact absurd rfl hBne
      | cons b B1 =>
        simp only [List.length_cons]
        omega
  unfold matchTail
  rw [if_neg (by omega)]
  have hTgrp : T = (A ++ B) ++ (C ++ D ++ rest) := by
    rw [hTd]
    simp [List.append_assoc]
  rcases hC with hC | hC
  · -- no `;` consumed: the check at `t = |A ++ B|` succeeds with `q = t`
    have hfz : firstSemi T = (A ++ B).length + firstSemi (D ++ rest) := by
      rw [hTgrp, hC, List.nil_append, firstSemi_append _ _ hABns]
    have hq : ¬ (decide ((A ++ B).length = firstSemi T) &&
        decide (firstSemi T < T.length)) = true := by
      by_cases hf : firstSemi (D ++ rest) = 0
      · -- then `D ++ rest` is empty and `firstSemi T = |T|`
        have hDr : D ++ rest = [] := by
          cases D with
          | cons d D1 =>
            exfalso
            have hd : d ≠ ';' := ws_ne_semi (hD d (List.mem_cons_self d D1))
            rw [List.cons_append, firstSemi_cons, if_neg hd] at hf
            omega
          | nil =>
            cases rest with
            | nil => rfl
            | cons r R =>
              exfalso
              have hr : r ≠ ';' := isLT_ne_semi hle
              rw [List.nil_append, firstSemi_cons, if_neg hr] at hf
              omega
        have hTlen : T.length = (A ++ B).length := by
          rw [hTgrp, hC, List.nil_append, hDr, List.append_nil]
        rw [Bool.and_eq_true]
        intro ⟨_, hlt⟩
        rw [decide_eq_true_eq] at hlt
        rw [hfz, hf, hTlen] at hlt
        omega
      · rw [Bool.and_eq_true]
        intro ⟨heq, _⟩
        rw [decide_eq_true_eq] at heq
        omega
    have hdrop : T.drop ((A ++ B).length) = D ++ rest := by
      rw [hTgrp, hC, List.nil_append]
      exact List.drop_left _ _
    apply tailLoop_complete T (firstSemi T) ((A ++ B).length) (firstSemi T)
      hABne (by rw [hfz]; omega)
    rw [tailCheck_eq_neg _ _ _ hq, hdrop]
    have := lastLineEnd_isSome D rest hD hle
    cases hlle : lastLineEnd (D ++ rest) with
    | some y => rfl
    | none => rw [hlle] at this; exact nomatch this
  · -- a `;` is consumed: the check at `t = |A ++ B| = z` succeeds with `q = z + 1`
    have hTsemi : T = (A ++ B) ++ ';' :: (D ++ rest) := by
      rw [hTgrp, hC]
      rfl
    have hfz : firstSemi T = (A ++ B).length := by
      rw [hTsemi, firstSemi_append _ _ hABns, firstSemi_cons, if_pos rfl]
      omega
    have hTlen : T.length = (A ++ B).length + 1 + (D ++ rest).length := by
      rw [hTsemi]
      simp only [List.length_append, List.length_cons]
      omega
    have hq : (decide ((A ++ B).length = firstSemi T) &&
        decide (firstSemi T < T.length)) = true := by
      rw [Bool.and_eq_true, decide_eq_true_eq, decide_eq_true_eq]
      exact ⟨hfz.symm, by omega⟩
    have hdrop : T.drop (firstSemi T + 1) = D ++ rest := by
      rw [hfz, hTsemi, ← List.drop_drop 1 (A ++ B).length, List.drop_left]
      rfl
    apply tailLoop_complete T (firstSemi T) ((A ++ B).length) (firstSemi T)
      hABne (by omega)
    rw [tailCheck_eq_pos _ _ _ hq, hdrop]
    have := lastLineEnd_isSome D rest hD hle
    cases hlle : lastLineEnd (D ++ rest) with
    | some y => rfl
    | none => rw [hlle] at this; exact nomatch this

/-! ## C4 — the matcher agrees with the declarative match predicate -/

theorem attemptPlain_eq (ci : Bool) (key s : Str) :
    attemptPlain ci key s = match stripLit ci key (s.drop (wsRun s)) with
      | none => none
      | some rest =>
        match matchTail rest with
        | some x => some (wsRun s + key.length + x)
        | none => none := rfl

/-- Soundness: a successful `attemptPlain` yields a span/rest decomposition. -/
theorem attemptPlain_decomp (ci : Bool) (key s : Str) (tot : Nat)
    (h : attemptPlain ci key s = some tot) :
    ∃ i rest, s = i ++ rest ∧ SpanShape ci key i ∧ lineEndB rest = true ∧
      i.length = tot ∧ 1 ≤ tot := by
  rw [attemptPlain_eq] at h
  obtain ⟨W, r0, hsr, hWlen, hW, hr0⟩ := wsRun_decomp s
  subst hsr
  have hws : wsRun (W ++ r0) = W.length := wsRun_append W r0 hW hr0
  have hdrop : (W ++ r0).drop (wsRun (W ++ r0)) = r0 := by
    rw [hws]
    exact List.drop_left W r0
  rw [hdrop] at h
  cases hst : stripLit ci key r0 with
  | none => rw [hst] at h; exact nomatch h
  | some r =>
    rw [hst] at h
    dsimp only at h
    cases hmt : matchTail r with
    | none => rw [hmt] at h; exact nomatch h
    | some x =>
      rw [hmt] at h
      injection h with h
      obtain ⟨K, hKr, hF⟩ := stripLit_decomp ci key r0 r hst
      obtain ⟨A, B, C, D, rest, hrd, hAne, hA, hBne, hB, hC, hD, hle, hlen⟩ :=
        matchTail_decomp r x hmt
      refine ⟨W ++ K ++ A ++ B ++ C ++ D, rest, ?_, ?_, hle, ?_, ?_⟩
      · rw [hKr, hrd]
        simp [List.append_assoc]
      · exact ⟨W, K, A, B, C, D, rfl, hW, hF, hAne, hA, hBne, hB, hC, hD⟩
      · have hKlen : key.length = K.length := hF.length_eq
        simp only [List.length_append] at hlen ⊢
        rw [← h, hws]
        omega
      · have hxpos : 1 ≤ x := by
          cases A with
          | nil => exact absurd rfl hAne
          | cons a A1 =>
            simp only [List.length_append, List.length_cons] at hlen
            omega
        omega

/-- Completeness: a declarative match makes `attemptPlain` succeed. -/
theorem attemptPlain_complete (ci : Bool) (key s : Str) (hk : PlainKey key)
    (hm : AttemptP ci key s) : (attemptPlain ci key s).isSome = true := by
  obtain ⟨W, K, T, hsd, hW, hF, hT⟩ := hm
  obtain ⟨hKne, hKc⟩ := keyImage_facts ci key K hk hF
  have hws : wsRun s = W.length := by
    rw [hsd, List.append_assoc]
    apply wsRun_append W (K ++ T) hW
    intro c hc
    cases K with
    | nil => exact absurd rfl hKne
    | cons k K1 =>
      rw [List.cons_append] at hc
      injection hc with hc
      subst hc
      exact (hKc k (List.mem_cons_self k K1)).1
  have hdrop : s.drop (wsRun s) = K ++ T := by
    rw [hws, hsd, List.append_assoc]
    exact List.drop_left W (K ++ T)
  rw [attemptPlain_eq, hdrop, stripLit_complete ci key K T hF]
  dsimp only
  have := matchTail_complete T hT
  cases hmt : matchTail T with
  | some x => rfl
  | none => rw [hmt] at this; exact nomatch this

/-- The two directions combined, as used downstream: failure of the matcher
is exactly absence of a declarative match (for a plain key). -/
theorem attemptPlain_none_iff (ci : Bool) (key s : Str) (hk : PlainKey key) :
    attemptPlain ci key s = none ↔ ¬ AttemptP ci key s := by
  constructor
  · intro h hm
    have := attemptPlain_complete ci key s hk hm
    rw [h] at this
    exact nomatch this
  · intro h
    cases ha : attemptPlain ci key s with
    | none => rfl
    | some tot =>
      exfalso
      obtain ⟨i, rest, hsd, hsp, hle, _, _⟩ := attemptPlain_decomp ci key s tot ha
      obtain ⟨W, K, A, B, C, D, hid, hW, hF, hAne, hA, hBne, hB, hC, hD⟩ := hsp
      exact h ⟨W, K, A ++ B ++ C ++ D ++ rest, by rw [hsd, hid]; simp [List.append_assoc],
        hW, hF, A, B, C, D, rest, by simp [List.append_assoc], hAne, hA, hBne, hB, hC, hD, hle⟩

/-! ## C4 — elementary facts about the declarative match -/

theorem attemptP_nil_false (ci : Bool) (key : Str) (hk : PlainKey key) :
    ¬ AttemptP ci key [] := by
  intro ⟨W, K, T, hd, _, hF, _⟩
  obtain ⟨hKne, _⟩ := keyImage_facts ci key K hk hF
  cases W with
  | cons w W1 => exact nomatch hd
  | nil =>
    cases K with
    | cons k K1 => exact nomatch hd
    | nil => exact hKne rfl

/-- A whitespace character may always be moved out of a match's leading
`\s*` (for a plain key, it cannot be part of the key). -/
theorem attemptP_of_ws_cons (ci : Bool) (key : Str) (c : Char) (v : Str)
    (hk : PlainKey key) (hc : isWs c = true)
    (h : AttemptP ci key (c :: v)) : AttemptP ci key v := by
  obtain ⟨W, K, T, hd, hW, hF, hT⟩ := h
  cases W with
  | cons w W1 =>
    rw [List.cons_append, List.cons_append] at hd
    injection hd with _ hd
    exact ⟨W1, K, T, hd, fun d hdm => hW d (List.mem_cons_of_mem w hdm), hF, hT⟩
  | nil =>
    exfalso
    obtain ⟨_, hKc⟩ := keyImage_facts ci key K hk hF
    cases K with
    | nil =>
      obtain ⟨hne, _⟩ := hk
      exact hne (List.forall₂_nil_right_iff.mp hF)
    | cons k K1 =>
      rw [List.nil_append, List.cons_append] at hd
      injection hd with hk1 _
      have := (hKc k (List.mem_cons_self k K1)).1
      rw [← hk1, hc] at this
      exact nomatch this

/-- Conversely, whitespace may be prepended to a match. -/
theorem attemptP_ws_cons (ci : Bool) (key : Str) (c : Char) (v : Str)
    (hc : isWs c = true) (h : AttemptP ci key v) : AttemptP ci key (c :: v) := by
  obtain ⟨W, K, T, hd, hW, hF, hT⟩ := h
  exact ⟨c :: W, K, T, by rw [hd]; rfl, allWs_cons.mpr ⟨hc, hW⟩, hF, hT⟩

/-- Trailing whitespace may be appended to a match (the final `\s*` or the
line-end remainder absorbs it). -/
theorem attemptP_append_ws (ci : Bool) (key : Str) (v z : Str)
    (hz : allWs z) (h : AttemptP ci key v) : AttemptP ci key (v ++ z) := by
  obtain ⟨W, K, T, hd, hW, hF, hT⟩ := h
  obtain ⟨A, B, C, D, rest, hTd, hAne, hA, hBne, hB, hC, hD, hle⟩ := hT
  cases rest with
  | cons r R =>
    refine ⟨W, K, T ++ z, by rw [hd]; simp [List.append_assoc], hW, hF,
      A, B, C, D, (r :: R) ++ z, by rw [hTd]; simp [List.append_assoc],
      hAne, hA, hBne, hB, hC, hD, hle⟩
  | nil =>
    refine ⟨W, K, T ++ z, by rw [hd]; simp [List.append_assoc], hW, hF,
      A, B, C, D ++ z, [], by rw [hTd]; simp [List.append_assoc],
      hAne, hA, hBne, hB, hC, allWs_append.mpr ⟨hD, hz⟩, rfl⟩

theorem append_split {α : Type} (x y P Q : List α) (h : x ++ y = P ++ Q) :
    (∃ q, x = P ++ q ∧ Q = q ++ y) ∨ (∃ p, P = x ++ p ∧ y = p ++ Q) := by
  rcases List.append_eq_append_iff.mp h with ⟨a, ha1, ha2⟩ | ⟨c, hc1, hc2⟩
  · exact Or.inr ⟨a, ha1, ha2⟩
  · exact Or.inl ⟨c, hc1, hc2⟩

theorem forall₂_split {R : Char → Char → Prop} (l a b : Str)
    (h : List.Forall₂ R l (a ++ b)) :
    ∃ l1 l2, l = l1 ++ l2 ∧ List.Forall₂ R l1 a ∧ List.Forall₂ R l2 b := by
  induction a generalizing l with
  | nil => exact ⟨[], l, rfl, List.Forall₂.nil, h⟩
  | cons c a ih =>
    cases h with
    | cons hm hF =>
      rename_i p l'
      obtain ⟨l1, l2, hl, h1, h2⟩ := ih l' hF
      exact ⟨p :: l1, l2, by rw [hl]; rfl, List.Forall₂.cons hm h1, h2⟩

/-! ## C4 — locating a boundary inside a match: the splitting lemma.

A match of the full pattern against `x ++ y` either lies entirely within `x`
(with only its final line-end test possibly looking at `y`), or the boundary
falls inside one of the pattern's components; the disjuncts list, in order:
within-`x`, inside the leading `\s*`, inside the key, inside `\s+`, inside
`[^;]+` (with the whole of `\s+` consumed), after the `;` (inside the final
`\s*`). -/
theorem splitMatch (ci : Bool) (key x y : Str)
    (h : AttemptP ci key (x ++ y)) :
    (∃ W K A B C D r1, x = W ++ K ++ A ++ B ++ C ++ D ++ r1 ∧ allWs W ∧
      List.Forall₂ (fun p c => chMatch ci p c = true) key K ∧
      A ≠ [] ∧ allWs A ∧ B ≠ [] ∧ noSemi B ∧ (C = [] ∨ C = [';']) ∧ allWs D ∧
      lineEndB (r1 ++ y) = true) ∨
    (allWs x ∧ AttemptP ci key y) ∨
    (∃ W K1 k1 k2 K2 T, x = W ++ K1 ∧ allWs W ∧ key = k1 ++ k2 ∧ k2 ≠ [] ∧
      List.Forall₂ (fun p c => chMatch ci p c = true) k1 K1 ∧
      y = K2 ++ T ∧ List.Forall₂ (fun p c => chMatch ci p c = true) k2 K2 ∧
      TailDecomp T) ∨
    (∃ W K A1 A2 B C D rest, x = W ++ K ++ A1 ∧ allWs W ∧
      List.Forall₂ (fun p c => chMatch ci p c = true) key K ∧ allWs A1 ∧
      y = A2 ++ B ++ C ++ D ++ rest ∧ allWs A2 ∧ A1 ++ A2 ≠ [] ∧
      B ≠ [] ∧ noSemi B ∧ (C = [] ∨ C = [';']) ∧ allWs D ∧
      lineEndB rest = true) ∨
    (∃ W K A B1 B2 C D rest, x = W ++ K ++ A ++ B1 ∧ allWs W ∧
      List.Forall₂ (fun p c => chMatch ci p c = true) key K ∧
      A ≠ [] ∧ allWs A ∧ noSemi B1 ∧
      y = B2 ++ C ++ D ++ rest ∧ noSemi B2 ∧ B1 ++ B2 ≠ [] ∧
      (C = [] ∨ C = [';']) ∧ allWs D ∧ lineEndB rest = true) ∨
    (∃ W K A B D1 D2 rest, x = W ++ K ++ A ++ B ++ [';'] ++ D1 ∧ allWs W ∧
      List.Forall₂ (fun p c => chMatch ci p c = true) key K ∧
      A ≠ [] ∧ allWs A ∧ B ≠ [] ∧ noSemi B ∧ allWs D1 ∧
      y = D2 ++ rest ∧ allWs D2 ∧ lineEndB rest = true) := by
  obtain ⟨W, K, T, hxy, hW, hF, hT⟩ := h
  obtain ⟨A, B, C, D, rest, hTd, hAne, hA, hBne, hB, hC, hD, hle⟩ := hT
  have hxy1 : x ++ y = W ++ (K ++ T) := by rw [hxy]; simp [List.append_assoc]
  rcases append_split x y W (K ++ T) hxy1 with ⟨q, hx, hKT⟩ | ⟨p, hWp, hyp⟩
  · -- `x` reaches past `W`
    have hq : q ++ y = K ++ T := hKT.symm
    rcases append_split q y K T hq with ⟨q2, hq2, hTy⟩ | ⟨p2, hKp, hyT⟩
    · -- `x` reaches past the key
      have hTy1 : q2 ++ y = A ++ (B ++ C ++ D ++ rest) := by
        rw [← hTy, hTd]; simp [List.append_assoc]
      rcases append_split q2 y A (B ++ C ++ D ++ rest) hTy1 with
        ⟨q3, hq3, hBy⟩ | ⟨p3, hAp, hyA⟩
      · -- `x` reaches past `\s+`
        have hBy1 : q3 ++ y = B ++ (C ++ D ++ rest) := by
          rw [← hBy]; simp [List.append_assoc]
        rcases append_split q3 y B (C ++ D ++ rest) hBy1 with
          ⟨q4, hq4, hCy⟩ | ⟨p4, hBp, hyB⟩
        · -- `x` reaches past `[^;]+`
          rcases hC with hCnil | hCsemi
          · -- no `;`: the boundary is inside `\s*` or inside the remainder
            have hDy1 : q4 ++ y = D ++ rest := by
              rw [← hCy, hCnil]; rfl
            rcases append_split q4 y D rest hDy1 with
              ⟨q5, hq5, hry⟩ | ⟨p5, hDp, hyD⟩
            · -- inside the remainder: the match is within `x`
              refine Or.inl ⟨W, K, A, B, [], D, q5, ?_, hW, hF, hAne, hA, hBne,
                hB, Or.inl rfl, hD, ?_⟩
              · rw [hx, hq2, hq3, hq4, hq5]; simp [List.append_assoc]
              · rw [← hry]; exact hle
            · -- inside the final `\s*` (no `;`): absorb into the `[^;]+` state
              have hA' : ∀ d ∈ q4, isWs d = true := fun d hd =>
                hD d (by rw [hDp]; exact List.mem_append_left _ hd)
              refine Or.inr (Or.inr (Or.inr (Or.inr (Or.inl
                ⟨W, K, A, B ++ q4, [], [], p5, rest, ?_, hW, hF, hAne, hA, ?_,
                  ?_, noSemi_nil, ?_, Or.inl rfl, ?_, hle⟩))))
              · rw [hx, hq2, hq3, hq4]; simp [List.append_assoc]
              · exact noSemi_append.mpr ⟨hB, fun d hd =>
                  ws_ne_semi (hA' d hd)⟩
              · rw [hyD]; simp [List.append_assoc]
              · intro hh
                rw [List.append_nil] at hh
                exact hBne (by
                  have := congrArg List.length hh
                  rw [List.length_append, List.length_nil] at this
                  cases B with
                  | nil => rfl
                  | cons b B1 => simp at this)
              · exact fun d hd => hD d (by rw [hDp]; exact List.mem_append_right _ hd)
          · -- a `;` is present right after `[^;]+`
            subst hCsemi
            cases q4 with
            | nil =>
              -- the boundary is exactly before the `;`
              refine Or.inr (Or.inr (Or.inr (Or.inr (Or.inl
                ⟨W, K, A, B, [], [';'], D, rest, ?_, hW, hF, hAne, hA, hB,
                  ?_, noSemi_nil, ?_, Or.inr rfl, hD, hle⟩))))
              · rw [hx, hq2, hq3, hq4, List.append_nil]; simp [List.append_assoc]
              · rw [List.nil_append] at hCy
                rw [← hCy]
                simp
              · intro hh
                rw [List.append_nil] at hh
                exact hBne hh
            | cons c4 q5 =>
              have hCy2 : (';' :: (D ++ rest) : Str) = c4 :: (q5 ++ y) := by
                simpa using hCy
              injection hCy2 with hc4 hDy2
              have hDy3 : q5 ++ y = D ++ rest := hDy2.symm
              rcases append_split q5 y D rest hDy3 with
                ⟨q6, hq6, hry⟩ | ⟨p6, hDp, hyD⟩
              · -- inside the remainder, past the `;`
                refine Or.inl ⟨W, K, A, B, [';'], D, q6, ?_, hW, hF, hAne, hA,
                  hBne, hB, Or.inr rfl, hD, ?_⟩
                · rw [hx, hq2, hq3, hq4, ← hc4, hq6]; simp [List.append_assoc]
                · rw [← hry]; exact hle
              · -- inside the final `\s*`, past the `;`
                refine Or.inr (Or.inr (Or.inr (Or.inr (Or.inr
                  ⟨W, K, A, B, q5, p6, rest, ?_, hW, hF, hAne, hA, hBne, hB,
                    ?_, hyD, ?_, hle⟩))))
                · rw [hx, hq2, hq3, hq4, ← hc4]; simp [List.append_assoc]
                · exact fun d hd => hD d (by rw [hDp]; exact List.mem_append_left _ hd)
                · exact fun d hd => hD d (by rw [hDp]; exact List.mem_append_right _ hd)
        · -- the boundary is inside `[^;]+`
          refine Or.inr (Or.inr (Or.inr (Or.inr (Or.inl
            ⟨W, K, A, q3, p4, C, D, rest, ?_, hW, hF, hAne, hA,
              ?_, ?_, ?_, ?_, hC, hD, hle⟩))))
          · rw [hx, hq2, hq3]; simp [List.append_assoc]
          · exact fun d hd => hB d (by rw [hBp]; exact List.mem_append_left _ hd)
          · rw [hyB]; simp [List.append_assoc]
          · exact fun d hd => hB d (by rw [hBp]; exact List.mem_append_right _ hd)
          · rw [← hBp]; exact hBne
      · -- the boundary is inside `\s+`
        refine Or.inr (Or.inr (Or.inr (Or.inl
          ⟨W, K, q2, p3, B, C, D, rest, ?_, hW, hF,
            ?_, ?_, ?_, ?_, hBne, hB, hC, hD, hle⟩)))
        · rw [hx, hq2]; simp [List.append_assoc]
        · exact fun d hd => hA d (by rw [hAp]; exact List.mem_append_left _ hd)
        · rw [hyA]; simp [List.append_assoc]
        · exact fun d hd => hA d (by rw [hAp]; exact List.mem_append_right _ hd)
        · rw [← hAp]; exact hAne
    · -- the boundary is inside the key (or exactly at its end)
      obtain ⟨k1, k2, hkey, hF1, hF2⟩ := forall₂_split key q p2 (by rw [← hKp]; exact hF)
      by_cases hk2 : k2 = []
      · -- the key ends exactly at the boundary
        subst hk2
        have hp2 : p2 = [] := List.forall₂_nil_left_iff.mp hF2
        subst hp2
        refine Or.inr (Or.inr (Or.inr (Or.inl
          ⟨W, q, [], A, B, C, D, rest, ?_, hW, ?_, allWs_nil,
            ?_, hA, ?_, hBne, hB, hC, hD, hle⟩)))
        · rw [hx, List.append_nil]
        · rw [hkey, List.append_nil]; exact hF1
        · rw [List.nil_append] at hyT; rw [hyT, hTd]
        · rw [List.nil_append]; exact hAne
      · refine Or.inr (Or.inr (Or.inl
          ⟨W, q, k1, k2, p2, T, hx, hW, hkey, hk2, hF1, hyT, hF2,
            A, B, C, D, rest, hTd, hAne, hA, hBne, hB, hC, hD, hle⟩))
  · -- `x` lies inside the leading `\s*`
    refine Or.inr (Or.inl ⟨?_, p, K, T, by rw [hyp]; simp [List.append_assoc], ?_, hF,
      A, B, C, D, rest, hTd, hAne, hA, hBne, hB, hC, hD, hle⟩)
    · intro d hd
      exact hW d (by rw [hWp]; exact List.mem_append_left _ hd)
    · intro d hd
      exact hW d (by rw [hWp]; exact List.mem_append_right _ hd)

/-! ## C4 — inserting whitespace or a whole span at a line-start boundary
preserves matchability -/

theorem split_last {α : Type} (P Q x' : List α) (d : α)
    (h : x' ++ [d] = P ++ Q) (hQ : Q ≠ []) : ∃ Q', Q = Q' ++ [d] := by
  induction P generalizing x' with
  | nil => exact ⟨x', by rw [List.nil_append] at h; exact h.symm⟩
  | cons p P1 ih =>
    cases x' with
    | nil =>
      rw [List.nil_append, List.cons_append] at h
      injection h with _ h
      cases P1 with
      | cons _ _ => exact nomatch h
      | nil =>
        rw [List.nil_append] at h
        exact absurd h.symm hQ
    | cons e x1 =>
      rw [List.cons_append, List.cons_append] at h
      injection h with _ h
      exact ih x1 h

/-- For a plain key, the image of any part of the key contains no whitespace
(so in particular no line terminator) and no `;`. -/
theorem keyPart_facts (ci : Bool) (key k1 k2 K1 : Str) (hk : PlainKey key)
    (hkey : key = k1 ++ k2)
    (hF : List.Forall₂ (fun p c => chMatch ci p c = true) k1 K1) :
    ∀ c ∈ K1, isWs c = false ∧ c ≠ ';' := by
  intro c hc
  obtain ⟨p, hp, hm⟩ := forall₂_preimage hF c hc
  have hpk : p ∈ key := by
    rw [hkey]
    exact List.mem_append_left _ hp
  obtain ⟨_, hkc⟩ := hk
  constructor
  · by_contra hcw
    rw [Bool.not_eq_false] at hcw
    exact absurd ((hkc p hpk).1) (by rw [chMatch_ws hm hcw]; exact fun hh => nomatch hh)
  · intro hcs
    exact (hkc p hpk).2 (chMatch_semi hm hcs)

/-- Inserting a single whitespace character at a line-start boundary inside a
matched text preserves the match. -/
theorem attemptP_insert_ws (ci : Bool) (key x y : Str) (c : Char)
    (hk : PlainKey key) (hb : LineStartish true x) (hc : isWs c = true)
    (h : AttemptP ci key (x ++ y)) : AttemptP ci key (x ++ c :: y) := by
  rcases splitMatch ci key x y h with
    ⟨W, K, A, B, C, D, r1, hx, hW, hF, hAne, hA, hBne, hB, hC, hD, hle⟩ |
    ⟨hxw, hy⟩ |
    ⟨W, K1, k1, k2, K2, T, hx, hW, hkey, hk2, hF1, hy, hF2, hT⟩ |
    ⟨W, K, A1, A2, B, C, D, rest, hx, hW, hF, hA1, hy, hA2, hAne, hBne, hB, hC, hD, hle⟩ |
    ⟨W, K, A, B1, B2, C, D, rest, hx, hW, hF, hAne, hA, hB1, hy, hB2, hBne, hC, hD, hle⟩ |
    ⟨W, K, A, B, D1, D2, rest, hx, hW, hF, hAne, hA, hBne, hB, hD1, hy, hD2, hle⟩
  · -- match within `x`
    cases r1 with
    | cons d r1' =>
      refine ⟨W, K, A ++ B ++ C ++ D ++ ((d :: r1') ++ c :: y), by
          rw [hx]; simp [List.append_assoc], hW, hF,
        A, B, C, D, (d :: r1') ++ c :: y, by simp [List.append_assoc],
        hAne, hA, hBne, hB, hC, hD, hle⟩
    | nil =>
      rw [List.nil_append] at hle
      refine ⟨W, K, A ++ B ++ C ++ (D ++ [c]) ++ y, by
          rw [hx]; simp [List.append_assoc], hW, hF,
        A, B, C, D ++ [c], y, by simp [List.append_assoc],
        hAne, hA, hBne, hB, hC, allWs_append.mpr ⟨hD, allWs_cons.mpr ⟨hc, allWs_nil⟩⟩, hle⟩
  · -- `x` inside the leading whitespace
    obtain ⟨W2, K, T, hyd, hW2, hF, hT⟩ := hy
    exact ⟨x ++ c :: W2, K, T, by rw [hyd]; simp [List.append_assoc],
      allWs_append.mpr ⟨hxw, allWs_cons.mpr ⟨hc, hW2⟩⟩, hF, hT⟩
  · -- boundary inside the key: `K1` must be empty, else the boundary's line
    -- terminator would be a key character
    cases hK1 : K1 with
    | cons k K1' =>
      exfalso
      rcases hb with ⟨hxnil, _⟩ | ⟨x', d, hxd, hdlt⟩
      · rw [hxnil, hK1] at hx
        cases W with
        | nil => exact nomatch hx
        | cons _ _ => exact nomatch hx
      · rw [hK1] at hx
        obtain ⟨K1'', hK1d⟩ := split_last W (k :: K1') x' d (by rw [← hxd, ← hx])
          (fun hh => nomatch hh)
        have hdK : d ∈ K1 := by
          rw [hK1, hK1d]
          exact List.mem_append_right _ (List.mem_cons_self d [])
        have := (keyPart_facts ci key k1 k2 K1 hk hkey hF1 d hdK).1
        rw [isLT_isWs d hdlt] at this
        exact nomatch this
    | nil =>
      have hk1 : k1 = [] := by
        rw [hK1] at hF1
        exact List.forall₂_nil_right_iff.mp hF1
      have hkeyk2 : key = k2 := by rw [hkey, hk1]; rfl
      rw [hK1, List.append_nil] at hx
      exact ⟨x ++ [c], K2, T, by rw [hy]; simp [List.append_assoc],
        allWs_append.mpr ⟨by rw [hx]; exact hW, allWs_cons.mpr ⟨hc, allWs_nil⟩⟩,
        by rw [hkeyk2]; exact hF2, hT⟩
  · -- boundary inside `\s+`
    refine ⟨W, K, (A1 ++ c :: A2) ++ B ++ C ++ D ++ rest, by
        rw [hx, hy]; simp [List.append_assoc], hW, hF,
      A1 ++ c :: A2, B, C, D, rest, by simp [List.append_assoc],
      by simp, allWs_append.mpr ⟨hA1, allWs_cons.mpr ⟨hc, hA2⟩⟩,
      hBne, hB, hC, hD, hle⟩
  · -- boundary inside `[^;]+`
    refine ⟨W, K, A ++ (B1 ++ c :: B2) ++ C ++ D ++ rest, by
        rw [hx, hy]; simp [List.append_assoc], hW, hF,
      A, B1 ++ c :: B2, C, D, rest, by simp [List.append_assoc],
      hAne, hA, by simp, noSemi_append.mpr ⟨hB1, noSemi_cons.mpr ⟨ws_ne_semi hc, hB2⟩⟩,
      hC, hD, hle⟩
  · -- boundary inside the final `\s*`, past the `;`
    refine ⟨W, K, A ++ B ++ [';'] ++ (D1 ++ c :: D2) ++ rest, by
        rw [hx, hy]; simp [List.append_assoc], hW, hF,
      A, B, [';'], D1 ++ c :: D2, rest, by simp [List.append_assoc],
      hAne, hA, hBne, hB, Or.inr rfl,
      allWs_append.mpr ⟨hD1, allWs_cons.mpr ⟨hc, hD2⟩⟩, hle⟩

/-! ## C4 — reinserting a removed span at a line-start boundary preserves
matchability (the span ends at a line end and, at worst, its own key starts a
fresh `[^;]+` stretch of the surrounding match) -/

theorem attemptP_insert_span (ci : Bool) (key x y i : Str)
    (hk : PlainKey key) (hb : LineStartish true x)
    (hsp : SpanShape ci key i) (hley : lineEndB y = true)
    (h : AttemptP ci key (x ++ y)) : AttemptP ci key (x ++ (i ++ y)) := by
  obtain ⟨Ws, Ks, As, Bs, Cs, Ds, hi, hWs, hFs, hAsne, hAs, hBsne, hBs, hCs, hDs⟩ := hsp
  have hKsfacts := keyImage_facts ci key Ks hk hFs
  have hKsne : Ks ≠ [] := hKsfacts.1
  have hKsc : ∀ c ∈ Ks, isWs c = false ∧ c ≠ ';' := hKsfacts.2
  have hBBne : Ks ++ As ++ Bs ≠ [] := by
    intro hh
    exact hKsne (List.append_eq_nil.mp (List.append_eq_nil.mp hh).1).1
  have hBBns : noSemi (Ks ++ As ++ Bs) := noSemi_append.mpr
    ⟨noSemi_append.mpr ⟨fun d hd => (hKsc d hd).2, fun d hd => ws_ne_semi (hAs d hd)⟩, hBs⟩
  rcases splitMatch ci key x y h with
    ⟨W, K, A, B, C, D, r1, hx, hW, hF, hAne, hA, hBne, hB, hC, hD, hle⟩ |
    ⟨hxw, _⟩ |
    ⟨W, K1, k1, k2, K2, T, hx, hW, hkey, hk2, hF1, hy, hF2, hT⟩ |
    ⟨W, K, A1, A2, B, C, D, rest, hx, hW, hF, hA1, hy, hA2, hAne, hBne, hB, hC, hD, hle⟩ |
    ⟨W, K, A, B1, B2, C, D, rest, hx, hW, hF, hAne, hA, hB1, hy, hB2, hBne, hC, hD, hle⟩ |
    ⟨W, K, A, B, D1, D2, rest, hx, hW, hF, hAne, hA, hBne, hB, hD1, hy, hD2, hle⟩
  · -- match within `x`
    cases r1 with
    | cons d r1' =>
      refine ⟨W, K, A ++ B ++ C ++ D ++ ((d :: r1') ++ (i ++ y)), by
          rw [hx]; simp [List.append_assoc], hW, hF,
        A, B, C, D, (d :: r1') ++ (i ++ y), by simp [List.append_assoc],
        hAne, hA, hBne, hB, hC, hD, hle⟩
    | nil =>
      rw [List.nil_append] at hle
      rw [List.append_nil] at hx
      rcases hb with ⟨hxnil, _⟩ | ⟨x', d, hxd, hdlt⟩
      · exfalso
        have h0 : (0 : Nat) = (W ++ K ++ A ++ B ++ C ++ D).length := by
          rw [← hx, hxnil]; rfl
        simp only [List.length_append] at h0
        have hBpos := List.length_pos.mpr hBne
        omega
      · cases D with
        | cons d0 D0 =>
          obtain ⟨D', hDd⟩ := split_last (W ++ K ++ A ++ B ++ C) (d0 :: D0) x' d
            (by rw [← hxd, hx]; try simp [List.append_assoc]) (List.cons_ne_nil d0 D0)
          have hD' : allWs D' := (allWs_append.mp (by rw [← hDd]; exact hD)).1
          refine ⟨W, K, A ++ B ++ C ++ D' ++ (d :: (i ++ y)), by
              rw [hx, hDd]; simp [List.append_assoc], hW, hF,
            A, B, C, D', d :: (i ++ y), by simp [List.append_assoc],
            hAne, hA, hBne, hB, hC, hD', hdlt⟩
        | nil =>
          rw [List.append_nil] at hx
          rcases hC with hCnil | hCsemi
          · subst hCnil
            rw [List.append_nil] at hx
            obtain ⟨B', hBd⟩ := split_last (W ++ K ++ A) B x' d
              (by rw [← hxd, hx]; try simp [List.append_assoc]) hBne
            cases B' with
            | cons b0 B0 =>
              have hB'ns : noSemi (b0 :: B0) := (noSemi_append.mp (by rw [← hBd]; exact hB)).1
              refine ⟨W, K, A ++ (b0 :: B0) ++ [] ++ [] ++ (d :: (i ++ y)), by
                  rw [hx, hBd]; simp [List.append_assoc], hW, hF,
                A, b0 :: B0, [], [], d :: (i ++ y), by simp [List.append_assoc],
                hAne, hA, List.cons_ne_nil b0 B0, hB'ns,
                Or.inl rfl, allWs_nil, hdlt⟩
            | nil =>
              rw [List.nil_append] at hBd
              refine ⟨W, K, (A ++ d :: Ws) ++ (Ks ++ As ++ Bs) ++ Cs ++ Ds ++ y, by
                  rw [hx, hBd, hi]; simp [List.append_assoc], hW, hF,
                A ++ d :: Ws, Ks ++ As ++ Bs, Cs, Ds, y, by simp [List.append_assoc],
                by simp, allWs_append.mpr ⟨hA, allWs_cons.mpr ⟨isLT_isWs d hdlt, hWs⟩⟩,
                hBBne, hBBns, hCs, hDs, hley⟩
          · subst hCsemi
            exfalso
            obtain ⟨C', hCd⟩ := split_last (W ++ K ++ A ++ B) [';'] x' d
              (by rw [← hxd, hx]; try simp [List.append_assoc]) (fun hh => nomatch hh)
            cases C' with
            | cons c1 C1 =>
              have := congrArg List.length hCd
              simp only [List.length_append, List.length_cons, List.length_nil] at this
              omega
            | nil =>
              rw [List.nil_append] at hCd
              injection hCd with hCd
              rw [← hCd] at hdlt
              exact absurd hdlt (by decide)
  · -- `x` inside the leading whitespace: the span itself is the new match
    exact ⟨x ++ Ws, Ks, As ++ Bs ++ Cs ++ Ds ++ y, by
        rw [hi]; simp [List.append_assoc],
      allWs_append.mpr ⟨hxw, hWs⟩, hFs,
      As, Bs, Cs, Ds, y, by simp [List.append_assoc],
      hAsne, hAs, hBsne, hBs, hCs, hDs, hley⟩
  · -- boundary inside the key
    cases hK1 : K1 with
    | cons k K1' =>
      exfalso
      rcases hb with ⟨hxnil, _⟩ | ⟨x', d, hxd, hdlt⟩
      · rw [hxnil, hK1] at hx
        cases W with
        | nil => exact nomatch hx
        | cons _ _ => exact nomatch hx
      · rw [hK1] at hx
        obtain ⟨K1'', hK1d⟩ := split_last W (k :: K1') x' d (by rw [← hxd, ← hx])
          (fun hh => nomatch hh)
        have hdK : d ∈ K1 := by
          rw [hK1, hK1d]
          exact List.mem_append_right _ (List.mem_cons_self d [])
        have := (keyPart_facts ci key k1 k2 K1 hk hkey hF1 d hdK).1
        rw [isLT_isWs d hdlt] at this
        exact nomatch this
    | nil =>
      rw [hK1, List.append_nil] at hx
      exact ⟨x ++ Ws, Ks, As ++ Bs ++ Cs ++ Ds ++ y, by
          rw [hi]; simp [List.append_assoc],
        allWs_append.mpr ⟨by rw [hx]; exact hW, hWs⟩, hFs,
        As, Bs, Cs, Ds, y, by simp [List.append_assoc],
        hAsne, hAs, hBsne, hBs, hCs, hDs, hley⟩
  · -- boundary inside `\s+`
    cases A1 with
    | nil =>
      exfalso
      have hKfacts := keyImage_facts ci key K hk hF
      rw [List.append_nil] at hx
      rcases hb with ⟨hxnil, _⟩ | ⟨x', d, hxd, hdlt⟩
      · rw [hxnil] at hx
        have h0 : (0 : Nat) = (W ++ K).length := by rw [← hx]; rfl
        simp only [List.length_append] at h0
        have := List.length_pos.mpr hKfacts.1
        omega
      · obtain ⟨K', hKd⟩ := split_last W K x' d (by rw [← hxd, hx]) hKfacts.1
        have hdK : d ∈ K := by
          rw [hKd]
          exact List.mem_append_right _ (List.mem_cons_self d [])
        have := (hKfacts.2 d hdK).1
        rw [isLT_isWs d hdlt] at this
        exact nomatch this
    | cons a A1' =>
      refine ⟨W, K, ((a :: A1') ++ Ws) ++ (Ks ++ As ++ Bs) ++ Cs ++ Ds ++ y, by
          rw [hx, hi]; simp [List.append_assoc], hW, hF,
        (a :: A1') ++ Ws, Ks ++ As ++ Bs, Cs, Ds, y, by simp [List.append_assoc],
        List.cons_ne_nil a (A1' ++ Ws),
        allWs_append.mpr ⟨hA1, hWs⟩, hBBne, hBBns, hCs, hDs, hley⟩
  · -- boundary inside `[^;]+`
    refine ⟨W, K, A ++ (B1 ++ Ws ++ (Ks ++ As ++ Bs)) ++ Cs ++ Ds ++ y, by
        rw [hx, hi]; simp [List.append_assoc], hW, hF,
      A, B1 ++ Ws ++ (Ks ++ As ++ Bs), Cs, Ds, y, by simp [List.append_assoc],
      hAne, hA, ?_, ?_, hCs, hDs, hley⟩
    · intro hh
      exact hBBne (List.append_eq_nil.mp hh).2
    · exact noSemi_append.mpr ⟨noSemi_append.mpr
        ⟨hB1, fun d hd => ws_ne_semi (hWs d hd)⟩, hBBns⟩
  · -- boundary inside the final `\s*`, past the `;`
    rcases hb with ⟨hxnil, _⟩ | ⟨x', d, hxd, hdlt⟩
    · exfalso
      rw [hxnil] at hx
      have h0 : (0 : Nat) = (W ++ K ++ A ++ B ++ [';'] ++ D1).length := by
        rw [← hx]; rfl
      simp only [List.length_append, List.length_cons, List.length_nil] at h0
      omega
    · cases D1 with
      | cons d0 D0 =>
        obtain ⟨D', hDd⟩ := split_last (W ++ K ++ A ++ B ++ [';']) (d0 :: D0) x' d
          (by rw [← hxd, hx]; try simp [List.append_assoc]) (List.cons_ne_nil d0 D0)
        have hD' : allWs D' := (allWs_append.mp (by rw [← hDd]; exact hD1)).1
        refine ⟨W, K, A ++ B ++ [';'] ++ D' ++ (d :: (i ++ y)), by
            rw [hx, hDd]; simp [List.append_assoc], hW, hF,
          A, B, [';'], D', d :: (i ++ y), by simp [List.append_assoc],
          hAne, hA, hBne, hB, Or.inr rfl, hD', hdlt⟩
      | nil =>
        exfalso
        rw [List.append_nil] at hx
        obtain ⟨C', hCd⟩ := split_last (W ++ K ++ A ++ B) [';'] x' d
          (by rw [← hxd, hx]; try simp [List.append_assoc]) (fun hh => nomatch hh)
        cases C' with
        | cons c1 C1 =>
          have := congrArg List.length hCd
          simp only [List.length_append, List.length_cons, List.length_nil] at this
          omega
        | nil =>
          rw [List.nil_append] at hCd
          injection hCd with hCd
          rw [← hCd] at hdlt
          exact absurd hdlt (by decide)

/-! ## C4 — no line start of a scan's output carries a match -/

theorem scan_stitch (ci : Bool) (key : Str) (hk : PlainKey key) {b : Bool}
    {s w : Str} (hsc : Scan ci key b s w) :
    ∀ x, (b = true → LineStartish true x) →
      AttemptP ci key (x ++ w) → AttemptP ci key (x ++ s) := by
  induction hsc with
  | nil b =>
    intro x _ h
    exact h
  | copy b c s' w' htest hsc' ih =>
    intro x hbx h
    have h2 : AttemptP ci key ((x ++ [c]) ++ w') := by
      simpa [List.append_assoc] using h
    have h3 := ih (x ++ [c]) (fun hlt => Or.inr ⟨x, c, rfl, hlt⟩) h2
    simpa [List.append_assoc] using h3
  | span i' c rest w hshape hle hsc' ih =>
    intro x hbx h
    have hx := hbx rfl
    have h2 := ih x (fun _ => hx) h
    have h3 := attemptP_insert_span ci key x rest (i' ++ [c]) hk hx hshape hle h2
    simpa [List.append_assoc] using h3

theorem scan_noMatch_head (ci : Bool) (key : Str) (hk : PlainKey key) {b : Bool}
    {s w : Str} (hsc : Scan ci key b s w) :
    (b = true ∨ lineEndB s = true) → ¬ AttemptP ci key w := by
  induction hsc with
  | nil b =>
    intro _ h
    exact attemptP_nil_false ci key hk h
  | copy b c s' w' htest hsc' ih =>
    intro hbl h
    rcases hbl with hb | hl
    · apply htest hb
      have h2 : AttemptP ci key ([c] ++ w') := h
      have h3 := scan_stitch ci key hk hsc' [c]
        (fun hlt => Or.inr ⟨[], c, rfl, hlt⟩) h2
      exact h3
    · have hlt : isLT c = true := hl
      have h' : AttemptP ci key w' :=
        attemptP_of_ws_cons ci key c w' hk (isLT_isWs c hlt) h
      exact ih (Or.inl hlt) h'
  | span i' c rest w hshape hle hsc' ih =>
    intro _ h
    exact ih (Or.inr hle) h

theorem scan_noMatch (ci : Bool) (key : Str) (hk : PlainKey key) {b : Bool}
    {s w : Str} (hsc : Scan ci key b s w) : NoMatch ci key b w := by
  induction hsc with
  | nil b =>
    intro u v huv hls h
    have hv : v = [] := (List.append_eq_nil.mp huv.symm).2
    rw [hv] at h
    exact attemptP_nil_false ci key hk h
  | copy b c s' w' htest hsc' ih =>
    intro u v huv hls h
    cases u with
    | nil =>
      rcases hls with ⟨_, hb⟩ | ⟨u', d, hud, _⟩
      · rw [List.nil_append] at huv
        rw [← huv] at h
        exact scan_noMatch_head ci key hk (Scan.copy b c s' w' htest hsc')
          (Or.inl hb) h
      · exact absurd (List.append_eq_nil.mp hud.symm).2 (List.cons_ne_nil d [])
    | cons u0 u' =>
      rw [List.cons_append] at huv
      injection huv with h1 h2
      apply ih u' v h2 ?_ h
      rcases hls with ⟨heq, _⟩ | ⟨p, d, hpd, hdlt⟩
      · exact nomatch heq
      · cases u' with
        | nil =>
          have hd0 : d = u0 := by
            cases p with
            | nil =>
              injection hpd with hh _
              exact hh.symm
            | cons p0 p1 =>
              rw [List.cons_append] at hpd
              injection hpd with _ hh
              exact absurd hh.symm (by
                intro hc
                exact absurd (List.append_eq_nil.mp hc).2 (List.cons_ne_nil d []))
          refine Or.inl ⟨rfl, ?_⟩
          rw [h1, ← hd0]
          exact hdlt
        | cons u1 u2 =>
          obtain ⟨p', hp'⟩ := split_last [u0] (u1 :: u2) p d
            (by rw [← hpd]; rfl) (List.cons_ne_nil u1 u2)
          exact Or.inr ⟨p', d, hp', hdlt⟩
  | span i' c rest w hshape hle hsc' ih =>
    intro u v huv hls h
    cases u with
    | nil =>
      rcases hls with ⟨_, hb⟩ | ⟨u', d, hud, _⟩
      · rw [List.nil_append] at huv
        rw [← huv] at h
        exact scan_noMatch_head ci key hk
          (Scan.span i' c rest w hshape hle hsc') (Or.inl rfl) h
      · exact absurd (List.append_eq_nil.mp hud.symm).2 (List.cons_ne_nil d [])
    | cons u0 u' =>
      apply ih (u0 :: u') v huv ?_ h
      rcases hls with ⟨heq, _⟩ | ⟨p, d, hpd, hdlt⟩
      · exact nomatch heq
      · exact Or.inr ⟨p, d, hpd, hdlt⟩

/-! ## C4 — the global replace realizes a scan trace -/

theorem lastFlag_nil (b : Bool) : lastFlag b [] = b := rfl

theorem lastFlag_cons (b : Bool) (c : Char) (l : Str) :
    lastFlag b (c :: l) = lastFlag (isLT c) l := rfl

theorem lastFlag_append_last (b : Bool) (l : Str) (c : Char) :
    lastFlag b (l ++ [c]) = isLT c := by
  induction l generalizing b with
  | nil => rfl
  | cons d l ih =>
    rw [List.cons_append, lastFlag_cons]
    exact ih (isLT d)

theorem replGo_skip (att : Str → Option Nat) :
    ∀ (j : Nat) (b : Bool) (u : Str), j ≤ u.length →
      replGo att j b u = replGo att 0 (lastFlag b (u.take j)) (u.drop j) := by
  intro j
  induction j with
  | zero =>
    intro b u _
    rfl
  | succ j ih =>
    intro b u hle
    cases u with
    | nil =>
      exfalso
      have : ([] : Str).length = 0 := rfl
      omega
    | cons c rest =>
      rw [show replGo att (j + 1) b (c :: rest) = replGo att j (isLT c) rest from rfl]
      rw [ih (isLT c) rest (by
        have : (c :: rest).length = rest.length + 1 := rfl
        omega)]
      rfl

theorem replGo_scan (ci : Bool) (key : Str) (hk : PlainKey key) :
    ∀ (n : Nat) (s : Str), s.length ≤ n → ∀ (b : Bool),
      Scan ci key b s (replGo (attemptPlain ci key) 0 b s) := by
  intro n
  induction n with
  | zero =>
    intro s hle b
    cases s with
    | nil => exact Scan.nil b
    | cons c rest =>
      exfalso
      have : (c :: rest).length = rest.length + 1 := rfl
      omega
  | succ n ih =>
    intro s hle b
    cases s with
    | nil => exact Scan.nil b
    | cons c rest =>
      have hlen : (c :: rest).length = rest.length + 1 := rfl
      by_cases hb : b = true
      · subst hb
        rw [show replGo (attemptPlain ci key) 0 true (c :: rest) =
          (match attemptPlain ci key (c :: rest) with
            | some t => replGo (attemptPlain ci key) (t - 1) (isLT c) rest
            | none => c :: replGo (attemptPlain ci key) 0 (isLT c) rest) from rfl]
        cases hatt : attemptPlain ci key (c :: rest) with
        | none =>
          exact Scan.copy true c rest _
            (fun _ => (attemptPlain_none_iff ci key (c :: rest) hk).mp hatt)
            (ih rest (by omega) (isLT c))
        | some t =>
          dsimp only
          obtain ⟨i, rest2, hsd, hsp, hle2, hilen, hipos⟩ :=
            attemptPlain_decomp ci key (c :: rest) t hatt
          obtain ⟨i', clast, hi'⟩ : ∃ i' clast, i = i' ++ [clast] := by
            cases hie : i.reverse with
            | nil =>
              exfalso
              have hinil : i = [] := by
                have := congrArg List.reverse hie
                rwa [List.reverse_reverse] at this
              rw [hinil] at hilen
              have : ([] : Str).length = 0 := rfl
              omega
            | cons z zs =>
              refine ⟨zs.reverse, z, ?_⟩
              have := congrArg List.reverse hie
              rw [List.reverse_reverse] at this
              rw [this]
              exact List.reverse_cons z zs
          have hdropi : (c :: rest).drop t = rest2 := by
            rw [hsd, ← hilen]
            exact List.drop_left i rest2
          have hrest_eq : rest.drop (t - 1) = rest2 := by
            have hsh : (c :: rest).drop t = rest.drop (t - 1) := by
              obtain ⟨t1, ht1⟩ : ∃ t1, t = t1 + 1 := ⟨t - 1, by omega⟩
              subst ht1
              simp
            rw [← hsh, hdropi]
          have htake : rest.take (t - 1) = i.drop 1 := by
            have h1 : (c :: rest).take t = i := by
              rw [hsd, ← hilen]
              exact List.take_left i rest2
            have h2 : ((c :: rest).take t).drop 1 = i.drop 1 := by rw [h1]
            obtain ⟨t1, ht1⟩ : ∃ t1, t = t1 + 1 := ⟨t - 1, by omega⟩
            subst ht1
            simpa using h2
          have htlen : t ≤ (c :: rest).length := by
            rw [hsd, List.length_append, ← hilen]
            omega
          rw [replGo_skip (attemptPlain ci key) (t - 1) (isLT c) rest
            (by rw [hlen] at htlen; omega)]
          rw [hrest_eq, htake]
          have hflag : lastFlag (isLT c) (i.drop 1) = isLT clast := by
            cases i' with
            | nil =>
              have hic : i = [clast] := by rw [hi']; rfl
              have hcc : c = clast := by
                rw [hic] at hsd
                exact (List.cons.inj hsd).1
              rw [hic]
              rw [show ([clast] : Str).drop 1 = [] from rfl, lastFlag_nil, hcc]
            | cons a as =>
              have hid : i.drop 1 = as ++ [clast] := by rw [hi']; rfl
              rw [hid]
              exact lastFlag_append_last _ _ _
          rw [hflag]
          have hr2len : rest2.length ≤ n := by
            have := congrArg List.length hsd
            rw [List.length_append] at this
            have h1 : (c :: rest).length = rest.length + 1 := rfl
            omega
          have hspan := Scan.span i' clast rest2
            (replGo (attemptPlain ci key) 0 (isLT clast) rest2)
            (by rw [← hi']; exact hsp) hle2 (ih rest2 hr2len (isLT clast))
          rw [show (c :: rest : Str) = i' ++ [clast] ++ rest2 from by
            rw [hsd, hi']]
          exact hspan
      · have hbf : b = false := by
          cases b with
          | true => exact absurd rfl hb
          | false => rfl
        subst hbf
        rw [show replGo (attemptPlain ci key) 0 false (c :: rest) =
          c :: replGo (attemptPlain ci key) 0 (isLT c) rest from rfl]
        exact Scan.copy false c rest _ (fun hh => nomatch hh)
          (ih rest (by omega) (isLT c))

/-- The no-match property of the output of the global replace, for a plain
key. -/
theorem replaceAll_noMatch (ci : Bool) (key s : Str) (hk : PlainKey key) :
    NoMatch ci key true (replaceAll (attemptPlain ci key) s) :=
  scan_noMatch ci key hk (replGo_scan ci key hk s.length s (Nat.le_refl _) true)

/-! ## C4 — whitespace-insertion relation: structural lemmas -/

theorem wsIns_refl : ∀ (b : Bool) (v : Str), WsIns b v v := by
  intro b v
  induction v generalizing b with
  | nil => exact WsIns.nil b
  | cons c v ih => exact WsIns.keep b c v v (ih (isLT c))

theorem wsIns_allWs {b : Bool} {v w : Str} (h : WsIns b v w) (hv : allWs v) :
    allWs w := by
  induction h with
  | nil b => exact allWs_nil
  | tail b c w hc h ih => exact allWs_cons.mpr ⟨hc, ih allWs_nil⟩
  | keep b c v w h ih =>
    exact allWs_cons.mpr ⟨(allWs_cons.mp hv).1, ih (allWs_cons.mp hv).2⟩
  | ins c v w hc h ih => exact allWs_cons.mpr ⟨hc, ih hv⟩

theorem wsIns_of_nil {w : Str} (b : Bool) (hw : allWs w) : WsIns b [] w := by
  induction w with
  | nil => exact WsIns.nil b
  | cons c w ih =>
    exact WsIns.tail b c w (allWs_cons.mp hw).1 (ih (allWs_cons.mp hw).2)

theorem wsIns_nil_right {b : Bool} {u : Str} (h : WsIns b u []) : u = [] := by
  cases h
  rfl

theorem wsIns_append_ws : ∀ (b : Bool) (v S : Str), allWs S → WsIns b v (v ++ S) := by
  intro b v
  induction v generalizing b with
  | nil => exact fun S hS => wsIns_of_nil b hS
  | cons c v ih => exact fun S hS => WsIns.keep b c v (v ++ S) (ih (isLT c) S hS)

theorem wsIns_ins_prefix {v w : Str} (P : Str) (hP : allWs P)
    (h : WsIns true v w) : WsIns true v (P ++ w) := by
  induction P with
  | nil => exact h
  | cons p P ih =>
    exact WsIns.ins p v (P ++ w) (allWs_cons.mp hP).1 (ih (allWs_cons.mp hP).2)

theorem wsIns_keep_prefix : ∀ (p : Str) (b : Bool) (v w : Str),
    WsIns (lastFlag b p) v w → WsIns b (p ++ v) (p ++ w) := by
  intro p
  induction p with
  | nil => exact fun b v w h => h
  | cons c p ih =>
    intro b v w h
    exact WsIns.keep b c (p ++ v) (p ++ w) (ih (isLT c) v w h)

theorem wsIns_trans_mono {b2 : Bool} {v w : Str} (h2 : WsIns b2 v w) :
    ∀ (b1 : Bool) (u : Str), (b2 = true → b1 = true) → WsIns b1 u v →
      WsIns b1 u w := by
  induction h2 with
  | nil b2 => exact fun b1 u _ h1 => h1
  | tail b2 c w' hc h2' ih =>
    intro b1 u hb h1
    have hu : u = [] := wsIns_nil_right h1
    subst hu
    exact WsIns.tail b1 c w' hc (ih b1 [] hb (WsIns.nil b1))
  | keep b2 c v' w' h2' ih =>
    intro b1 u hb h1
    cases h1 with
    | tail _ _ _ hc1 h1' =>
      have hv' : allWs v' := wsIns_allWs h1' allWs_nil
      exact WsIns.tail b1 c w' hc1 (wsIns_of_nil b1 (wsIns_allWs h2' hv'))
    | keep _ _ u' _ h1' =>
      exact WsIns.keep b1 c u' w' (ih (isLT c) u' (fun hh => hh) h1')
    | ins _ _ _ hc1 h1' =>
      exact WsIns.ins c u w' hc1 (ih true u (fun _ => rfl) h1')
  | ins c v w' hc h2' ih =>
    intro b1 u hb h1
    have hb1 : b1 = true := hb rfl
    subst hb1
    exact WsIns.ins c u w' hc (ih true u (fun _ => rfl) h1)

/-! ## C4 — `cleanAndFormat` only deletes whitespace, at line starts or at
the ends -/

theorem splitNl_ne_nil (s : Str) : splitNl s ≠ [] := by
  cases s with
  | nil => exact fun hh => nomatch hh
  | cons c s =>
    show (if c = '\n' then [] :: splitNl s
      else match splitNl s with
        | l :: ls => (c :: l) :: ls
        | [] => [[c]]) ≠ []
    by_cases hc : c = '\n'
    · rw [if_pos hc]
      exact fun hh => nomatch hh
    · rw [if_neg hc]
      cases hs : splitNl s with
      | nil => exact fun hh => nomatch hh
      | cons l ls => exact fun hh => nomatch hh

theorem joinNl_cons (l : Str) (ls : List Str) (hls : ls ≠ []) :
    joinNl (l :: ls) = l ++ '\n' :: joinNl ls := by
  cases ls with
  | nil => exact absurd rfl hls
  | cons l2 ls2 => rfl

theorem joinNl_splitNl (s : Str) : joinNl (splitNl s) = s := by
  induction s with
  | nil => rfl
  | cons c s ih =>
    show joinNl (if c = '\n' then [] :: splitNl s
      else match splitNl s with
        | l :: ls => (c :: l) :: ls
        | [] => [[c]]) = c :: s
    by_cases hc : c = '\n'
    · rw [if_pos hc, joinNl_cons [] (splitNl s) (splitNl_ne_nil s),
        List.nil_append, ih, hc]
    · rw [if_neg hc]
      cases hs : splitNl s with
      | nil => exact absurd hs (splitNl_ne_nil s)
      | cons l ls =>
        cases ls with
        | nil =>
          show (c :: l : Str) = c :: s
          rw [← ih, hs]
          rfl
        | cons l2 ls2 =>
          show (c :: l) ++ '\n' :: joinNl (l2 :: ls2) = c :: s
          rw [← ih, hs, joinNl_cons l (l2 :: ls2) (fun hh => nomatch hh)]
          rfl

theorem dropWhile_ws_decomp (s : Str) :
    ∃ P, s = P ++ s.dropWhile isWs ∧ allWs P := by
  refine ⟨s.takeWhile isWs, (List.takeWhile_append_dropWhile isWs s).symm, ?_⟩
  intro c hc
  exact List.mem_takeWhile_imp hc

theorem allWs_reverse {s : Str} (hs : allWs s) : allWs s.reverse := by
  intro c hc
  exact hs c (List.mem_reverse.mp hc)

theorem jsTrim_decomp (s : Str) :
    ∃ P S, s = P ++ jsTrim s ++ S ∧ allWs P ∧ allWs S := by
  obtain ⟨P, hP, hPw⟩ := dropWhile_ws_decomp s
  obtain ⟨Q, hQ, hQw⟩ := dropWhile_ws_decomp (s.dropWhile isWs).reverse
  refine ⟨P, Q.reverse, ?_, hPw, allWs_reverse hQw⟩
  have hu : s.dropWhile isWs = jsTrim s ++ Q.reverse := by
    have h1 : ((s.dropWhile isWs).reverse).reverse = (Q ++
        ((s.dropWhile isWs).reverse.dropWhile isWs)).reverse := by
      rw [← hQ]
    rw [List.reverse_reverse, List.reverse_append] at h1
    exact h1
  conv_lhs => rw [hP, hu]
  rw [List.append_assoc]

theorem jsTrim_nil_of_allWs {s : Str} (hs : allWs s) : jsTrim s = [] := by
  have h1 : s.dropWhile isWs = [] := by
    rw [List.dropWhile_eq_nil_iff]
    exact fun c hc => hs c hc
  unfold jsTrim
  rw [h1]
  rfl

theorem allWs_of_jsTrim_nil {s : Str} (h : jsTrim s = []) : allWs s := by
  obtain ⟨P, S, hd, hPw, hSw⟩ := jsTrim_decomp s
  rw [h, List.append_nil] at hd
  rw [hd]
  exact allWs_append.mpr ⟨hPw, hSw⟩

theorem allWs_joinNl (ls : List Str) (h : ∀ l ∈ ls, allWs l) :
    allWs (joinNl ls) := by
  induction ls with
  | nil => exact allWs_nil
  | cons l ls ih =>
    cases ls with
    | nil => exact h l (List.mem_cons_self l [])
    | cons l2 ls2 =>
      rw [joinNl_cons l (l2 :: ls2) (fun hh => nomatch hh)]
      refine allWs_append.mpr ⟨h l (List.mem_cons_self _ _), ?_⟩
      refine allWs_cons.mpr ⟨by decide, ?_⟩
      exact ih (fun l' hl' => h l' (List.mem_cons_of_mem _ hl'))

theorem keepLines_cons (f p : Bool) (l : Str) (ls : List Str) :
    ConfigCleaner.keepLines f p (l :: ls) =
      (if (if jsTrim l = [] then (!f && !p) else true) = true then [l] else []) ++
        ConfigCleaner.keepLines false (decide (jsTrim l = [])) ls := rfl

theorem keepLines_cons_blank (f p : Bool) (l : Str) (ls : List Str)
    (hb : jsTrim l = []) :
    ConfigCleaner.keepLines f p (l :: ls) =
      (if (!f && !p) = true then [l] else []) ++
        ConfigCleaner.keepLines false true ls := by
  rw [keepLines_cons, if_pos hb, hb]
  simp

theorem keepLines_cons_nonblank (f p : Bool) (l : Str) (ls : List Str)
    (hb : ¬ jsTrim l = []) :
    ConfigCleaner.keepLines f p (l :: ls) =
      l :: ConfigCleaner.keepLines false false ls := by
  rw [keepLines_cons, if_neg hb, if_pos rfl, decide_eq_false hb]
  rfl

theorem keepLines_nil_blank : ∀ (ls : List Str) (f p : Bool),
    ConfigCleaner.keepLines f p ls = [] → ∀ l ∈ ls, allWs l := by
  intro ls
  induction ls with
  | nil => intro f p _ l hl; exact absurd hl (List.not_mem_nil l)
  | cons l0 ls0 ih =>
    intro f p h l hl
    by_cases hb : jsTrim l0 = []
    · rw [keepLines_cons_blank f p l0 ls0 hb] at h
      rcases List.mem_cons.mp hl with hh | hh
      · rw [hh]
        exact allWs_of_jsTrim_nil hb
      · exact ih false true (List.append_eq_nil.mp h).2 l hh
    · rw [keepLines_cons_nonblank f p l0 ls0 hb] at h
      exact nomatch h

theorem join_cons_wsIns (l : Str) (M K : List Str) (hM : M ≠ [])
    (hKM : WsIns true (joinNl K) (joinNl M))
    (hblank : K = [] → allWs (joinNl M)) :
    WsIns true (joinNl (l :: K)) (joinNl (l :: M)) := by
  rw [joinNl_cons l M hM]
  cases K with
  | nil =>
    have hS : allWs ('\n' :: joinNl M) :=
      allWs_cons.mpr ⟨by decide, hblank rfl⟩
    exact wsIns_append_ws true l ('\n' :: joinNl M) hS
  | cons k1 K1 =>
    rw [joinNl_cons l (k1 :: K1) (fun hh => nomatch hh)]
    have h1 : WsIns (lastFlag true (l ++ ['\n'])) (joinNl (k1 :: K1)) (joinNl M) := by
      rw [lastFlag_append_last, show isLT '\n' = true from rfl]
      exact hKM
    have h2 := wsIns_keep_prefix (l ++ ['\n']) true (joinNl (k1 :: K1)) (joinNl M) h1
    simpa [List.append_assoc] using h2

theorem keepLines_wsIns : ∀ (ls : List Str) (f p : Bool),
    WsIns true (joinNl (ConfigCleaner.keepLines f p ls)) (joinNl ls) := by
  intro ls
  induction ls with
  | nil => exact fun f p => WsIns.nil true
  | cons l ls0 ih =>
    intro f p
    by_cases hb : jsTrim l = []
    · rw [keepLines_cons_blank f p l ls0 hb]
      by_cases hfp : (!f && !p) = true
      · rw [if_pos hfp, List.singleton_append]
        cases ls0 with
        | nil => exact wsIns_refl true _
        | cons l2 ls2 =>
          exact join_cons_wsIns l (l2 :: ls2) _ (fun hh => nomatch hh)
            (ih false true)
            (fun hK => allWs_joinNl _ (keepLines_nil_blank (l2 :: ls2) false true hK))
      · rw [if_neg hfp, List.nil_append]
        cases ls0 with
        | nil => exact wsIns_of_nil true (allWs_of_jsTrim_nil hb)
        | cons l2 ls2 =>
          rw [joinNl_cons l (l2 :: ls2) (fun hh => nomatch hh)]
          have hP : allWs (l ++ ['\n']) := allWs_append.mpr
            ⟨allWs_of_jsTrim_nil hb, allWs_cons.mpr ⟨by decide, allWs_nil⟩⟩
          have h2 := wsIns_ins_prefix (l ++ ['\n']) hP (ih false true)
          simpa [List.append_assoc] using h2
    · rw [keepLines_cons_nonblank f p l ls0 hb]
      cases ls0 with
      | nil => exact wsIns_refl true _
      | cons l2 ls2 =>
        exact join_cons_wsIns l (l2 :: ls2) _ (fun hh => nomatch hh)
          (ih false false)
          (fun hK => allWs_joinNl _ (keepLines_nil_blank (l2 :: ls2) false false hK))

theorem cleanAndFormat_wsIns (s : Str) :
    WsIns true (ConfigCleaner.cleanAndFormat s) s := by
  have h1 : WsIns true (joinNl (ConfigCleaner.keepLines true true (splitNl s))) s := by
    have hkw := keepLines_wsIns (splitNl s) true true
    rwa [joinNl_splitNl] at hkw
  show WsIns true (jsTrim (joinNl (ConfigCleaner.keepLines true true (splitNl s)))) s
  set y := joinNl (ConfigCleaner.keepLines true true (splitNl s)) with hydef
  obtain ⟨P, S, hy, hP, hS⟩ := jsTrim_decomp y
  have h2 : WsIns true (jsTrim y) y := by
    conv_rhs => rw [hy]
    have hcore : WsIns true (jsTrim y) (jsTrim y ++ S) := wsIns_append_ws true _ S hS
    have h3 := wsIns_ins_prefix P hP hcore
    simpa [List.append_assoc] using h3
  exact wsIns_trans_mono h1 true (jsTrim y) (fun _ => rfl) h2

/-! ## C4 — matches survive the removal of whitespace that `cleanAndFormat`
performs, and line starts are preserved -/

theorem wsIns_stitch (ci : Bool) (key : Str) (hk : PlainKey key) {b : Bool}
    {v w : Str} (h : WsIns b v w) :
    ∀ x, (b = true → LineStartish true x) →
      AttemptP ci key (x ++ v) → AttemptP ci key (x ++ w) := by
  induction h with
  | nil b =>
    intro x _ hm
    exact hm
  | tail b c w' hc h' ih =>
    intro x hbx hm
    have hw' : allWs w' := wsIns_allWs h' allWs_nil
    have hm' : AttemptP ci key x := by simpa using hm
    exact attemptP_append_ws ci key x (c :: w') (allWs_cons.mpr ⟨hc, hw'⟩) hm'
  | keep b c v' w' h' ih =>
    intro x hbx hm
    have hm2 : AttemptP ci key ((x ++ [c]) ++ v') := by
      simpa [List.append_assoc] using hm
    have h3 := ih (x ++ [c]) (fun hlt => Or.inr ⟨x, c, rfl, hlt⟩) hm2
    simpa [List.append_assoc] using h3
  | ins c v w' hc h' ih =>
    intro x hbx hm
    have hx := hbx rfl
    exact attemptP_insert_ws ci key x w' c hk hx hc (ih x (fun _ => hx) hm)

theorem wsIns_noMatch (ci : Bool) (key : Str) (hk : PlainKey key) {b : Bool}
    {v w : Str} (h : WsIns b v w) :
    NoMatch ci key b w → NoMatch ci key b v := by
  induction h with
  | nil b =>
    intro _ u t hut hls hm
    have ht : t = [] := (List.append_eq_nil.mp hut.symm).2
    rw [ht] at hm
    exact attemptP_nil_false ci key hk hm
  | tail b c w' hc h' ih =>
    intro _ u t hut hls hm
    have ht : t = [] := (List.append_eq_nil.mp hut.symm).2
    rw [ht] at hm
    exact attemptP_nil_false ci key hk hm
  | keep b c v' w' h' ih =>
    intro hnm u t hut hls hm
    have hnm' : NoMatch ci key (isLT c) w' := by
      intro u2 t2 h2 hls2 hm2
      apply hnm (c :: u2) t2 (by rw [h2]; rfl) ?_ hm2
      rcases hls2 with ⟨hu2, hflag⟩ | ⟨p, d, hpd, hdlt⟩
      · subst hu2
        exact Or.inr ⟨[], c, rfl, hflag⟩
      · exact Or.inr ⟨c :: p, d, by rw [hpd]; rfl, hdlt⟩
    cases u with
    | nil =>
      rcases hls with ⟨_, hb⟩ | ⟨u', d, hud, _⟩
      · rw [List.nil_append] at hut
        rw [← hut] at hm
        have hlift := wsIns_stitch ci key hk h' [c]
          (fun hlt => Or.inr ⟨[], c, rfl, hlt⟩) hm
        exact hnm [] (c :: w') rfl (Or.inl ⟨rfl, hb⟩) hlift
      · exact absurd (List.append_eq_nil.mp hud.symm).2 (List.cons_ne_nil d [])
    | cons u0 u' =>
      rw [List.cons_append] at hut
      injection hut with h1 h2
      apply ih hnm' u' t h2 ?_ hm
      rcases hls with ⟨heq, _⟩ | ⟨p, d, hpd, hdlt⟩
      · exact nomatch heq
      · cases u' with
        | nil =>
          have hd0 : d = u0 := by
            cases p with
            | nil =>
              injection hpd with hh _
              exact hh.symm
            | cons p0 p1 =>
              rw [List.cons_append] at hpd
              injection hpd with _ hh
              exact absurd (List.append_eq_nil.mp hh.symm).2 (List.cons_ne_nil d [])
          refine Or.inl ⟨rfl, ?_⟩
          rw [h1, ← hd0]
          exact hdlt
        | cons u1 u2 =>
          obtain ⟨p', hp'⟩ := split_last [u0] (u1 :: u2) p d
            (by rw [← hpd]; rfl) (List.cons_ne_nil u1 u2)
          exact Or.inr ⟨p', d, hp', hdlt⟩
  | ins c v w' hc h' ih =>
    intro hnm
    apply ih
    intro u2 t2 h2 hls2 hm2
    rcases hls2 with ⟨hu2, _⟩ | ⟨p, d, hpd, hdlt⟩
    · subst hu2
      rw [List.nil_append] at h2
      rw [← h2] at hm2
      exact hnm [] (c :: w') rfl (Or.inl ⟨rfl, rfl⟩)
        (attemptP_ws_cons ci key c w' hc hm2)
    · exact hnm (c :: u2) t2 (by rw [h2]; rfl)
        (Or.inr ⟨c :: p, d, by rw [hpd]; rfl, hdlt⟩) hm2

/-! ## C4 — trimming: structure lemmas for `jsTrim` and idempotence -/

theorem jsTrim_eq_rt_lt (s : Str) : jsTrim s = rtrimWs (ltrimWs s) := rfl

theorem dropWhile_ws_head (u : Str) (c : Char)
    (h : (u.dropWhile isWs).head? = some c) : isWs c = false := by
  induction u with
  | nil => exact nomatch h
  | cons d u ih =>
    rw [List.dropWhile_cons] at h
    by_cases hd : isWs d = true
    · rw [if_pos hd] at h
      exact ih h
    · rw [if_neg hd] at h
      injection h with h
      subst h
      rwa [Bool.not_eq_true] at hd

theorem dropWhile_ws_id (u : Str)
    (h : ∀ c, u.head? = some c → isWs c = false) : u.dropWhile isWs = u := by
  cases u with
  | nil => rfl
  | cons d u =>
    rw [List.dropWhile_cons, if_neg (by rw [h d rfl]; exact fun hh => nomatch hh)]

theorem ltrim_head (u : Str) (c : Char) (h : (ltrimWs u).head? = some c) :
    isWs c = false := dropWhile_ws_head u c h

theorem ltrim_id (u : Str) (h : ∀ c, u.head? = some c → isWs c = false) :
    ltrimWs u = u := dropWhile_ws_id u h

theorem rtrim_decomp (u : Str) : ∃ S, u = rtrimWs u ++ S ∧ allWs S := by
  obtain ⟨P, hP, hPw⟩ := dropWhile_ws_decomp u.reverse
  refine ⟨P.reverse, ?_, allWs_reverse hPw⟩
  have := congrArg List.reverse hP
  rw [List.reverse_reverse, List.reverse_append] at this
  exact this

theorem ltrim_decomp (u : Str) : ∃ P, u = P ++ ltrimWs u ∧ allWs P :=
  dropWhile_ws_decomp u

theorem jsTrim_head (u : Str) (c : Char) (h : (jsTrim u).head? = some c) :
    isWs c = false := by
  rw [jsTrim_eq_rt_lt] at h
  obtain ⟨S, hS, _⟩ := rtrim_decomp (ltrimWs u)
  have hh : (ltrimWs u).head? = some c := by
    rw [hS]
    cases hr : rtrimWs (ltrimWs u) with
    | nil => rw [hr] at h; exact nomatch h
    | cons d r =>
      rw [hr] at h
      injection h with h
      rw [List.cons_append]
      rw [← h]
      rfl
  exact ltrim_head u c hh

theorem rtrim_head_rev (u : Str) (c : Char)
    (h : (rtrimWs u).reverse.head? = some c) : isWs c = false := by
  have : (rtrimWs u).reverse = u.reverse.dropWhile isWs := by
    unfold rtrimWs
    rw [List.reverse_reverse]
  rw [this] at h
  exact dropWhile_ws_head u.reverse c h

theorem jsTrim_rev_head (u : Str) (c : Char)
    (h : (jsTrim u).reverse.head? = some c) : isWs c = false := by
  rw [jsTrim_eq_rt_lt] at h
  exact rtrim_head_rev (ltrimWs u) c h

theorem rtrim_id (u : Str)
    (h : ∀ c, u.reverse.head? = some c → isWs c = false) : rtrimWs u = u := by
  unfold rtrimWs
  rw [dropWhile_ws_id u.reverse h, List.reverse_reverse]

theorem jsTrim_idem (u : Str) : jsTrim (jsTrim u) = jsTrim u := by
  rw [jsTrim_eq_rt_lt (jsTrim u), ltrim_id (jsTrim u) (jsTrim_head u)]
  exact rtrim_id (jsTrim u) (jsTrim_rev_head u)

/-! ## C4 — trimming across line joins -/

theorem dropWhile_ws_append_of_nonblank (a r : Str) (ha : ¬ allWs a) :
    (a ++ r).dropWhile isWs = a.dropWhile isWs ++ r := by
  induction a with
  | nil => exact absurd allWs_nil ha
  | cons c a ih =>
    show (c :: (a ++ r)).dropWhile isWs = (c :: a).dropWhile isWs ++ r
    rw [List.dropWhile_cons, List.dropWhile_cons]
    by_cases hc : isWs c = true
    · rw [if_pos hc, if_pos hc]
      apply ih
      intro ha'
      exact ha (allWs_cons.mpr ⟨hc, ha'⟩)
    · rw [if_neg hc, if_neg hc]
      rfl

theorem ltrim_append_of_nonblank (a r : Str) (ha : ¬ allWs a) :
    ltrimWs (a ++ r) = ltrimWs a ++ r :=
  dropWhile_ws_append_of_nonblank a r ha

theorem dropWhile_ws_all_append (Q r : Str) (hQ : allWs Q) :
    (Q ++ r).dropWhile isWs = r.dropWhile isWs := by
  induction Q with
  | nil => rfl
  | cons c Q ih =>
    rw [List.cons_append, List.dropWhile_cons, if_pos (allWs_cons.mp hQ).1]
    exact ih (allWs_cons.mp hQ).2

theorem rtrim_append_of_nonblank (a r : Str) (hr : ¬ allWs r) :
    rtrimWs (a ++ r) = a ++ rtrimWs r := by
  unfold rtrimWs
  rw [List.reverse_append]
  rw [dropWhile_ws_append_of_nonblank r.reverse a.reverse
    (fun hh => hr (by
      have := allWs_reverse hh
      rwa [List.reverse_reverse] at this))]
  rw [List.reverse_append, List.reverse_reverse]

theorem rtrim_append_ws_tail (u b : Str) (hb : allWs b) :
    rtrimWs (u ++ '\n' :: b) = rtrimWs u := by
  unfold rtrimWs
  rw [List.reverse_append, show ('\n' :: b : Str).reverse = b.reverse ++ ['\n'] from
    List.reverse_cons '\n' b]
  rw [List.append_assoc]
  rw [dropWhile_ws_all_append (b.reverse) (['\n'] ++ u.reverse) (allWs_reverse hb)]
  rw [show (['\n'] ++ u.reverse : Str).dropWhile isWs = u.reverse.dropWhile isWs from by
    rw [List.singleton_append, List.dropWhile_cons, if_pos (by decide)]]

/-! ## C4 — splitting and joining around newlines -/

theorem splitNl_cons_eq (c : Char) (s : Str) :
    splitNl (c :: s) = (if c = '\n' then [] :: splitNl s
      else match splitNl s with
        | l :: ls => (c :: l) :: ls
        | [] => [[c]]) := rfl

theorem splitNl_single (u : Str) (h : '\n' ∉ u) : splitNl u = [u] := by
  induction u with
  | nil => rfl
  | cons c s ih =>
    rw [splitNl_cons_eq, if_neg (fun hh => h (by rw [hh]; exact List.mem_cons_self _ _))]
    rw [ih (fun hh => h (List.mem_cons_of_mem c hh))]

theorem splitNl_append_cons (a r : Str) (h : '\n' ∉ a) :
    splitNl (a ++ '\n' :: r) = a :: splitNl r := by
  induction a with
  | nil =>
    rw [List.nil_append, splitNl_cons_eq, if_pos rfl]
  | cons c a ih =>
    rw [List.cons_append, splitNl_cons_eq,
      if_neg (fun hh => h (by rw [hh]; exact List.mem_cons_self _ _))]
    rw [ih (fun hh => h (List.mem_cons_of_mem c hh))]

theorem splitNl_joinNl (ls : List Str) (hne : ls ≠ [])
    (h : ∀ l ∈ ls, '\n' ∉ l) : splitNl (joinNl ls) = ls := by
  induction ls with
  | nil => exact absurd rfl hne
  | cons l ls0 ih =>
    cases ls0 with
    | nil => exact splitNl_single l (h l (List.mem_cons_self _ _))
    | cons l2 ls2 =>
      rw [joinNl_cons l (l2 :: ls2) (fun hh => nomatch hh)]
      rw [splitNl_append_cons l (joinNl (l2 :: ls2)) (h l (List.mem_cons_self _ _))]
      rw [ih (fun hh => nomatch hh) (fun l' hl' => h l' (List.mem_cons_of_mem _ hl'))]

theorem joinNl_append_last (ks : List Str) (b : Str) (hne : ks ≠ []) :
    joinNl (ks ++ [b]) = joinNl ks ++ '\n' :: b := by
  induction ks with
  | nil => exact absurd rfl hne
  | cons k ks0 ih =>
    cases ks0 with
    | nil => rfl
    | cons k2 ks2 =>
      rw [List.cons_append,
        joinNl_cons k ((k2 :: ks2) ++ [b]) (fun hh => nomatch hh),
        joinNl_cons k (k2 :: ks2) (fun hh => nomatch hh),
        ih (fun hh => nomatch hh)]
      simp [List.append_assoc]

theorem mem_joinNl (ls : List Str) (l : Str) (c : Char) (hl : l ∈ ls)
    (hc : c ∈ l) : c ∈ joinNl ls := by
  induction ls with
  | nil => exact absurd hl (List.not_mem_nil l)
  | cons l0 ls0 ih =>
    cases ls0 with
    | nil =>
      rcases List.mem_cons.mp hl with hh | hh
      · rw [← hh]; exact hc
      · exact absurd hh (List.not_mem_nil l)
    | cons l2 ls2 =>
      rw [joinNl_cons l0 (l2 :: ls2) (fun hh => nomatch hh)]
      rcases List.mem_cons.mp hl with hh | hh
      · exact List.mem_append_left _ (by rw [← hh]; exact hc)
      · exact List.mem_append_right _ (List.mem_cons_of_mem '\n' (ih hh))

theorem not_allWs_joinNl (ls : List Str) (l : Str) (hl : l ∈ ls)
    (hlb : ¬ allWs l) : ¬ allWs (joinNl ls) := by
  intro hall
  apply hlb
  intro c hc
  exact hall c (mem_joinNl ls l c hl hc)

/-! ## C4 — the adjacent-blank structure of the kept lines -/

/-- No two adjacent blank lines. -/
def NoBB : List Str → Prop
  | [] => True
  | [_] => True
  | l1 :: l2 :: ls => ¬(jsTrim l1 = [] ∧ jsTrim l2 = []) ∧ NoBB (l2 :: ls)

theorem keepLines_mem (ls : List Str) : ∀ (f p : Bool) (l : Str),
    l ∈ ConfigCleaner.keepLines f p ls → l ∈ ls := by
  induction ls with
  | nil => intro f p l h; exact absurd h (List.not_mem_nil l)
  | cons l0 ls0 ih =>
    intro f p l h
    by_cases hb : jsTrim l0 = []
    · rw [keepLines_cons_blank f p l0 ls0 hb] at h
      by_cases hfp : (!f && !p) = true
      · rw [if_pos hfp, List.singleton_append] at h
        rcases List.mem_cons.mp h with hh | hh
        · rw [hh]; exact List.mem_cons_self _ _
        · exact List.mem_cons_of_mem _ (ih false true l hh)
      · rw [if_neg hfp, List.nil_append] at h
        exact List.mem_cons_of_mem _ (ih false true l h)
    · rw [keepLines_cons_nonblank f p l0 ls0 hb] at h
      rcases List.mem_cons.mp h with hh | hh
      · rw [hh]; exact List.mem_cons_self _ _
      · exact List.mem_cons_of_mem _ (ih false false l hh)

theorem splitNl_no_newline (s : Str) : ∀ l ∈ splitNl s, '\n' ∉ l := by
  induction s with
  | nil =>
    intro l hl
    rcases List.mem_cons.mp hl with hh | hh
    · rw [hh]; exact List.not_mem_nil '\n'
    · exact absurd hh (List.not_mem_nil l)
  | cons c s ih =>
    intro l hl
    rw [splitNl_cons_eq] at hl
    by_cases hc : c = '\n'
    · rw [if_pos hc] at hl
      rcases List.mem_cons.mp hl with hh | hh
      · rw [hh]; exact List.not_mem_nil '\n'
      · exact ih l hh
    · rw [if_neg hc] at hl
      cases hs : splitNl s with
      | nil =>
        rw [hs] at hl
        rcases List.mem_cons.mp hl with hh | hh
        · rw [hh]
          intro hmem
          rcases List.mem_cons.mp hmem with h2 | h2
          · exact hc h2.symm
          · exact absurd h2 (List.not_mem_nil '\n')
        · exact absurd hh (List.not_mem_nil l)
      | cons l1 ls1 =>
        rw [hs] at hl
        rcases List.mem_cons.mp hl with hh | hh
        · rw [hh]
          intro hmem
          rcases List.mem_cons.mp hmem with h2 | h2
          · exact hc h2.symm
          · exact ih l1 (by rw [hs]; exact List.mem_cons_self _ _) h2
        · exact ih l (by rw [hs]; exact List.mem_cons_of_mem _ hh)

theorem keepLines_head_nonblank (ls : List Str) : ∀ (f : Bool) (l : Str)
    (K : List Str), ConfigCleaner.keepLines f true ls = l :: K →
    ¬ jsTrim l = [] := by
  induction ls with
  | nil => intro f l K h; exact nomatch h
  | cons l0 ls0 ih =>
    intro f l K h
    by_cases hb : jsTrim l0 = []
    · rw [keepLines_cons_blank f true l0 ls0 hb] at h
      rw [show (!f && !true) = false from by cases f <;> rfl] at h
      rw [if_neg (fun hh => nomatch hh), List.nil_append] at h
      exact ih false l K h
    · rw [keepLines_cons_nonblank f true l0 ls0 hb] at h
      injection h with h1 _
      rw [← h1]
      exact hb

theorem keepLines_noBB (ls : List Str) : ∀ (f p : Bool),
    NoBB (ConfigCleaner.keepLines f p ls) := by
  induction ls with
  | nil => intro f p; trivial
  | cons l0 ls0 ih =>
    intro f p
    by_cases hb : jsTrim l0 = []
    · rw [keepLines_cons_blank f p l0 ls0 hb]
      by_cases hfp : (!f && !p) = true
      · rw [if_pos hfp, List.singleton_append]
        cases hK : ConfigCleaner.keepLines false true ls0 with
        | nil => trivial
        | cons k1 K1 =>
          refine ⟨?_, by rw [← hK]; exact ih false true⟩
          intro ⟨_, hk1⟩
          exact keepLines_head_nonblank ls0 false k1 K1 hK hk1
      · rw [if_neg hfp, List.nil_append]
        exact ih false true
    · rw [keepLines_cons_nonblank f p l0 ls0 hb]
      cases hK : ConfigCleaner.keepLines false false ls0 with
      | nil => trivial
      | cons k1 K1 =>
        refine ⟨?_, by rw [← hK]; exact ih false false⟩
        intro ⟨hl0, _⟩
        exact hb hl0

theorem keepLines_id (ls : List Str) : ∀ (f p : Bool), NoBB ls →
    (∀ l K, ls = l :: K → jsTrim l = [] → f = false ∧ p = false) →
    ConfigCleaner.keepLines f p ls = ls := by
  induction ls with
  | nil => intro f p _ _; rfl
  | cons l0 ls0 ih =>
    intro f p hnb hhd
    by_cases hb : jsTrim l0 = []
    · obtain ⟨hf, hp⟩ := hhd l0 ls0 rfl hb
      subst hf
      subst hp
      rw [keepLines_cons_blank false false l0 ls0 hb]
      rw [show (!false && !false) = true from rfl, if_pos rfl, List.singleton_append]
      rw [ih false true ?nb ?hd]
      case nb =>
        cases ls0 with
        | nil => trivial
        | cons l2 ls2 => exact hnb.2
      case hd =>
        intro l2 K2 hl2 hb2
        exfalso
        rw [hl2] at hnb
        exact hnb.1 ⟨hb, hb2⟩
    · rw [keepLines_cons_nonblank f p l0 ls0 hb]
      rw [ih false false ?nb ?hd]
      case nb =>
        cases ls0 with
        | nil => trivial
        | cons l2 ls2 => exact hnb.2
      case hd => exact fun l2 K2 hl2 hb2 => ⟨rfl, rfl⟩

/-! ## C4 — blank-status transfer and last-line analysis -/

theorem blank_iff_allWs (u : Str) : jsTrim u = [] ↔ allWs u :=
  ⟨allWs_of_jsTrim_nil, jsTrim_nil_of_allWs⟩

theorem mem_ltrim (u : Str) (c : Char) (h : c ∈ ltrimWs u) : c ∈ u := by
  obtain ⟨P, hP, _⟩ := ltrim_decomp u
  rw [hP]
  exact List.mem_append_right _ h

theorem mem_rtrim (u : Str) (c : Char) (h : c ∈ rtrimWs u) : c ∈ u := by
  obtain ⟨S, hS, _⟩ := rtrim_decomp u
  rw [hS]
  exact List.mem_append_left _ h

theorem mem_jsTrim (u : Str) (c : Char) (h : c ∈ jsTrim u) : c ∈ u := by
  rw [jsTrim_eq_rt_lt] at h
  exact mem_ltrim u c (mem_rtrim (ltrimWs u) c h)

theorem allWs_ltrim_iff (u : Str) : allWs (ltrimWs u) ↔ allWs u := by
  obtain ⟨P, hP, hPw⟩ := ltrim_decomp u
  constructor
  · intro h
    rw [hP]
    exact allWs_append.mpr ⟨hPw, h⟩
  · intro h c hc
    exact h c (mem_ltrim u c hc)

theorem allWs_rtrim_iff (u : Str) : allWs (rtrimWs u) ↔ allWs u := by
  obtain ⟨S, hS, hSw⟩ := rtrim_decomp u
  constructor
  · intro h
    rw [hS]
    exact allWs_append.mpr ⟨h, hSw⟩
  · intro h c hc
    exact h c (mem_rtrim u c hc)

theorem noBB_tail (x : Str) (l : List Str) (h : NoBB (x :: l)) : NoBB l := by
  cases l with
  | nil => trivial
  | cons y l2 => exact h.2

theorem noBB_of_append (t l : List Str) (h : NoBB (t ++ l)) : NoBB l := by
  induction t with
  | nil => exact h
  | cons x t2 ih => exact ih (noBB_tail x (t2 ++ l) h)

theorem noBB_head_congr (a a' : Str) (t : List Str)
    (hst : jsTrim a = [] ↔ jsTrim a' = []) (h : NoBB (a :: t)) :
    NoBB (a' :: t) := by
  cases t with
  | nil => trivial
  | cons b t2 =>
    exact ⟨fun ⟨h1, h2⟩ => h.1 ⟨hst.mpr h1, h2⟩, h.2⟩

theorem noBB_last_congr (t : List Str) (a a' : Str)
    (hst : jsTrim a = [] ↔ jsTrim a' = []) (h : NoBB (t ++ [a])) :
    NoBB (t ++ [a']) := by
  induction t with
  | nil => trivial
  | cons x t2 ih =>
    cases t2 with
    | nil =>
      exact ⟨fun ⟨h1, h2⟩ => h.1 ⟨h1, hst.mpr h2⟩, trivial⟩
    | cons y t3 =>
      exact ⟨h.1, ih h.2⟩

theorem last_decomp (x : Str) (l : List Str) :
    ∃ t a, x :: l = t ++ [a] := by
  induction l generalizing x with
  | nil => exact ⟨[], x, rfl⟩
  | cons y l2 ih =>
    obtain ⟨t, a, ht⟩ := ih y
    exact ⟨x :: t, a, by rw [List.cons_append, ← ht]⟩

theorem last_unique (t ks : List Str) (a b : Str)
    (h : t ++ [a] = ks ++ [b]) : a = b := by
  obtain ⟨Q', hQ'⟩ := split_last ks [b] t a h (List.cons_ne_nil b [])
  cases Q' with
  | nil =>
    rw [List.nil_append] at hQ'
    injection hQ' with hh _
    exact hh.symm
  | cons q Q2 =>
    exfalso
    have := congrArg List.length hQ'
    simp only [List.length_append, List.length_cons, List.length_nil] at this
    omega

theorem rtrim_joinNl_last (mid : List Str) (kl : Str) (hkl : ¬ allWs kl) :
    rtrimWs (joinNl (mid ++ [kl])) = joinNl (mid ++ [rtrimWs kl]) := by
  induction mid with
  | nil => rfl
  | cons m mid2 ih =>
    rw [List.cons_append,
      joinNl_cons m (mid2 ++ [kl]) (by
        cases mid2 with
        | nil => exact fun hh => nomatch hh
        | cons _ _ => exact fun hh => nomatch hh),
      List.cons_append,
      joinNl_cons m (mid2 ++ [rtrimWs kl]) (by
        cases mid2 with
        | nil => exact fun hh => nomatch hh
        | cons _ _ => exact fun hh => nomatch hh)]
    have hJ : ¬ allWs (joinNl (mid2 ++ [kl])) :=
      not_allWs_joinNl (mid2 ++ [kl]) kl
        (List.mem_append_right _ (List.mem_cons_self kl [])) hkl
    have h1 : rtrimWs ((m ++ ['\n']) ++ joinNl (mid2 ++ [kl])) =
        (m ++ ['\n']) ++ rtrimWs (joinNl (mid2 ++ [kl])) :=
      rtrim_append_of_nonblank (m ++ ['\n']) _ hJ
    rw [show m ++ '\n' :: joinNl (mid2 ++ [kl]) =
      (m ++ ['\n']) ++ joinNl (mid2 ++ [kl]) from by simp [List.append_assoc]]
    rw [h1, ih]
    simp [List.append_assoc]

/-! ## C4 — `cleanAndFormat` is idempotent -/

theorem noBB_init : ∀ (t : List Str) (x : Str), NoBB (t ++ [x]) → NoBB t := by
  intro t
  induction t with
  | nil => intro x _; trivial
  | cons y t2 ih =>
    intro x h
    cases t2 with
    | nil => trivial
    | cons z t3 =>
      exact ⟨h.1, ih x h.2⟩

/-- The fixed-point core: a newline-free, well-spaced line list joins and
trims to a text that `cleanAndFormat` leaves unchanged. -/
theorem cleanAndFormat_fix (k0 : Str) (rest : List Str)
    (hnl : ∀ l ∈ (k0 :: rest), '\n' ∉ l)
    (hh : ¬ allWs k0)
    (hnb : NoBB (k0 :: rest))
    (hlast : ∀ t a, k0 :: rest = t ++ [a] → ¬ allWs a) :
    ConfigCleaner.cleanAndFormat (jsTrim (joinNl (k0 :: rest))) =
      jsTrim (joinNl (k0 :: rest)) := by
  cases rest with
  | nil =>
    -- a single non-blank line
    have hout_nl : '\n' ∉ jsTrim k0 :=
      fun hc => hnl k0 (List.mem_cons_self _ _) (mem_jsTrim k0 '\n' hc)
    have hout_nb : ¬ jsTrim (jsTrim k0) = [] := by
      rw [jsTrim_idem]
      exact fun hq => hh (allWs_of_jsTrim_nil hq)
    show ConfigCleaner.cleanAndFormat (jsTrim k0) = jsTrim k0
    show jsTrim (joinNl (ConfigCleaner.keepLines true true (splitNl (jsTrim k0)))) = _
    rw [splitNl_single (jsTrim k0) hout_nl,
      keepLines_cons_nonblank true true (jsTrim k0) [] hout_nb]
    show jsTrim (joinNl [jsTrim k0]) = jsTrim k0
    show jsTrim (jsTrim k0) = jsTrim k0
    exact jsTrim_idem k0
  | cons r1 rest2 =>
    obtain ⟨mid, kl, hmk⟩ := last_decomp r1 rest2
    have hkl_nb : ¬ allWs kl :=
      hlast (k0 :: mid) kl (by rw [List.cons_append, ← hmk])
    have hlist : k0 :: r1 :: rest2 = k0 :: (mid ++ [kl]) := by rw [hmk]
    have hmk_ne : mid ++ [kl] ≠ [] := by
      cases mid with
      | nil => exact fun hq => nomatch hq
      | cons _ _ => exact fun hq => nomatch hq
    have hJ_nb : ¬ allWs (joinNl (mid ++ [kl])) :=
      not_allWs_joinNl (mid ++ [kl]) kl
        (List.mem_append_right _ (List.mem_cons_self kl [])) hkl_nb
    -- the trimmed join, explicitly
    have hout : jsTrim (joinNl (k0 :: r1 :: rest2)) =
        ltrimWs k0 ++ '\n' :: joinNl (mid ++ [rtrimWs kl]) := by
      rw [hlist, joinNl_cons k0 (mid ++ [kl]) hmk_ne, jsTrim_eq_rt_lt,
        ltrim_append_of_nonblank k0 ('\n' :: joinNl (mid ++ [kl])) hh]
      rw [show ltrimWs k0 ++ '\n' :: joinNl (mid ++ [kl]) =
        (ltrimWs k0 ++ ['\n']) ++ joinNl (mid ++ [kl]) from by
          simp [List.append_assoc]]
      rw [rtrim_append_of_nonblank (ltrimWs k0 ++ ['\n']) _ hJ_nb,
        rtrim_joinNl_last mid kl hkl_nb]
      simp [List.append_assoc]
    -- the line structure of the trimmed join
    have hlines : splitNl (jsTrim (joinNl (k0 :: r1 :: rest2))) =
        ltrimWs k0 :: (mid ++ [rtrimWs kl]) := by
      rw [hout, splitNl_append_cons (ltrimWs k0) _
        (fun hc => hnl k0 (List.mem_cons_self _ _) (mem_ltrim k0 '\n' hc))]
      rw [splitNl_joinNl (mid ++ [rtrimWs kl]) (by
          cases mid with
          | nil => exact fun hq => nomatch hq
          | cons _ _ => exact fun hq => nomatch hq) ?_]
      intro l hl
      rcases List.mem_append.mp hl with hm | hm
      · exact hnl l (by
          rw [hlist]
          exact List.mem_cons_of_mem _ (List.mem_append_left _ hm))
      · rcases List.mem_cons.mp hm with hq | hq
        · rw [hq]
          intro hc
          exact hnl kl (by
            rw [hlist]
            exact List.mem_cons_of_mem _
              (List.mem_append_right _ (List.mem_cons_self kl [])))
            (mem_rtrim kl '\n' hc)
        · exact absurd hq (List.not_mem_nil l)
    -- blank statuses survive the end trims
    have hlt_nb : ¬ jsTrim (ltrimWs k0) = [] :=
      fun hq => hh ((allWs_ltrim_iff k0).mp (allWs_of_jsTrim_nil hq))
    have hrt_nb : ¬ jsTrim (rtrimWs kl) = [] :=
      fun hq => hkl_nb ((allWs_rtrim_iff kl).mp (allWs_of_jsTrim_nil hq))
    have hnb2 : NoBB (ltrimWs k0 :: (mid ++ [rtrimWs kl])) := by
      have s1 : NoBB (ltrimWs k0 :: (mid ++ [kl])) := by
        apply noBB_head_congr k0 (ltrimWs k0) (mid ++ [kl]) ?_ (by rw [← hlist]; exact hnb)
        constructor
        · intro hq
          exact jsTrim_nil_of_allWs ((allWs_ltrim_iff k0).mpr (allWs_of_jsTrim_nil hq))
        · intro hq
          exact jsTrim_nil_of_allWs ((allWs_ltrim_iff k0).mp (allWs_of_jsTrim_nil hq))
      have s2 : NoBB ((ltrimWs k0 :: mid) ++ [kl]) := by
        rw [List.cons_append]
        exact s1
      have s3 := noBB_last_congr (ltrimWs k0 :: mid) kl (rtrimWs kl) ?ff s2
      case ff =>
        constructor
        · intro hq
          exact jsTrim_nil_of_allWs ((allWs_rtrim_iff kl).mpr (allWs_of_jsTrim_nil hq))
        · intro hq
          exact jsTrim_nil_of_allWs ((allWs_rtrim_iff kl).mp (allWs_of_jsTrim_nil hq))
      rw [List.cons_append] at s3
      exact s3
    -- now compute
    show jsTrim (joinNl (ConfigCleaner.keepLines true true
      (splitNl (jsTrim (joinNl (k0 :: r1 :: rest2)))))) = _
    rw [hlines, keepLines_id (ltrimWs k0 :: (mid ++ [rtrimWs kl])) true true hnb2
      (fun l K hlK hbK => absurd hbK (by
        injection hlK with h1 _
        rw [← h1]
        exact hlt_nb))]
    rw [← hlines, joinNl_splitNl, jsTrim_idem]

theorem cleanAndFormat_idem (s : Str) :
    ConfigCleaner.cleanAndFormat (ConfigCleaner.cleanAndFormat s) =
      ConfigCleaner.cleanAndFormat s := by
  have hcf : ConfigCleaner.cleanAndFormat s =
      jsTrim (joinNl (ConfigCleaner.keepLines true true (splitNl s))) := rfl
  have hmem0 : ∀ l ∈ ConfigCleaner.keepLines true true (splitNl s), '\n' ∉ l :=
    fun l hl => splitNl_no_newline s l (keepLines_mem (splitNl s) true true l hl)
  have hnb0 : NoBB (ConfigCleaner.keepLines true true (splitNl s)) :=
    keepLines_noBB (splitNl s) true true
  cases hke : ConfigCleaner.keepLines true true (splitNl s) with
  | nil =>
    rw [hcf, hke]
    rfl
  | cons k0 krest =>
    have hk0 : ¬ jsTrim k0 = [] :=
      keepLines_head_nonblank (splitNl s) true k0 krest hke
    have hk0w : ¬ allWs k0 := fun hq => hk0 (jsTrim_nil_of_allWs hq)
    rw [hke] at hmem0 hnb0
    obtain ⟨ks, klast, hkk⟩ := last_decomp k0 krest
    by_cases hbl : allWs klast
    · -- trailing blank line, trimmed away together with its newline
      have hks_ne : ks ≠ [] := by
        intro hq
        rw [hq, List.nil_append] at hkk
        injection hkk with h1 _
        exact hk0w (by rw [h1]; exact hbl)
      obtain ⟨ks2, hks2⟩ : ∃ ks2, ks = k0 :: ks2 := by
        cases ks with
        | nil => exact absurd rfl hks_ne
        | cons a as =>
          rw [List.cons_append] at hkk
          injection hkk with h1 _
          exact ⟨as, by rw [← h1]⟩
      have hks_nb : ¬ allWs (joinNl ks) :=
        not_allWs_joinNl ks k0 (by rw [hks2]; exact List.mem_cons_self _ _) hk0w
      have htrim : jsTrim (joinNl (k0 :: krest)) = jsTrim (joinNl ks) := by
        rw [hkk, joinNl_append_last ks klast hks_ne, jsTrim_eq_rt_lt,
          ltrim_append_of_nonblank (joinNl ks) ('\n' :: klast) hks_nb,
          rtrim_append_ws_tail (ltrimWs (joinNl ks)) klast hbl,
          ← jsTrim_eq_rt_lt]
      rw [hcf, hke, htrim]
      rw [hks2]
      apply cleanAndFormat_fix k0 ks2
      · intro l hl
        apply hmem0 l
        rw [hkk]
        rw [← hks2] at hl
        exact List.mem_append_left _ hl
      · exact hk0w
      · have h3 : NoBB (ks ++ [klast]) := by rw [← hkk]; exact hnb0
        have h4 : NoBB ks := noBB_init ks klast h3
        rw [hks2] at h4
        exact h4
      · intro t a hta
        -- the last line of `ks` is non-blank: it sits just before the blank
        -- `klast` in the kept lines
        have hnbb : NoBB ((t ++ [a]) ++ [klast]) := by
          rw [← hta, ← hks2, ← hkk]
          exact hnb0
        have h2 : NoBB [a, klast] := by
          have := noBB_of_append t ([a] ++ [klast]) (by
            rw [← List.append_assoc]
            exact hnbb)
          exact this
        intro haw
        exact h2.1 ⟨jsTrim_nil_of_allWs haw, jsTrim_nil_of_allWs hbl⟩
    · rw [hcf, hke, hkk]
      obtain ⟨ks2, hks2⟩ : ∃ ks2, ks ++ [klast] = k0 :: ks2 := by
        cases ks with
        | nil =>
          rw [List.nil_append] at hkk ⊢
          injection hkk with h1 _
          exact ⟨[], by rw [h1]⟩
        | cons a as =>
          rw [List.cons_append] at hkk ⊢
          injection hkk with h1 _
          exact ⟨as ++ [klast], by rw [h1]⟩
      rw [hks2]
      apply cleanAndFormat_fix k0 ks2
      · intro l hl
        apply hmem0 l
        rw [hkk, hks2]
        exact hl
      · exact hk0w
      · rw [← hks2, ← hkk]
        exact hnb0
      · intro t a hta
        have : a = klast := last_unique t ks a klast (by rw [← hta, hks2])
        rw [this]
        exact hbl

/-! ## C4 — final assembly: idempotence for plain keys -/

theorem isPrefixOf_decomp (pre key : Str) (h : pre.isPrefixOf key = true) :
    ∃ t, key = pre ++ t := by
  induction pre generalizing key with
  | nil => exact ⟨key, rfl⟩
  | cons p ps ih =>
    cases key with
    | nil => exact nomatch h
    | cons c cs =>
      rw [show (p :: ps : Str).isPrefixOf (c :: cs) = (p == c && ps.isPrefixOf cs)
        from rfl, Bool.and_eq_true] at h
      obtain ⟨t, ht⟩ := ih cs h.2
      exact ⟨t, by rw [List.cons_append, ← ht, eq_of_beq h.1]⟩

theorem plainKey_not_header (key : Str) (hk : PlainKey key) :
    "add_header ".data.isPrefixOf key = false := by
  by_contra hq
  rw [Bool.not_eq_false] at hq
  obtain ⟨t, ht⟩ := isPrefixOf_decomp _ key hq
  have hmem : ' ' ∈ key := by
    rw [ht]
    exact List.mem_append_left _ (by decide)
  have := (hk.2 ' ' hmem).1
  exact absurd this (by decide)

theorem plainKey_not_proxyHeader (key : Str) (hk : PlainKey key) :
    "proxy_set_header ".data.isPrefixOf key = false := by
  by_contra hq
  rw [Bool.not_eq_false] at hq
  obtain ⟨t, ht⟩ := isPrefixOf_decomp _ key hq
  have hmem : ' ' ∈ key := by
    rw [ht]
    exact List.mem_append_left _ (by decide)
  have := (hk.2 ' ' hmem).1
  exact absurd this (by decide)

theorem removeDirective_plain (key : Str) (hk : PlainKey key) :
    ∃ ci, ∀ t, ConfigCleaner.removeDirective t key =
      if jsTrim t = [] then [] else
        ConfigCleaner.cleanAndFormat (replaceAll (attemptPlain ci key) t) := by
  have h1 := plainKey_not_header key hk
  have h2 := plainKey_not_proxyHeader key hk
  by_cases hdk : ConfigCleaner.directiveKeys.contains key = true
  · refine ⟨false, fun t => ?_⟩
    unfold ConfigCleaner.removeDirective
    by_cases hemp : jsTrim t = []
    · rw [if_pos hemp, if_pos hemp]
    · rw [if_neg hemp, if_neg hemp,
        if_neg (by rw [h1]; exact fun hh => nomatch hh),
        if_neg (by rw [h2]; exact fun hh => nomatch hh),
        if_pos hdk]
  · refine ⟨true, fun t => ?_⟩
    unfold ConfigCleaner.removeDirective
    by_cases hemp : jsTrim t = []
    · rw [if_pos hemp, if_pos hemp]
    · rw [if_neg hemp, if_neg hemp,
        if_neg (by rw [h1]; exact fun hh => nomatch hh),
        if_neg (by rw [h2]; exact fun hh => nomatch hh),
        if_neg hdk]

theorem replGo_id (att : Str → Option Nat) :
    ∀ (s : Str) (b : Bool),
      (∀ u v, s = u ++ v → LineStartish b u → att v = none) →
      replGo att 0 b s = s := by
  intro s
  induction s with
  | nil => intro b _; rfl
  | cons c rest ih
  =>
    intro b hno
    have htail : replGo att 0 (isLT c) rest = rest := by
      apply ih (isLT c)
      intro u v huv hls
      apply hno (c :: u) v (by rw [huv]; rfl)
      rcases hls with ⟨hu, hflag⟩ | ⟨p, d, hpd, hdlt⟩
      · subst hu
        exact Or.inr ⟨[], c, rfl, hflag⟩
      · exact Or.inr ⟨c :: p, d, by rw [hpd]; rfl, hdlt⟩
    by_cases hb : b = true
    · subst hb
      rw [show replGo att 0 true (c :: rest) = (match att (c :: rest) with
        | some t => replGo att (t - 1) (isLT c) rest
        | none => c :: replGo att 0 (isLT c) rest) from rfl]
      rw [hno [] (c :: rest) rfl (Or.inl ⟨rfl, rfl⟩)]
      rw [htail]
    · have hbf : b = false := by
        cases b with
        | true => exact absurd rfl hb
        | false => rfl
      subst hbf
      rw [show replGo att 0 false (c :: rest) =
        c :: replGo att 0 (isLT c) rest from rfl, htail]

/-- Every cleaned text is already trimmed. -/
theorem cleanAndFormat_trimmed (s : Str) :
    jsTrim (ConfigCleaner.cleanAndFormat s) = ConfigCleaner.cleanAndFormat s :=
  jsTrim_idem _

/-- C4 (amended): the cleaner is idempotent for every plain directive key — a
nonempty key containing no whitespace and no semicolon, which covers every
`DIRECTIVE_PATTERNS` key and every single-token key sent to the generic
pattern.  (For the composite `add_header <name>` keys it fails,
see the counterexample.)  For all text `T`,
`removeDirective (removeDirective T K) K = removeDirective T K`. -/
theorem claim_C4 (text key : Str) (hk : PlainKey key) :
    ConfigCleaner.removeDirective (ConfigCleaner.removeDirective text key) key =
      ConfigCleaner.removeDirective text key := by
  obtain ⟨ci, hrd⟩ := removeDirective_plain key hk
  by_cases hemp : jsTrim text = []
  · rw [hrd text, if_pos hemp, hrd [], if_pos (show jsTrim ([] : Str) = [] from rfl)]
  · rw [hrd text, if_neg hemp]
    have hnm_out : NoMatch ci key true
        (ConfigCleaner.cleanAndFormat (replaceAll (attemptPlain ci key) text)) :=
      wsIns_noMatch ci key hk
        (cleanAndFormat_wsIns (replaceAll (attemptPlain ci key) text))
        (replaceAll_noMatch ci key text hk)
    have hid : replaceAll (attemptPlain ci key)
        (ConfigCleaner.cleanAndFormat (replaceAll (attemptPlain ci key) text)) =
        ConfigCleaner.cleanAndFormat (replaceAll (attemptPlain ci key) text) := by
      apply replGo_id
      intro u v huv hls
      exact (attemptPlain_none_iff ci key v hk).mpr (hnm_out u v huv hls)
    rw [hrd]
    by_cases hoemp : jsTrim
        (ConfigCleaner.cleanAndFormat (replaceAll (attemptPlain ci key) text)) = []
    · rw [if_pos hoemp]
      rw [← cleanAndFormat_trimmed (replaceAll (attemptPlain ci key) text), hoemp]
    · rw [if_neg hoemp, hid]
      exact cleanAndFormat_idem (replaceAll (attemptPlain ci key) text)

/-- C4 witness: the amended idempotence applied to the plain key `user` on a
small configuration text. -/
theorem claim_C4_witness :
    PlainKey "user".data ∧
      ConfigCleaner.removeDirective
        (ConfigCleaner.removeDirective "user nginx;\nworker_processes auto;".data
          "user".data) "user".data =
      ConfigCleaner.removeDirective "user nginx;\nworker_processes auto;".data
        "user".data :=
  ⟨⟨by decide, by decide⟩,
    claim_C4 "user nginx;\nworker_processes auto;".data "user".data
      ⟨by decide, by decide⟩⟩
